import Mathlib

/-! # go-dspy: prompt construction and response parsing

A shallow embedding of `dspy/predictor.go` and `dspy/errors.go`.

Go strings are byte sequences, so a string is a list of byte values.  The
functions of the Go standard library that the predictor calls (`strings`,
`unicode/utf8`, `encoding/json`, `fmt`) are embedded next to it.  The parts of
the standard library that are data tables or floating point (the Unicode case
and category tables, float parsing and printing) are the fields of `Stdlib`.
-/

set_option linter.dupNamespace false

namespace GoDspy

/-- A Go string: its bytes, each below 256. -/
abbrev Bytes := List Nat

/-- The bytes of an ASCII literal. -/
def ascii (s : String) : Bytes := s.data.map Char.toNat

/-- The tables of the Go standard library that are not embedded: the case
mappings of `unicode` above ASCII, its letter and digit categories, the case
folding of `encoding/json`, and the float conversions of `strconv` on IEEE bit
patterns. -/
structure Stdlib where
  lower : Nat → Nat
  title : Nat → Nat
  fold : Nat → Nat
  isLetter : Nat → Bool
  isDigit : Nat → Bool
  parseFloat : Nat → Bytes → Option Nat
  formatFloat : Nat → Nat → Bytes

/-! ## unicode/utf8 -/

/-- The constant `utf8.RuneError`. -/
def RuneError : Nat := 0xFFFD

/-- The constant `utf8.RuneSelf`. -/
def RuneSelf : Nat := 0x80

/-- A continuation byte, in `locb..hicb`. -/
def isCont (b : Nat) : Bool := 0x80 ≤ b && b ≤ 0xBF

/-- The entry of `utf8.first` together with `utf8.acceptRanges`: the size of the
sequence a lead byte starts and the range its second byte must lie in; `none`
for ASCII and for invalid lead bytes. -/
def leadInfo (s0 : Nat) : Option (Nat × Nat × Nat) :=
  if 0xC2 ≤ s0 ∧ s0 ≤ 0xDF then some (2, 0x80, 0xBF)
  else if s0 = 0xE0 then some (3, 0xA0, 0xBF)
  else if s0 = 0xED then some (3, 0x80, 0x9F)
  else if 0xE1 ≤ s0 ∧ s0 ≤ 0xEF then some (3, 0x80, 0xBF)
  else if s0 = 0xF0 then some (4, 0x90, 0xBF)
  else if 0xF1 ≤ s0 ∧ s0 ≤ 0xF3 then some (4, 0x80, 0xBF)
  else if s0 = 0xF4 then some (4, 0x80, 0x8F)
  else none

/-- `utf8.DecodeRuneInString`: the first rune of `s` and its width in bytes;
`(RuneError, 1)` for an invalid or short encoding, `(RuneError, 0)` for the
empty string. -/
def DecodeRuneInString (s : Bytes) : Nat × Nat :=
  match s with
  | [] => (RuneError, 0)
  | s0 :: rest =>
    if s0 < RuneSelf then (s0, 1)
    else
      match leadInfo s0 with
      | none => (RuneError, 1)
      | some (sz, lo, hi) =>
        if s.length < sz then (RuneError, 1)
        else
          match rest with
          | [] => (RuneError, 1)
          | s1 :: rest1 =>
            if s1 < lo ∨ hi < s1 then (RuneError, 1)
            else if sz ≤ 2 then (s0 % 32 * 64 + s1 % 64, 2)
            else
              match rest1 with
              | [] => (RuneError, 1)
              | s2 :: rest2 =>
                if !isCont s2 then (RuneError, 1)
                else if sz ≤ 3 then (s0 % 16 * 4096 + s1 % 64 * 64 + s2 % 64, 3)
                else
                  match rest2 with
                  | [] => (RuneError, 1)
                  | s3 :: _ =>
                    if !isCont s3 then (RuneError, 1)
                    else (s0 % 8 * 262144 + s1 % 64 * 4096 + s2 % 64 * 64 + s3 % 64, 4)

/-- `utf8.AppendRune`: the UTF-8 encoding of a rune; surrogates and values
above `MaxRune` are written as `RuneError`. -/
def EncodeRune (r : Nat) : Bytes :=
  if r < 0x80 then [r]
  else if r < 0x800 then [0xC0 + r / 64, 0x80 + r % 64]
  else if 0x10FFFF < r ∨ (0xD800 ≤ r ∧ r ≤ 0xDFFF) then [0xEF, 0xBF, 0xBD]
  else if r < 0x10000 then [0xE0 + r / 4096, 0x80 + r / 64 % 64, 0x80 + r % 64]
  else [0xF0 + r / 262144, 0x80 + r / 4096 % 64, 0x80 + r / 64 % 64, 0x80 + r % 64]

/-- All bytes are below `RuneSelf`. -/
def isASCII (s : Bytes) : Bool := s.all fun c => decide (c < RuneSelf)

/-- Every rune of the string decodes without error (`utf8.ValidString`).  The
counter is the number of bytes still belonging to the rune decoded last. -/
def validFrom : Nat → Bytes → Bool
  | _, [] => true
  | k + 1, _ :: cs => validFrom k cs
  | 0, c :: cs =>
    let d := DecodeRuneInString (c :: cs)
    if d.1 = RuneError ∧ d.2 = 1 then false else validFrom (d.2 - 1) cs

/-- `utf8.ValidString`. -/
def ValidString (s : Bytes) : Bool := validFrom 0 s

/-! ## unicode -/

/-- The ASCII branch of `unicode.ToLower`. -/
def lowerByte (c : Nat) : Nat := if 0x41 ≤ c ∧ c ≤ 0x5A then c + 32 else c

/-- The ASCII branch of `unicode.ToUpper` and `unicode.ToTitle`. -/
def upperByte (c : Nat) : Nat := if 0x61 ≤ c ∧ c ≤ 0x7A then c - 32 else c

/-- `unicode.ToLower`. -/
def unicodeToLower (L : Stdlib) (r : Nat) : Nat :=
  if r ≤ 0x7F then lowerByte r else L.lower r

/-- `unicode.ToTitle`. -/
def unicodeToTitle (L : Stdlib) (r : Nat) : Nat :=
  if r ≤ 0x7F then upperByte r else L.title r

/-- `unicode.IsSpace`: the Latin-1 spaces and the code points with the
White_Space property. -/
def unicodeIsSpace (r : Nat) : Bool :=
  r = 0x09 || r = 0x0A || r = 0x0B || r = 0x0C || r = 0x0D || r = 0x20 ||
  r = 0x85 || r = 0xA0 || r = 0x1680 || (0x2000 ≤ r && r ≤ 0x200A) ||
  r = 0x2028 || r = 0x2029 || r = 0x202F || r = 0x205F || r = 0x3000

/-! ## strings -/

/-- `strings.Map`: every rune of `s` (an invalid byte reads as `RuneError`) is
replaced by the encoding of its image.  The counter is the number of bytes still
belonging to the rune decoded last. -/
def mapRunes (f : Nat → Nat) : Nat → Bytes → Bytes
  | _, [] => []
  | k + 1, _ :: cs => mapRunes f k cs
  | 0, c :: cs =>
    let d := DecodeRuneInString (c :: cs)
    EncodeRune (f d.1) ++ mapRunes f (d.2 - 1) cs

/-- `strings.ToLower`: ASCII strings are lowered byte by byte, all others rune
by rune through `strings.Map`. -/
def ToLower (L : Stdlib) (s : Bytes) : Bytes :=
  if isASCII s then s.map lowerByte else mapRunes (unicodeToLower L) 0 s

/-- `strings.isSeparator`. -/
def isSeparator (L : Stdlib) (r : Nat) : Bool :=
  if r ≤ 0x7F then
    !((0x30 ≤ r && r ≤ 0x39) || (0x61 ≤ r && r ≤ 0x7A) || (0x41 ≤ r && r ≤ 0x5A) || r = 0x5F)
  else if L.isLetter r || L.isDigit r then false
  else unicodeIsSpace r

/-- The closure of `strings.Title` run by `strings.Map`: `prev` is the rune seen
last. -/
def titleRunes (L : Stdlib) : Nat → Nat → Bytes → Bytes
  | _, _, [] => []
  | prev, k + 1, _ :: cs => titleRunes L prev k cs
  | prev, 0, c :: cs =>
    let d := DecodeRuneInString (c :: cs)
    EncodeRune (if isSeparator L prev then unicodeToTitle L d.1 else d.1)
      ++ titleRunes L d.1 (d.2 - 1) cs

/-- `strings.Title`. -/
def Title (L : Stdlib) (s : Bytes) : Bytes := titleRunes L 0x20 0 s

/-- `strings.HasPrefix`. -/
def HasPrefix (s pre : Bytes) : Bool := pre.isPrefixOf s

/-- The first offset at or after `i` where `sep` starts in `s`, `s` being the
text from offset `i` on. -/
def indexFrom (sep : Bytes) : Bytes → Nat → Option Nat
  | [], i => if sep.isPrefixOf [] then some i else none
  | c :: cs, i => if sep.isPrefixOf (c :: cs) then some i else indexFrom sep cs (i + 1)

/-- `strings.Index`: the offset of the first occurrence of `sep` in `s`, or -1. -/
def Index (s sep : Bytes) : Int :=
  match indexFrom sep s 0 with
  | some i => (i : Int)
  | none => -1

/-- `strings.Join`. -/
def Join : List Bytes → Bytes → Bytes
  | [], _ => []
  | [a], _ => a
  | a :: b :: rest, sep => a ++ sep ++ Join (b :: rest) sep

/-- The encodings of the runes of `unicode.IsSpace`. -/
def isSpaceSeq (s : Bytes) : Bool :=
  match s with
  | [a] => a = 0x09 || a = 0x0A || a = 0x0B || a = 0x0C || a = 0x0D || a = 0x20
  | [a, b] => a = 0xC2 && (b = 0x85 || b = 0xA0)
  | [a, b, c] =>
    (a = 0xE1 && b = 0x9A && c = 0x80) ||
    (a = 0xE2 && b = 0x80 && ((0x80 ≤ c && c ≤ 0x8A) || c = 0xA8 || c = 0xA9 || c = 0xAF)) ||
    (a = 0xE2 && b = 0x81 && c = 0x9F) ||
    (a = 0xE3 && b = 0x80 && c = 0x80)
  | _ => false

/-- `strings.TrimLeftFunc(s, unicode.IsSpace)`: leading white space removed. -/
def TrimLeftSpace : Bytes → Bytes
  | [] => []
  | a :: t =>
    if isSpaceSeq [a] then TrimLeftSpace t
    else
      match t with
      | [] => [a]
      | b :: t2 =>
        if isSpaceSeq [a, b] then TrimLeftSpace t2
        else
          match t2 with
          | [] => [a, b]
          | c :: t3 => if isSpaceSeq [a, b, c] then TrimLeftSpace t3 else a :: b :: c :: t3

/-- `strings.TrimRightFunc(s, unicode.IsSpace)`: trailing white space removed.
The text kept after a byte is trimmed first; what is left is dropped when it is
the encoding of one white space rune. -/
def TrimRightSpace : Bytes → Bytes
  | [] => []
  | a :: t => if isSpaceSeq (a :: TrimRightSpace t) then [] else a :: TrimRightSpace t

/-- `strings.TrimSpace`. -/
def TrimSpace (s : Bytes) : Bytes := TrimRightSpace (TrimLeftSpace s)

/-- The slice expression `s[lo:]`; `none` is the run-time panic "slice bounds
out of range". -/
def sliceFrom (s : Bytes) (lo : Int) : Option Bytes :=
  if 0 ≤ lo ∧ lo ≤ s.length then some (s.drop lo.toNat) else none

/-- The slice expression `s[lo:hi]`; `none` is the run-time panic "slice bounds
out of range". -/
def slice (s : Bytes) (lo hi : Int) : Option Bytes :=
  if 0 ≤ lo ∧ lo ≤ hi ∧ hi ≤ s.length then some ((s.take hi.toNat).drop lo.toNat) else none

/-! ## reflect: kinds, types and values -/

/-- The kinds of `reflect.Kind` a field of a flat record can have. -/
inductive Kind
  | String | Bool
  | Int | Int8 | Int16 | Int32 | Int64
  | Uint | Uint8 | Uint16 | Uint32 | Uint64
  | Float32 | Float64
  deriving DecidableEq, Repr

/-- A scalar Go value.  A float is its IEEE bit pattern. -/
inductive Value
  | str (s : Bytes)
  | bool (b : Bool)
  | int (n : Int)
  | uint (n : Nat)
  | float (bitSize : Nat) (bits : Nat)
  deriving DecidableEq, Repr

/-- The zero value of a kind. -/
def zeroValue : Kind → Value
  | .String => .str []
  | .Bool => .bool false
  | .Int | .Int8 | .Int16 | .Int32 | .Int64 => .int 0
  | .Uint | .Uint8 | .Uint16 | .Uint32 | .Uint64 => .uint 0
  | .Float32 => .float 32 0
  | .Float64 => .float 64 0

/-- The part of `reflect.StructField` the predictor reads. -/
structure StructField where
  Name : Bytes
  PkgPath : Bytes
  Typ : Kind
  deriving DecidableEq, Repr

/-- `StructField.IsExported`: the package path is empty. -/
def StructField.IsExported (f : StructField) : Bool := f.PkgPath = []

/-- A Go type: a scalar, a flat struct, or a pointer. -/
inductive GoType
  | scalar (k : Kind)
  | struct (fields : List StructField)
  | ptr (elem : GoType)
  deriving DecidableEq, Repr

/-- A Go value: a scalar, the field values of a struct in declaration order, the
nil pointer, or a pointer to a value. -/
inductive GoValue
  | scalar (v : Value)
  | struct (fields : List Value)
  | nil
  | ref (v : GoValue)
  deriving DecidableEq, Repr

/-- The zero value of a type (`var output O`). -/
def zero : GoType → GoValue
  | .scalar k => .scalar (zeroValue k)
  | .struct fs => .struct (fs.map fun f => zeroValue f.Typ)
  | .ptr _ => .nil

/-! ## encoding/json -/

/-- A parsed JSON text.  A number keeps its literal, a string is unquoted. -/
inductive Json
  | null
  | bool (b : Bool)
  | num (lit : Bytes)
  | str (s : Bytes)
  | arr (items : List Json)
  | obj (members : List (Bytes × Json))

/-- The white space of the JSON scanner. -/
def isJsonSpace (c : Nat) : Bool := c = 0x20 || c = 0x09 || c = 0x0D || c = 0x0A

/-- Leading JSON white space skipped. -/
def skipWs : Bytes → Bytes
  | [] => []
  | c :: cs => if isJsonSpace c then skipWs cs else c :: cs

/-- A hexadecimal digit. -/
def isHex (c : Nat) : Bool :=
  (0x30 ≤ c && c ≤ 0x39) || (0x61 ≤ c && c ≤ 0x66) || (0x41 ≤ c && c ≤ 0x46)

/-- The value of a hexadecimal digit. -/
def hexVal (c : Nat) : Nat :=
  if 0x30 ≤ c ∧ c ≤ 0x39 then c - 0x30
  else if 0x61 ≤ c ∧ c ≤ 0x66 then c - 0x61 + 10
  else c - 0x41 + 10

/-- A decimal digit. -/
def isDigitByte (c : Nat) : Bool := 0x30 ≤ c && c ≤ 0x39

/-- The states of the JSON scanner inside a string literal: `stateInString`,
`stateInStringEsc`, and `stateInStringEscU` to `stateInStringEscU123` with the
number of hexadecimal digits still to come. -/
inductive ScanState
  | inString
  | inStringEsc
  | inStringEscU (left : Nat)

/-- One more byte in front of the raw text scanned. -/
def scanned (c : Nat) (r : Option (Bytes × Bytes)) : Option (Bytes × Bytes) :=
  match r with
  | some (raw, rest) => some (c :: raw, rest)
  | none => none

/-- The scanner inside a string literal, from a state on: the raw text up to the
closing quote and the text after it; `none` for a syntax error. -/
def scanStringFrom : ScanState → Bytes → Option (Bytes × Bytes)
  | _, [] => none
  | .inString, c :: cs =>
    if c = 0x22 then some ([], cs)
    else if c = 0x5C then scanned c (scanStringFrom .inStringEsc cs)
    else if c < 0x20 then none
    else scanned c (scanStringFrom .inString cs)
  | .inStringEsc, c :: cs =>
    if c = 0x22 || c = 0x5C || c = 0x2F || c = 0x62 || c = 0x66 || c = 0x6E ||
        c = 0x72 || c = 0x74 then scanned c (scanStringFrom .inString cs)
    else if c = 0x75 then scanned c (scanStringFrom (.inStringEscU 4) cs)
    else none
  | .inStringEscU left, c :: cs =>
    if isHex c then
      scanned c (scanStringFrom (if left ≤ 1 then .inString else .inStringEscU (left - 1)) cs)
    else none

/-- The scanner inside a string literal, after the opening quote. -/
def scanString (s : Bytes) : Option (Bytes × Bytes) := scanStringFrom .inString s

/-- `getu4`: the code unit of a `\uXXXX` escape at the start of `s`. -/
def getu4 (s : Bytes) : Option Nat :=
  match s with
  | 0x5C :: 0x75 :: h1 :: h2 :: h3 :: h4 :: _ =>
    if isHex h1 && isHex h2 && isHex h3 && isHex h4 then
      some (hexVal h1 * 4096 + hexVal h2 * 256 + hexVal h3 * 16 + hexVal h4)
    else none
  | _ => none

/-- `utf16.DecodeRune`. -/
def utf16DecodeRune (r1 : Nat) (r2 : Option Nat) : Nat :=
  match r2 with
  | some r2 =>
    if 0xD800 ≤ r1 ∧ r1 < 0xDC00 ∧ 0xDC00 ≤ r2 ∧ r2 < 0xE000 then
      (r1 - 0xD800) * 1024 + (r2 - 0xDC00) + 0x10000
    else RuneError
  | none => RuneError

/-- The byte a one-letter escape stands for. -/
def escapeByte (e : Nat) : Nat :=
  if e = 0x62 then 0x08 else if e = 0x66 then 0x0C else if e = 0x6E then 0x0A
  else if e = 0x72 then 0x0D else if e = 0x74 then 0x09 else e

/-- The copying loop of `unquoteBytes` on a scanned literal: escapes are
replaced and invalid UTF-8 is coerced to `RuneError`.  The counter is the number
of bytes already consumed ahead. -/
def unquoteLoop : Nat → Bytes → Bytes
  | _, [] => []
  | k + 1, _ :: cs => unquoteLoop k cs
  | 0, c :: cs =>
    if c = 0x5C then
      match cs with
      | [] => []
      | e :: _ =>
        if e = 0x75 then
          match getu4 (c :: cs) with
          | none => []
          | some rr =>
            if 0xD800 ≤ rr ∧ rr < 0xE000 then
              let dec := utf16DecodeRune rr (getu4 (cs.drop 5))
              if dec ≠ RuneError then EncodeRune dec ++ unquoteLoop 11 cs
              else EncodeRune RuneError ++ unquoteLoop 5 cs
            else EncodeRune rr ++ unquoteLoop 5 cs
        else escapeByte e :: unquoteLoop 1 cs
    else if c < RuneSelf then c :: unquoteLoop 0 cs
    else
      let d := DecodeRuneInString (c :: cs)
      EncodeRune d.1 ++ unquoteLoop (d.2 - 1) cs

/-- A byte that `unquoteBytes` copies unchanged on its fast path. -/
def plainByte (c : Nat) : Bool := !(c = 0x5C || c = 0x22 || c < 0x20)

/-- `unquoteBytes` on the text between the quotes: returned as it is when it has
no escape and is valid UTF-8, rewritten by the copying loop otherwise. -/
def unquote (s : Bytes) : Bytes :=
  if s.all plainByte && ValidString s then s else unquoteLoop 0 s

/-- The digits at the start of `s` and the text after them. -/
def spanDigits : Bytes → Bytes × Bytes
  | [] => ([], [])
  | c :: cs =>
    if isDigitByte c then ((spanDigits cs).1.cons c, (spanDigits cs).2) else ([], c :: cs)

/-- The scanner on a number literal: the literal and the text after it. -/
def scanNumber (s : Bytes) : Option (Bytes × Bytes) :=
  let signed := match s with
    | 0x2D :: t => ([0x2D], t)
    | _ => ([], s)
  let whole : Option (Bytes × Bytes) := match signed.2 with
    | [] => none
    | c :: t =>
      if c = 0x30 then some ([c], t)
      else if 0x31 ≤ c ∧ c ≤ 0x39 then some (c :: (spanDigits t).1, (spanDigits t).2)
      else none
  match whole with
  | none => none
  | some (w, r) =>
    let frac : Option (Bytes × Bytes) := match r with
      | 0x2E :: r1 =>
        if (spanDigits r1).1 = [] then none else some (0x2E :: (spanDigits r1).1, (spanDigits r1).2)
      | _ => some ([], r)
    match frac with
    | none => none
    | some (f, r2) =>
      let exp : Option (Bytes × Bytes) := match r2 with
        | e :: r3 =>
          if e = 0x65 ∨ e = 0x45 then
            let sg := match r3 with
              | 0x2B :: t => ([0x2B], t)
              | 0x2D :: t => ([0x2D], t)
              | _ => ([], r3)
            if (spanDigits sg.2).1 = [] then none
            else some (e :: sg.1 ++ (spanDigits sg.2).1, (spanDigits sg.2).2)
          else some ([], r2)
        | [] => some ([], r2)
      match exp with
      | none => none
      | some (x, r4) => some (signed.1 ++ w ++ f ++ x, r4)

mutual
/-- One JSON value at the start of the text, leading white space allowed, and
the text after it.  The first argument bounds the nesting and the number of
members read; the length of the text is always enough. -/
def parseValue : Nat → Bytes → Option (Json × Bytes)
  | 0, _ => none
  | fuel + 1, s =>
    match skipWs s with
    | [] => none
    | c :: t =>
      if c = 0x7B then
        match skipWs t with
        | 0x7D :: rest => some (.obj [], rest)
        | _ => match parseMembers fuel t with
          | some (ms, rest) => some (.obj ms, rest)
          | none => none
      else if c = 0x5B then
        match skipWs t with
        | 0x5D :: rest => some (.arr [], rest)
        | _ => match parseItems fuel t with
          | some (items, rest) => some (.arr items, rest)
          | none => none
      else if c = 0x22 then
        match scanString t with
        | some (raw, rest) => some (.str (unquote raw), rest)
        | none => none
      else if c = 0x2D ∨ isDigitByte c then
        match scanNumber (c :: t) with
        | some (lit, rest) => some (.num lit, rest)
        | none => none
      else if (ascii "true").isPrefixOf (c :: t) then some (.bool true, t.drop 3)
      else if (ascii "false").isPrefixOf (c :: t) then some (.bool false, t.drop 4)
      else if (ascii "null").isPrefixOf (c :: t) then some (.null, t.drop 3)
      else none
/-- The members of an object after its opening brace, up to and including the
closing brace. -/
def parseMembers : Nat → Bytes → Option (List (Bytes × Json) × Bytes)
  | 0, _ => none
  | fuel + 1, s =>
    match skipWs s with
    | 0x22 :: t =>
      match scanString t with
      | none => none
      | some (raw, rest) =>
        match skipWs rest with
        | 0x3A :: rest1 =>
          match parseValue fuel rest1 with
          | none => none
          | some (v, rest2) =>
            match skipWs rest2 with
            | 0x2C :: rest3 =>
              match parseMembers fuel rest3 with
              | some (ms, rest4) => some ((unquote raw, v) :: ms, rest4)
              | none => none
            | 0x7D :: rest3 => some ([(unquote raw, v)], rest3)
            | _ => none
        | _ => none
    | _ => none
/-- The items of an array after its opening bracket, up to and including the
closing bracket. -/
def parseItems : Nat → Bytes → Option (List Json × Bytes)
  | 0, _ => none
  | fuel + 1, s =>
    match parseValue fuel s with
    | none => none
    | some (v, rest) =>
      match skipWs rest with
      | 0x2C :: rest1 =>
        match parseItems fuel rest1 with
        | some (items, rest2) => some (v :: items, rest2)
        | none => none
      | 0x5D :: rest1 => some ([v], rest1)
      | _ => none
end

/-- `checkValid` and the scan of the decoder: the value of a text that is one
JSON value with white space around it, `none` for a syntax error. -/
def parseJson (data : Bytes) : Option Json :=
  match parseValue (data.length + 1) data with
  | some (j, rest) => if skipWs rest = [] then some j else none
  | none => none

/-- The errors `json.Unmarshal` returns. -/
inductive UnmarshalError
  | SyntaxError
  | UnmarshalTypeError
  deriving DecidableEq, Repr

/-- The value of a run of decimal digits. -/
def digitsVal (ds : Bytes) : Nat := ds.foldl (fun acc c => acc * 10 + (c - 0x30)) 0

/-- `strconv.ParseUint(s, 10, 64)` without the range check. -/
def parseUintLit (lit : Bytes) : Option Nat :=
  if lit ≠ [] ∧ lit.all isDigitByte then some (digitsVal lit) else none

/-- `strconv.ParseInt(s, 10, 64)` without the range check. -/
def parseIntLit (lit : Bytes) : Option Int :=
  match lit with
  | 0x2D :: ds => (parseUintLit ds).map fun n => -(n : Int)
  | _ => (parseUintLit lit).map fun n => (n : Int)

/-- The size in bits of a signed integer kind. -/
def intBits : Kind → Option Nat
  | .Int | .Int64 => some 64
  | .Int32 => some 32
  | .Int16 => some 16
  | .Int8 => some 8
  | _ => none

/-- The size in bits of an unsigned integer kind. -/
def uintBits : Kind → Option Nat
  | .Uint | .Uint64 => some 64
  | .Uint32 => some 32
  | .Uint16 => some 16
  | .Uint8 => some 8
  | _ => none

/-- The size in bits of a float kind. -/
def floatBits : Kind → Option Nat
  | .Float64 => some 64
  | .Float32 => some 32
  | _ => none

/-- The decoder storing a number literal in a field of kind `k`. -/
def decodeNumber (L : Stdlib) (k : Kind) (lit : Bytes) : Option Value :=
  match intBits k, uintBits k, floatBits k with
  | some w, _, _ =>
    match parseIntLit lit with
    | some n => if -(2 : Int) ^ (w - 1) ≤ n ∧ n < (2 : Int) ^ (w - 1) then some (.int n) else none
    | none => none
  | _, some w, _ =>
    match parseUintLit lit with
    | some n => if n < 2 ^ w then some (.uint n) else none
    | none => none
  | _, _, some w => (L.parseFloat w lit).map fun b => .float w b
  | _, _, _ => none

/-- The decoder storing a JSON value in a scalar of kind `k` that holds `cur`:
the new value and the error saved.  `null` leaves the scalar as it is; a value
of the wrong JSON type leaves it as it is and saves an `UnmarshalTypeError`. -/
def decodeScalar (L : Stdlib) (k : Kind) (j : Json) (cur : Value) :
    Value × Option UnmarshalError :=
  match j with
  | .null => (cur, none)
  | .bool b => if k = .Bool then (.bool b, none) else (cur, some .UnmarshalTypeError)
  | .str s => if k = .String then (.str s, none) else (cur, some .UnmarshalTypeError)
  | .num lit =>
    match decodeNumber L k lit with
    | some v => (v, none)
    | none => (cur, some .UnmarshalTypeError)
  | .arr _ => (cur, some .UnmarshalTypeError)
  | .obj _ => (cur, some .UnmarshalTypeError)

/-- `foldName` of `encoding/json`: ASCII letters in upper case, other runes
through the folding table. -/
def foldName (L : Stdlib) (s : Bytes) : Bytes :=
  mapRunes (fun r => if r < RuneSelf then upperByte r else L.fold r) 0 s

/-- The first position in `l` whose element satisfies `p`. -/
def firstIdx {α : Type} (p : α → Bool) : List α → Option Nat
  | [] => none
  | a :: l => if p a then some 0 else (firstIdx p l).map (· + 1)

/-- The field an object key selects: the exported field of that name, or else
the first exported field whose folded name is the folded key. -/
def findField (L : Stdlib) (fs : List StructField) (key : Bytes) : Option Nat :=
  match firstIdx (fun f => f.IsExported && f.Name = key) fs with
  | some i => some i
  | none => firstIdx (fun f => f.IsExported && foldName L f.Name = foldName L key) fs

/-- The decoder on the members of an object, in order, into the fields of a
struct.  Unknown keys are skipped; the first error is kept and decoding goes
on. -/
def decodeMembers (L : Stdlib) (fs : List StructField) :
    List (Bytes × Json) → List Value → Option UnmarshalError →
      List Value × Option UnmarshalError
  | [], vals, err => (vals, err)
  | (key, j) :: ms, vals, err =>
    match findField L fs key with
    | none => decodeMembers L fs ms vals err
    | some i =>
      match fs.get? i, vals.get? i with
      | some f, some cur =>
        decodeMembers L fs ms (vals.set i (decodeScalar L f.Typ j cur).1)
          (err.orElse fun _ => (decodeScalar L f.Typ j cur).2)
      | _, _ => decodeMembers L fs ms vals err

/-- The decoder storing a JSON value in a target of type `t` that holds `cur`.
A pointer is allocated before its element is decoded; `null` sets it to nil. -/
def decodeInto (L : Stdlib) : GoType → Json → GoValue → GoValue × Option UnmarshalError
  | .ptr t, j, cur =>
    match j with
    | .null => (.nil, none)
    | _ =>
      match cur with
      | .ref v => ((decodeInto L t j v).1.ref, (decodeInto L t j v).2)
      | _ => ((decodeInto L t j (zero t)).1.ref, (decodeInto L t j (zero t)).2)
  | .scalar k, j, cur =>
    match cur with
    | .scalar v => (.scalar (decodeScalar L k j v).1, (decodeScalar L k j v).2)
    | _ => (cur, some .UnmarshalTypeError)
  | .struct fs, j, cur =>
    match j, cur with
    | .obj ms, .struct vals =>
      (.struct (decodeMembers L fs ms vals none).1, (decodeMembers L fs ms vals none).2)
    | .null, _ => (cur, none)
    | _, _ => (cur, some .UnmarshalTypeError)

/-- `json.Unmarshal(data, &v)` for `v` of type `t` holding `cur`: the value `v`
holds afterwards and the error.  A syntax error leaves `v` untouched. -/
def jsonUnmarshal (L : Stdlib) (data : Bytes) (t : GoType) (cur : GoValue) :
    GoValue × Option UnmarshalError :=
  match parseJson data with
  | none => (cur, some .SyntaxError)
  | some j => decodeInto L t j cur

/-! ## fmt -/

/-- The decimal digits of a natural number. -/
def formatNat (n : Nat) : Bytes := (Nat.toDigits 10 n).map Char.toNat

/-- The verb `%v` on a scalar. -/
def formatValue (L : Stdlib) : Value → Bytes
  | .str s => s
  | .bool b => if b then ascii "true" else ascii "false"
  | .int n => if n < 0 then 0x2D :: formatNat (-n).toNat else formatNat n.toNat
  | .uint n => formatNat n
  | .float w b => L.formatFloat w b

/-! ## dspy/errors.go -/

/-- `dspy.Error`.  The type `ε` is the type of the values of the interface
`error`; `none` is the nil interface. -/
structure Error (ε : Type) where
  Op : Bytes
  Err : Option ε
  deriving DecidableEq

/-- `(*Error).Error`: `fmt.Sprintf("%s: %v", e.Op, e.Err)`, where `msg` is the
method `Error` of the cause. -/
def Error.Error {ε : Type} (msg : ε → Bytes) (e : GoDspy.Error ε) : Bytes :=
  e.Op ++ ascii ": " ++
    match e.Err with
    | some c => msg c
    | none => ascii "<nil>"

/-- `(*Error).Unwrap`. -/
def Error.Unwrap {ε : Type} (e : GoDspy.Error ε) : Option ε := e.Err

/-- `ErrModuleExecution`. -/
def ErrModuleExecution {ε : Type} (op : Bytes) (err : Option ε) : Error ε :=
  { Op := op, Err := err }

/-! ## dspy/signature.go, dspy/predictor.go -/

/-- `Signature[I, O]`: the type parameters are the fields `I` and `O`. -/
structure Signature where
  Name : Bytes
  Description : Bytes
  I : GoType
  O : GoType

/-- `llm.Client` as the predictor uses it: `Generate(ctx, prompt)` returns the
pair `(string, error)` and moves the client and the world it talks to from one
state to the next. -/
abbrev Generate (Ctx σ ε : Type) := Ctx → Bytes → σ → (Bytes × Option ε) × σ

/-- `Predictor[I, O]`. -/
structure Predictor (Ctx σ ε : Type) where
  Signature : Signature
  Client : Generate Ctx σ ε

/-- A `map[string]interface{}`: its entries, one per key. -/
abbrev GoMap := List (Bytes × Value)

/-- The assignment `m[k] = v`. -/
def GoMap.insert (m : GoMap) (k : Bytes) (v : Value) : GoMap :=
  if m.any (fun e => e.1 = k) then m.map (fun e => if e.1 = k then (k, v) else e)
  else m ++ [(k, v)]

/-- The loop of `extractFields` over the fields of a struct. -/
def extractLoop : List StructField → List Value → GoMap → GoMap
  | f :: fs, v :: vs, result =>
    if !f.IsExported then extractLoop fs vs result
    else extractLoop fs vs (result.insert f.Name v)
  | _, _, result => result

/-- `Predictor.extractFields`: the exported fields of a struct or of the struct a
pointer refers to; the empty map for a nil pointer and for any other value. -/
def extractFields (typ : GoType) (val : GoValue) : GoMap :=
  match typ, val with
  | .ptr _, .nil => []
  | .ptr (.struct fs), .ref (.struct vals) => extractLoop fs vals []
  | .struct fs, .struct vals => extractLoop fs vals []
  | _, _ => []

/-- `Predictor.getOutputFieldNames`: the names of the exported fields of the
output struct, or of the struct the output pointer type refers to. -/
def getOutputFieldNames (O : GoType) : List Bytes :=
  match O with
  | .ptr (.struct fs) => (fs.filter StructField.IsExported).map StructField.Name
  | .struct fs => (fs.filter StructField.IsExported).map StructField.Name
  | _ => []

/-- `Predictor.buildPrompt`.  The argument `order` is the order in which the
`range` statement visits the entries of the map; Go leaves it unspecified. -/
def buildPrompt (L : Stdlib) (order : GoMap → GoMap) (sig : Signature) (input : GoValue) :
    Bytes :=
  let parts : List Bytes := if sig.Description ≠ [] then [sig.Description] else []
  let inputFields := extractFields sig.I input
  let parts := if inputFields.length > 0 then
      parts ++ [ascii "\nInput:"] ++
        (order inputFields).map (fun e => e.1 ++ ascii ": " ++ formatValue L e.2)
    else parts
  let outputFields := getOutputFieldNames sig.O
  let parts := if outputFields.length > 0 then
      parts ++ [ascii "\nOutput the following fields:"] ++
        outputFields.map (fun field => ascii "- " ++ field)
    else parts
  Join parts (ascii "\n")

/-- The loop of `parseResponse` over the patterns of one field of kind `k` that
holds `cur`: the value the field holds afterwards; `none` is a run-time panic of
a slice expression. -/
def matchPatterns (L : Stdlib) (response : Bytes) (k : Kind) (cur : Value) :
    List Bytes → Option Value
  | [] => some cur
  | pattern :: rest =>
    let idx := Index (ToLower L response) (ToLower L pattern)
    if idx ≠ -1 then
      let valueStart := idx + pattern.length
      match sliceFrom response valueStart with
      | none => none
      | some tail =>
        let valueEnd := Index tail (ascii "\n")
        let valueEnd := if valueEnd = -1 then (response.length : Int) - valueStart else valueEnd
        match slice response valueStart (valueStart + valueEnd) with
        | none => none
        | some sub =>
          let valueStr := TrimSpace sub
          match k with
          | .String => some (.str valueStr)
          | _ => some cur
    else matchPatterns L response k cur rest

/-- The three patterns `parseResponse` tries for a field name. -/
def patterns (L : Stdlib) (fieldName : Bytes) : List Bytes :=
  [fieldName ++ ascii ":", ToLower L fieldName ++ ascii ":",
    Title L (ToLower L fieldName) ++ ascii ":"]

/-- The loop of `parseResponse` over the fields of the output struct. -/
def parseFields (L : Stdlib) (response : Bytes) :
    List StructField → List Value → Option (List Value)
  | field :: fs, v :: vs =>
    if !field.IsExported then (parseFields L response fs vs).map (v :: ·)
    else
      match matchPatterns L response field.Typ v (patterns L field.Name) with
      | none => none
      | some v1 => (parseFields L response fs vs).map (v1 :: ·)
  | _, vs => some vs

/-- The field extraction of `parseResponse` on a dereferenced type and value. -/
def extractFromText (L : Stdlib) (response : Bytes) (typ : GoType) (val : GoValue) :
    Option GoValue :=
  match typ, val with
  | .struct fs, .struct vals => (parseFields L response fs vals).map .struct
  | .scalar .String, _ => some (.scalar (.str response))
  | _, _ => some val

/-- `Predictor.parseResponse`: the output and the error returned; `none` is a
run-time panic. -/
def parseResponse (ε : Type) (L : Stdlib) (O : GoType) (response : Bytes) :
    Option (GoValue × Option ε) :=
  let responseTrimmed := TrimSpace response
  let looksJson := HasPrefix responseTrimmed (ascii "\x7b") || HasPrefix responseTrimmed (ascii "[")
  let decoded := jsonUnmarshal L responseTrimmed O (zero O)
  if looksJson ∧ decoded.2 = none then some (decoded.1, none)
  else
    let output := if looksJson then decoded.1 else zero O
    match O with
    | .ptr typ =>
      let val := match output with
        | .ref v => v
        | _ => zero typ
      (extractFromText L response typ val).map fun v => (.ref v, none)
    | typ => (extractFromText L response typ output).map fun v => (v, none)

/-- `Predictor.Forward`: the output and the error returned and the state of the
client afterwards; `none` is a run-time panic. -/
def Forward {Ctx σ ε : Type} (L : Stdlib) (order : GoMap → GoMap) (p : Predictor Ctx σ ε)
    (ctx : Ctx) (input : GoValue) (st : σ) : Option ((GoValue × Option (Error ε)) × σ) :=
  let output := zero p.Signature.O
  let prompt := buildPrompt L order p.Signature input
  let r := p.Client ctx prompt st
  match r.1.2 with
  | some err => some ((output, some (ErrModuleExecution (ascii "predictor.Forward") (some err))), r.2)
  | none =>
    match parseResponse ε L p.Signature.O r.1.1 with
    | none => none
    | some (_, some err) =>
      some ((output, some (ErrModuleExecution (ascii "predictor.parseResponse") (some err))), r.2)
    | some (parsed, none) => some ((parsed, none), r.2)

/-! ## context -/

/-- The errors of package `context`: `context.Canceled` and
`context.DeadlineExceeded`. -/
inductive CtxErr
  | Canceled
  | DeadlineExceeded
  deriving DecidableEq, Repr

/-- A `context.Context` as the optimizer observes it: what `ctx.Err()` returns
in a state of the world; the channel `ctx.Done()` is closed exactly when that is
not nil. -/
abbrev Context (σ : Type) := σ → Option CtxErr

/-- `context.Background()`: never cancelled, no deadline. -/
def Background {σ : Type} : Context σ := fun _ => none

/-- `context.WithTimeout(parent, timeout)` called in the state `start`: done when
the parent is done, with the error of the parent, or when the clock has reached
the deadline, with `DeadlineExceeded`.  The clock reads the time of a state of
the world in nanoseconds. -/
def WithTimeout {σ : Type} (clock : σ → Int) (parent : Context σ) (timeout : Int) (start : σ) :
    Context σ :=
  fun s =>
    match parent s with
    | some e => some e
    | none => if clock start + timeout ≤ clock s then some .DeadlineExceeded else none

/-! ## dspy/module.go, dspy/example.go -/

/-- `dspy.Module[I, O]`: the method `Forward(ctx, input)` returns the pair
`(O, error)` and moves the world from one state to the next; `none` is a
run-time panic. -/
abbrev Module (σ ε I O : Type) := Context σ → I → σ → Option ((O × Option ε) × σ)

/-- `dspy.Example[I, O]`. -/
structure Example (I O : Type) where
  Input : I
  Output : O

/-! ## optimizer/evaluator.go -/

/-- `optimizer.Metric[I, O]`: a Go function value, which may act on the world.
Scores are `float64` in the source and exact rationals here: this is the
evaluator over exact arithmetic.  `MetricFloat64` and `EvaluateFloat64` below
are the same code with the `float64` arithmetic of the source. -/
abbrev Metric (σ O : Type) := O → O → σ → ℚ × σ

/-- A metric that does not touch the world. -/
def pureMetric {σ O : Type} (f : O → O → ℚ) : Metric σ O := fun predicted expected st =>
  (f predicted expected, st)

/-- The function `ExactMatch` returns. -/
def ExactMatch {O : Type} [DecidableEq O] (predicted expected : O) : ℚ :=
  if predicted = expected then 1 else 0

/-- `strings.Contains`. -/
def Contains (s substr : Bytes) : Bool := decide (Index s substr ≥ 0)

/-- The function `StringContains` returns. -/
def StringContains (L : Stdlib) (predicted expected : Bytes) : ℚ :=
  if expected.length = 0 then 1
  else if predicted.length = 0 then 0
  else if Contains (ToLower L predicted) (ToLower L expected) then 1
  else 0

/-- The loop of `Evaluate` over the examples left, with the total so far: the
total and a nil error at the end, or zero and the error of the first `Forward`
that fails. -/
def evaluateLoop {σ ε I O : Type} (module : Module σ ε I O) (metric : Metric σ O) :
    List (Example I O) → ℚ → σ → Option ((ℚ × Option ε) × σ)
  | [], totalScore, st => some ((totalScore, none), st)
  | ex :: rest, totalScore, st =>
    match module Background ex.Input st with
    | none => none
    | some ((predicted, err), st1) =>
      match err with
      | some e => some ((0, some e), st1)
      | none =>
        evaluateLoop module metric rest (totalScore + (metric predicted ex.Output st1).1)
          (metric predicted ex.Output st1).2

/-- `optimizer.Evaluate` over exact arithmetic. -/
def Evaluate {σ ε I O : Type} (module : Module σ ε I O) (examples : List (Example I O))
    (metric : Metric σ O) (st : σ) : Option ((ℚ × Option ε) × σ) :=
  if examples.length = 0 then some ((0, none), st)
  else
    match evaluateLoop module metric examples 0 st with
    | none => none
    | some ((totalScore, none), st1) => some ((totalScore / (examples.length : ℚ), none), st1)
    | some ((_, some err), st1) => some ((0, some err), st1)

/-! ## optimizer/bootstrap.go -/

/-- `BootstrapOptimizer[I, O]`; the timeout is a `time.Duration` in
nanoseconds. -/
structure BootstrapOptimizer where
  MaxIterations : Int
  MinScore : ℚ
  Timeout : Int

/-- `NewBootstrapOptimizer`: ten iterations, threshold 0.8, five minutes. -/
def NewBootstrapOptimizer : BootstrapOptimizer :=
  { MaxIterations := 10, MinScore := 8 / 10, Timeout := 5 * 60 * 1000000000 }

/-- The errors `Optimize` returns: `fmt.Errorf` without and with the verb `%w`,
and the error of the derived context. -/
inductive OptimizeError (ε : Type)
  | errorString (s : Bytes)
  | wrapError (msg : Bytes) (err : ε)
  | context (e : CtxErr)
  deriving DecidableEq

/-- The loop of `Optimize` with the number of iterations left and the best score
so far: the error returned and the state of the world; `none` is a run-time
panic. -/
def optimizeLoop {σ ε I O : Type} (optCtx : Context σ) (module : Module σ ε I O)
    (examples : List (Example I O)) (metric : Metric σ O) (minScore : ℚ) :
    Nat → ℚ → σ → Option (Option CtxErr × σ)
  | 0, _, st => some (none, st)
  | n + 1, bestScore, st =>
    match optCtx st with
    | some e => some (some e, st)
    | none =>
      match Evaluate module examples metric st with
      | none => none
      | some ((_, some _), st1) => optimizeLoop optCtx module examples metric minScore n bestScore st1
      | some ((currentScore, none), st1) =>
        if (if currentScore > bestScore then currentScore else bestScore) ≥ minScore then
          some (none, st1)
        else
          optimizeLoop optCtx module examples metric minScore n
            (if currentScore > bestScore then currentScore else bestScore) st1

/-- `BootstrapOptimizer.Optimize`: the module and the error returned and the
state of the world afterwards.  `errMsg` is the method `Error` of the errors of
the module. -/
def Optimize {σ ε I O : Type} (clock : σ → Int) (errMsg : ε → Bytes) (b : BootstrapOptimizer)
    (ctx : Context σ) (module : Module σ ε I O) (examples : List (Example I O))
    (metric : Metric σ O) (st : σ) :
    Option ((Module σ ε I O × Option (OptimizeError ε)) × σ) :=
  if examples.length = 0 then
    some ((module, some (.errorString (ascii "no examples provided"))), st)
  else
    match Evaluate module examples metric st with
    | none => none
    | some ((_, some err), st1) =>
      some ((module, some (.wrapError (ascii "initial evaluation failed: " ++ errMsg err) err)), st1)
    | some ((initialScore, none), st1) =>
      match optimizeLoop (WithTimeout clock ctx b.Timeout st) module examples metric b.MinScore
          b.MaxIterations.toNat initialScore st1 with
      | none => none
      | some (some e, st2) => some ((module, some (.context e)), st2)
      | some (none, st2) => some ((module, none), st2)

/-! ## float64 -/

/-- The loop of `bitLen`, with fuel. -/
def bitsLoop : Nat → Nat → Nat
  | 0, _ => 0
  | fuel + 1, n => if n = 0 then 0 else bitsLoop fuel (n / 2) + 1

/-- The number of binary digits of `n`. -/
def bitLen (n : Nat) : Nat := bitsLoop n n

/-- A `float64`, an IEEE 754 binary64 value.  A finite value is
`(-1)^neg * mant * 2^exp` with `mant < 2^53` and `-1074 ≤ exp ≤ 971`; it is
written with `2^52 ≤ mant` when it is normal and with `exp = -1074` when it is
subnormal or zero. -/
inductive Float64
  | finite (neg : Bool) (mant : Nat) (exp : Int)
  | inf (neg : Bool)
  | nan
  deriving DecidableEq

/-- The float `+0`, the zero value of `float64`. -/
def Float64.zero : Float64 := .finite false 0 (-1074)

/-- The integer nearest to `(m + s) / 2^shift`, ties to even, where `s` is a
fraction strictly between 0 and 1 when `sticky` is set and 0 otherwise. -/
def roundShift (m shift : Nat) (sticky : Bool) : Nat :=
  if shift = 0 then m
  else if m % 2 ^ shift > 2 ^ (shift - 1) ∨ (m % 2 ^ shift = 2 ^ (shift - 1) ∧ sticky = true) then
    m / 2 ^ shift + 1
  else if m % 2 ^ shift = 2 ^ (shift - 1) ∧ (m / 2 ^ shift) % 2 = 1 then m / 2 ^ shift + 1
  else m / 2 ^ shift

/-- The float with a mantissa of at most 53 bits, or the mantissa `2^53` a
rounding has carried to, and an exponent of at least -1074: infinity when the
exponent is out of range. -/
def Float64.pack (neg : Bool) (mant : Nat) (exp : Int) : Float64 :=
  if mant = 0 then .finite neg 0 (-1074)
  else if 2 ^ 53 ≤ mant then (if exp + 1 > 971 then .inf neg else .finite neg (mant / 2) (exp + 1))
  else if exp > 971 then .inf neg
  else .finite neg mant exp

/-- Rounding to nearest, ties to even: the float nearest to
`(-1)^neg * (m + s) * 2^e`, with `s` as in `roundShift`; `sticky` is set only
with an `m` of more than 53 binary digits. -/
def Float64.round (neg : Bool) (m : Nat) (e : Int) (sticky : Bool) : Float64 :=
  let shift : Int := max ((bitLen m : Int) - 53) (-1074 - e)
  if shift ≤ 0 then
    let up : Nat := (min (53 - (bitLen m : Int)) (e + 1074)).toNat
    Float64.pack neg (m * 2 ^ up) (e - up)
  else Float64.pack neg (roundShift m shift.toNat sticky) (e + shift)

/-- The integer `(-1)^neg * m * 2^(e - base)`, for `base ≤ e`. -/
def scaled (neg : Bool) (m : Nat) (e base : Int) : Int :=
  if neg then -((m * 2 ^ (e - base).toNat : Nat) : Int) else ((m * 2 ^ (e - base).toNat : Nat) : Int)

/-- The operator `+` on `float64`. -/
def Float64.add : Float64 → Float64 → Float64
  | .nan, _ => .nan
  | _, .nan => .nan
  | .inf a, .inf b => if a = b then .inf a else .nan
  | .inf a, .finite _ _ _ => .inf a
  | .finite _ _ _, .inf b => .inf b
  | .finite n1 m1 e1, .finite n2 m2 e2 =>
    if m1 = 0 ∧ m2 = 0 then .finite (n1 && n2) 0 (-1074)
    else if m1 = 0 then .finite n2 m2 e2
    else if m2 = 0 then .finite n1 m1 e1
    else if scaled n1 m1 e1 (min e1 e2) + scaled n2 m2 e2 (min e1 e2) = 0 then Float64.zero
    else
      Float64.round (decide (scaled n1 m1 e1 (min e1 e2) + scaled n2 m2 e2 (min e1 e2) < 0))
        (scaled n1 m1 e1 (min e1 e2) + scaled n2 m2 e2 (min e1 e2)).natAbs (min e1 e2) false

/-- The operator `/` on `float64`. -/
def Float64.div : Float64 → Float64 → Float64
  | .nan, _ => .nan
  | _, .nan => .nan
  | .inf _, .inf _ => .nan
  | .inf a, .finite b _ _ => .inf (xor a b)
  | .finite a _ _, .inf b => .finite (xor a b) 0 (-1074)
  | .finite n1 m1 e1, .finite n2 m2 e2 =>
    if m2 = 0 then (if m1 = 0 then .nan else .inf (xor n1 n2))
    else if m1 = 0 then .finite (xor n1 n2) 0 (-1074)
    else
      Float64.round (xor n1 n2) (m1 * 2 ^ (55 + bitLen m2) / m2)
        (e1 - e2 - ((55 + bitLen m2 : Nat) : Int)) (decide (m1 * 2 ^ (55 + bitLen m2) % m2 ≠ 0))

/-- The conversion `float64(n)` of a length. -/
def Float64.ofNat (n : Nat) : Float64 := Float64.round false n 0 false

/-- The operator `<` on `float64`; false when an operand is NaN. -/
def Float64.lt : Float64 → Float64 → Bool
  | .nan, _ => false
  | _, .nan => false
  | .inf a, .inf b => a && !b
  | .inf a, .finite _ _ _ => a
  | .finite _ _ _, .inf b => !b
  | .finite n1 m1 e1, .finite n2 m2 e2 =>
    decide (scaled n1 m1 e1 (min e1 e2) < scaled n2 m2 e2 (min e1 e2))

/-- The operator `<=` on `float64`; false when an operand is NaN. -/
def Float64.le : Float64 → Float64 → Bool
  | .nan, _ => false
  | _, .nan => false
  | .inf a, .inf b => a || !b
  | .inf a, .finite _ _ _ => a
  | .finite _ _ _, .inf b => !b
  | .finite n1 m1 e1, .finite n2 m2 e2 =>
    decide (scaled n1 m1 e1 (min e1 e2) ≤ scaled n2 m2 e2 (min e1 e2))

/-! ## optimizer/evaluator.go and optimizer/bootstrap.go with float64 scores -/

/-- `optimizer.Metric[I, O]` with the `float64` scores of the source. -/
abbrev MetricFloat64 (σ O : Type) := O → O → σ → Float64 × σ

/-- The loop of `Evaluate` with `float64` arithmetic: `totalScore += score`. -/
def evaluateLoopFloat64 {σ ε I O : Type} (module : Module σ ε I O)
    (metric : MetricFloat64 σ O) :
    List (Example I O) → Float64 → σ → Option ((Float64 × Option ε) × σ)
  | [], totalScore, st => some ((totalScore, none), st)
  | ex :: rest, totalScore, st =>
    match module Background ex.Input st with
    | none => none
    | some ((predicted, err), st1) =>
      match err with
      | some e => some ((Float64.zero, some e), st1)
      | none =>
        evaluateLoopFloat64 module metric rest
          (totalScore.add (metric predicted ex.Output st1).1) (metric predicted ex.Output st1).2

/-- `optimizer.Evaluate` with `float64` arithmetic:
`totalScore / float64(len(examples))`. -/
def EvaluateFloat64 {σ ε I O : Type} (module : Module σ ε I O) (examples : List (Example I O))
    (metric : MetricFloat64 σ O) (st : σ) : Option ((Float64 × Option ε) × σ) :=
  if examples.length = 0 then some ((Float64.zero, none), st)
  else
    match evaluateLoopFloat64 module metric examples Float64.zero st with
    | none => none
    | some ((totalScore, none), st1) =>
      some ((totalScore.div (Float64.ofNat examples.length), none), st1)
    | some ((_, some err), st1) => some ((Float64.zero, some err), st1)

/-- The loop of `Optimize` with `float64` scores and the values assigned to
`bestScore` written down: `currentScore > bestScore` and
`bestScore >= b.MinScore` are the comparisons of `float64`. -/
def optimizeLoopBestFloat64 {σ ε I O : Type} (optCtx : Context σ) (module : Module σ ε I O)
    (examples : List (Example I O)) (metric : MetricFloat64 σ O) (minScore : Float64) :
    Nat → Float64 → σ → Option ((Option CtxErr × σ) × List Float64)
  | 0, _, st => some ((none, st), [])
  | n + 1, bestScore, st =>
    match optCtx st with
    | some e => some ((some e, st), [])
    | none =>
      match EvaluateFloat64 module examples metric st with
      | none => none
      | some ((_, some _), st1) =>
        optimizeLoopBestFloat64 optCtx module examples metric minScore n bestScore st1
      | some ((currentScore, none), st1) =>
        if minScore.le (if bestScore.lt currentScore then currentScore else bestScore) then
          some ((none, st1), [if bestScore.lt currentScore then currentScore else bestScore])
        else
          (optimizeLoopBestFloat64 optCtx module examples metric minScore n
            (if bestScore.lt currentScore then currentScore else bestScore) st1).map fun r =>
              (r.1, (if bestScore.lt currentScore then currentScore else bestScore) :: r.2)

/-- The `float64` constant `0.7`: the float nearest to 7/10, with the bits
`0x3FE6666666666666`. -/
def point7 : Float64 := .finite false 6305039478318694 (-53)

/-- The `float64` just below `0.7`, printed `0.6999999999999998`. -/
def belowPoint7 : Float64 := .finite false 6305039478318693 (-53)

/-! ## Instrumentation -/

/-- A call observed during an evaluation: `Forward` on an input, or the metric
on a prediction and the expected output. -/
inductive Event (I O : Type)
  | forward (input : I)
  | metric (predicted expected : O)

/-- The module `m` recording each call of `Forward` at the end of a log kept
next to the state of the world. -/
def tracedModule {σ ε I O : Type} (m : Module σ ε I O) :
    Module (σ × List (Event I O)) ε I O :=
  fun ctx input st =>
    match m (fun s => ctx (s, st.2)) input st.1 with
    | none => none
    | some (r, st1) => some (r, (st1, st.2 ++ [.forward input]))

/-- The metric `μ` recording each call at the end of the log. -/
def tracedMetric {σ O : Type} (I : Type) (μ : Metric σ O) : Metric (σ × List (Event I O)) O :=
  fun predicted expected st =>
    ((μ predicted expected st.1).1,
      ((μ predicted expected st.1).2, st.2 ++ [.metric predicted expected]))

/-- The inputs of the calls of `Forward` in a log, in call order. -/
def forwardCalls {I O : Type} : List (Event I O) → List I
  | [] => []
  | .forward input :: rest => input :: forwardCalls rest
  | .metric _ _ :: rest => forwardCalls rest

/-- The calls of the metric in a log, in call order. -/
def metricCalls {I O : Type} : List (Event I O) → List (O × O)
  | [] => []
  | .forward _ :: rest => metricCalls rest
  | .metric predicted expected :: rest => (predicted, expected) :: metricCalls rest

/-- The predictions and scores of an evaluation in which every `Forward`
succeeds, example by example, and the state of the world afterwards; `none` when
some `Forward` fails or panics. -/
def scoresOf {σ ε I O : Type} (module : Module σ ε I O) (metric : Metric σ O) :
    List (Example I O) → σ → Option (List (O × ℚ) × σ)
  | [], st => some ([], st)
  | ex :: rest, st =>
    match module Background ex.Input st with
    | some ((predicted, none), st1) =>
      match scoresOf module metric rest (metric predicted ex.Output st1).2 with
      | some (l, st2) => some ((predicted, (metric predicted ex.Output st1).1) :: l, st2)
      | none => none
    | _ => none

/-- A module that answers every input with `f input`, never fails, and counts
its calls. -/
def pureModule {I O : Type} (f : I → O) : Module Nat Bytes I O :=
  fun _ input calls => some ((f input, none), calls + 1)

/-- A module that fails on the input `bad` with the error `cause`, answers
every other input with `f input`, and counts its calls. -/
def failingOn {I O : Type} [DecidableEq I] (bad : I) (cause : Bytes) (f : I → O) :
    Module Nat Bytes I O :=
  fun _ input calls =>
    if input = bad then some ((f input, some cause), calls + 1)
    else some ((f input, none), calls + 1)

/-- The output record with the single text field `Label`. -/
def labelled (label : String) : GoValue := .struct [.str (ascii label)]

/-- A classifier for the tests: the input `good` is positive, every other input
is negative. -/
def classify (input : Bytes) : GoValue :=
  if input = ascii "good" then labelled "positive" else labelled "negative"

/-- The method `Error` of the errors of package `context`. -/
def CtxErr.Error : CtxErr → Bytes
  | .Canceled => ascii "context canceled"
  | .DeadlineExceeded => ascii "context deadline exceeded"

/-- The method `Error` of the errors `Optimize` returns. -/
def OptimizeError.Error {ε : Type} : OptimizeError ε → Bytes
  | .errorString s => s
  | .wrapError msg _ => msg
  | .context e => e.Error

/-- `errors.Unwrap` on the errors `Optimize` returns: only an error made with the
verb `%w` wraps another one. -/
def OptimizeError.Unwrap {ε : Type} : OptimizeError ε → Option ε
  | .wrapError _ err => some err
  | _ => none

/-! ## optimizer/teleprompter.go -/

/-- `Teleprompter[I, O]`: no fields. -/
structure Teleprompter where

/-- `Teleprompter.Optimize`: the module and the error returned and the state of
the world afterwards. -/
def Teleprompter.Optimize {σ ε I O : Type} (_t : Teleprompter) (_ctx : Context σ)
    (module : Module σ ε I O) (_examples : List (Example I O)) (_metric : Metric σ O) (st : σ) :
    (Module σ ε I O × Option (OptimizeError ε)) × σ :=
  ((module, none), st)

/-! ## memory/in_memory.go -/

/-- The assignment `m[key] = value` on a map with string keys. -/
def mapAssign {V : Type} (m : List (Bytes × V)) (key : Bytes) (value : V) : List (Bytes × V) :=
  if m.any (fun e => e.1 = key) then m.map (fun e => if e.1 = key then (key, value) else e)
  else m ++ [(key, value)]

/-- The lookup `value, ok := m[key]`; `none` when `ok` is false. -/
def mapIndex {V : Type} : List (Bytes × V) → Bytes → Option V
  | [], _ => none
  | e :: m, key => if e.1 = key then some e.2 else mapIndex m key

/-- The statement `delete(m, key)`. -/
def mapDelete {V : Type} (m : List (Bytes × V)) (key : Bytes) : List (Bytes × V) :=
  m.filter fun e => e.1 ≠ key

/-- `InMemoryStore`: the map it guards.  Each method runs under the lock, so a
call is one step. -/
structure InMemoryStore (V : Type) where
  store : List (Bytes × V)

/-- `NewInMemoryStore`. -/
def NewInMemoryStore {V : Type} : InMemoryStore V := { store := [] }

/-- The errors of the store: the error of the context, and `fmt.Errorf` with the
key that was not found. -/
inductive StoreError
  | context (e : CtxErr)
  | keyNotFound (key : Bytes)
  deriving DecidableEq

/-- The method `Error` of the errors of the store. -/
def StoreError.Error : StoreError → Bytes
  | .context e => e.Error
  | .keyNotFound key => ascii "key not found: " ++ key

/-- `InMemoryStore.Put`, called in the state `w` of the world: the error returned
and the store afterwards. -/
def InMemoryStore.Put {σ V : Type} (s : InMemoryStore V) (ctx : Context σ) (w : σ) (key : Bytes)
    (value : V) : Option StoreError × InMemoryStore V :=
  match ctx w with
  | some e => (some (.context e), s)
  | none => (none, { store := mapAssign s.store key value })

/-- `InMemoryStore.Get`, called in the state `w` of the world: the value and the
error returned; it leaves the store as it is. -/
def InMemoryStore.Get {σ V : Type} (s : InMemoryStore V) (ctx : Context σ) (w : σ) (key : Bytes) :
    Option V × Option StoreError :=
  match ctx w with
  | some e => (none, some (.context e))
  | none =>
    match mapIndex s.store key with
    | none => (none, some (.keyNotFound key))
    | some value => (some value, none)

/-- `InMemoryStore.Delete`, called in the state `w` of the world. -/
def InMemoryStore.Delete {σ V : Type} (s : InMemoryStore V) (ctx : Context σ) (w : σ)
    (key : Bytes) : Option StoreError × InMemoryStore V :=
  match ctx w with
  | some e => (some (.context e), s)
  | none => (none, { store := mapDelete s.store key })

/-- `InMemoryStore.Clear`, called in the state `w` of the world. -/
def InMemoryStore.Clear {σ V : Type} (s : InMemoryStore V) (ctx : Context σ) (w : σ) :
    Option StoreError × InMemoryStore V :=
  match ctx w with
  | some e => (some (.context e), s)
  | none => (none, { store := [] })

/-- A call that changes the store, for the histories of the specification. -/
inductive StoreCall (V : Type)
  | put (key : Bytes) (value : V)
  | delete (key : Bytes)
  | clear

/-- The store after a history of calls, each made in its own state of the
world. -/
def InMemoryStore.after {σ V : Type} (s : InMemoryStore V) (ctx : Context σ) :
    List (StoreCall V × σ) → InMemoryStore V
  | [] => s
  | (.put key value, w) :: rest => InMemoryStore.after (s.Put ctx w key value).2 ctx rest
  | (.delete key, w) :: rest => InMemoryStore.after (s.Delete ctx w key).2 ctx rest
  | (.clear, w) :: rest => InMemoryStore.after (s.Clear ctx w).2 ctx rest

/-- A context over a world that is either live or not: cancelled when it is
not. -/
def cancelledWhenNot : Context Bool := fun live => if live then none else some .Canceled

/-! ## llm/client.go -/

/-- `GenerateOptions`; the temperature is a `float64` in the source and an exact
rational here. -/
structure GenerateOptions where
  Temperature : ℚ
  MaxTokens : Int
  Model : Bytes
  Stop : List Bytes

/-- `ErrClientNotConfigured`. -/
structure ErrClientNotConfigured where
  Provider : Bytes
  deriving DecidableEq

/-- `(*ErrClientNotConfigured).Error`. -/
def ErrClientNotConfigured.Error (e : ErrClientNotConfigured) : Bytes :=
  ascii "LLM client not configured: " ++ e.Provider

/-! ## llm/mock.go -/

/-- `MockClient`: the map of responses, one entry per key, and the default
response. -/
structure MockClient where
  responses : List (Bytes × Bytes)
  defaultResponse : Bytes

/-- `NewMockClient`. -/
def NewMockClient : MockClient :=
  { responses := [], defaultResponse := ascii "This is a mock response." }

/-- `MockClient.WithResponse`. -/
def MockClient.WithResponse (m : MockClient) (prompt response : Bytes) : MockClient :=
  { responses := mapAssign m.responses prompt response, defaultResponse := m.defaultResponse }

/-- `MockClient.WithDefaultResponse`. -/
def MockClient.WithDefaultResponse (m : MockClient) (response : Bytes) : MockClient :=
  { responses := m.responses, defaultResponse := response }

/-- `MockClient.Generate`: the text and the error returned, the error being the
message of `fmt.Errorf`.  The argument `order` is the order in which the `range`
statement visits the entries of the map; Go leaves it unspecified. -/
def MockClient.Generate {Ctx : Type} (order : List (Bytes × Bytes) → List (Bytes × Bytes))
    (m : MockClient) (_ctx : Ctx) (prompt : Bytes) : Bytes × Option Bytes :=
  match mapIndex m.responses prompt with
  | some response => (response, none)
  | none =>
    match (order m.responses).find? fun e => Contains prompt e.1 with
    | some e => (e.2, none)
    | none =>
      if m.defaultResponse ≠ [] then (m.defaultResponse, none)
      else ([], some (ascii "no response configured for prompt: " ++ prompt))

/-- `MockClient.GenerateWithOptions`; `opts` is a pointer, `none` when nil. -/
def MockClient.GenerateWithOptions {Ctx : Type}
    (order : List (Bytes × Bytes) → List (Bytes × Bytes)) (m : MockClient) (_ctx : Ctx)
    (prompt : Bytes) (_opts : Option GenerateOptions) : Bytes × Option Bytes :=
  match mapIndex m.responses prompt with
  | some response => (response, none)
  | none =>
    match (order m.responses).find? fun e => Contains prompt e.1 with
    | some e => (e.2, none)
    | none =>
      if m.defaultResponse ≠ [] then (m.defaultResponse, none)
      else ([], some (ascii "no response configured for prompt: " ++ prompt))

/-! ## llm/openai.go, llm/anthropic.go -/

/-- What a provider client hands to `net/http`: the address, the key of the
header, and the members of the request body. -/
structure ChatRequest where
  url : Bytes
  apiKey : Bytes
  model : Bytes
  prompt : Bytes
  temperature : ℚ
  maxTokens : Int
  stop : List Bytes

/-- The exchange with the provider, from `json.Marshal` of the request body to
the decoding of the reply: the text and the message of the error returned, and
the world afterwards. -/
abbrev Transport (Ctx σ : Type) := Ctx → ChatRequest → σ → (Bytes × Option Bytes) × σ

/-- The errors of a provider client: `*ErrClientNotConfigured`, and the errors
made with `fmt.Errorf`. -/
inductive ClientError
  | notConfigured (e : ErrClientNotConfigured)
  | other (msg : Bytes)
  deriving DecidableEq

/-- The method `Error` of the errors of a provider client. -/
def ClientError.Error : ClientError → Bytes
  | .notConfigured e => e.Error
  | .other msg => msg

/-- `OpenAIClient`; the default options are a pointer, `none` when nil, and the
timeout of the HTTP client is in nanoseconds. -/
structure OpenAIClient where
  apiKey : Bytes
  baseURL : Bytes
  timeout : Int
  defaultOpts : Option GenerateOptions

/-- `NewOpenAIClient`. -/
def NewOpenAIClient (apiKey : Bytes) : OpenAIClient :=
  { apiKey := apiKey, baseURL := ascii "https://api.openai.com/v1", timeout := 30 * 1000000000,
    defaultOpts := some
      { Temperature := 7 / 10, MaxTokens := 1000, Model := ascii "gpt-3.5-turbo", Stop := [] } }

/-- `OpenAIClient.WithBaseURL`. -/
def OpenAIClient.WithBaseURL (c : OpenAIClient) (url : Bytes) : OpenAIClient :=
  { apiKey := c.apiKey, baseURL := url, timeout := c.timeout, defaultOpts := c.defaultOpts }

/-- `OpenAIClient.WithTimeout`. -/
def OpenAIClient.WithTimeout (c : OpenAIClient) (timeout : Int) : OpenAIClient :=
  { apiKey := c.apiKey, baseURL := c.baseURL, timeout := timeout, defaultOpts := c.defaultOpts }

/-- `OpenAIClient.WithDefaultOptions`. -/
def OpenAIClient.WithDefaultOptions (c : OpenAIClient) (opts : Option GenerateOptions) :
    OpenAIClient :=
  { apiKey := c.apiKey, baseURL := c.baseURL, timeout := c.timeout, defaultOpts := opts }

/-- `OpenAIClient.GenerateWithOptions`: the text and the error returned and the
world afterwards; `none` is the run-time panic of a nil pointer dereference. -/
def OpenAIClient.GenerateWithOptions {Ctx σ : Type} (http : Transport Ctx σ) (c : OpenAIClient)
    (ctx : Ctx) (prompt : Bytes) (opts : Option GenerateOptions) (w : σ) :
    Option ((Bytes × Option ClientError) × σ) :=
  if c.apiKey = [] then some (([], some (.notConfigured { Provider := ascii "OpenAI" })), w)
  else
    match opts with
    | none => none
    | some o =>
      match (if o.Model = [] then c.defaultOpts.map GenerateOptions.Model else some o.Model) with
      | none => none
      | some model =>
        match http ctx
          { url := c.baseURL ++ ascii "/chat/completions", apiKey := c.apiKey, model := model,
            prompt := prompt, temperature := o.Temperature, maxTokens := o.MaxTokens,
            stop := o.Stop } w with
        | ((_, some msg), w1) => some (([], some (.other msg)), w1)
        | ((text, none), w1) => some ((text, none), w1)

/-- `OpenAIClient.Generate`. -/
def OpenAIClient.Generate {Ctx σ : Type} (http : Transport Ctx σ) (c : OpenAIClient) (ctx : Ctx)
    (prompt : Bytes) (w : σ) : Option ((Bytes × Option ClientError) × σ) :=
  c.GenerateWithOptions http ctx prompt c.defaultOpts w

/-- `AnthropicClient`. -/
structure AnthropicClient where
  apiKey : Bytes
  baseURL : Bytes
  timeout : Int
  defaultOpts : Option GenerateOptions

/-- `NewAnthropicClient`. -/
def NewAnthropicClient (apiKey : Bytes) : AnthropicClient :=
  { apiKey := apiKey, baseURL := ascii "https://api.anthropic.com/v1", timeout := 30 * 1000000000,
    defaultOpts := some
      { Temperature := 7 / 10, MaxTokens := 1000, Model := ascii "claude-3-sonnet-20240229",
        Stop := [] } }

/-- `AnthropicClient.WithBaseURL`. -/
def AnthropicClient.WithBaseURL (c : AnthropicClient) (url : Bytes) : AnthropicClient :=
  { apiKey := c.apiKey, baseURL := url, timeout := c.timeout, defaultOpts := c.defaultOpts }

/-- `AnthropicClient.WithTimeout`. -/
def AnthropicClient.WithTimeout (c : AnthropicClient) (timeout : Int) : AnthropicClient :=
  { apiKey := c.apiKey, baseURL := c.baseURL, timeout := timeout, defaultOpts := c.defaultOpts }

/-- `AnthropicClient.WithDefaultOptions`. -/
def AnthropicClient.WithDefaultOptions (c : AnthropicClient) (opts : Option GenerateOptions) :
    AnthropicClient :=
  { apiKey := c.apiKey, baseURL := c.baseURL, timeout := c.timeout, defaultOpts := opts }

/-- `AnthropicClient.GenerateWithOptions`: the text and the error returned and
the world afterwards; `none` is the run-time panic of a nil pointer
dereference. -/
def AnthropicClient.GenerateWithOptions {Ctx σ : Type} (http : Transport Ctx σ)
    (c : AnthropicClient) (ctx : Ctx) (prompt : Bytes) (opts : Option GenerateOptions) (w : σ) :
    Option ((Bytes × Option ClientError) × σ) :=
  if c.apiKey = [] then some (([], some (.notConfigured { Provider := ascii "Anthropic" })), w)
  else
    match opts with
    | none => none
    | some o =>
      match (if o.Model = [] then c.defaultOpts.map GenerateOptions.Model else some o.Model) with
      | none => none
      | some model =>
        match http ctx
          { url := c.baseURL ++ ascii "/messages", apiKey := c.apiKey, model := model,
            prompt := prompt, temperature := o.Temperature, maxTokens := o.MaxTokens,
            stop := o.Stop } w with
        | ((_, some msg), w1) => some (([], some (.other msg)), w1)
        | ((text, none), w1) => some ((text, none), w1)

/-- `AnthropicClient.Generate`. -/
def AnthropicClient.Generate {Ctx σ : Type} (http : Transport Ctx σ) (c : AnthropicClient)
    (ctx : Ctx) (prompt : Bytes) (w : σ) : Option ((Bytes × Option ClientError) × σ) :=
  c.GenerateWithOptions http ctx prompt c.defaultOpts w

/-- A transport that answers with the prompt and records each request it is
handed. -/
def echoTransport : Transport Unit (List ChatRequest) :=
  fun _ request sent => ((request.prompt, none), sent ++ [request])

/-! ## Specification of the rounds of the optimizer -/

/-- The state of the world after `n` rounds of the loop of `Optimize` in each of
which the context is not done and the evaluation fails; `none` when some round
is not of that kind. -/
def failedRounds {σ ε I O : Type} (optCtx : Context σ) (module : Module σ ε I O)
    (examples : List (Example I O)) (metric : Metric σ O) : Nat → σ → Option σ
  | 0, st => some st
  | n + 1, st =>
    match optCtx st with
    | some _ => none
    | none =>
      match Evaluate module examples metric st with
      | some ((_, some _), st1) => failedRounds optCtx module examples metric n st1
      | _ => none

/-- The module that passes `context.Background()` to `m` whatever context it is
given. -/
def withBackground {σ ε I O : Type} (m : Module σ ε I O) : Module σ ε I O :=
  fun _ input st => m Background input st

/-- The error and the state of the world of a result of `Optimize`, without the
module. -/
def outcome {σ ε I O : Type}
    (r : Option ((Module σ ε I O × Option (OptimizeError ε)) × σ)) :
    Option (Option (OptimizeError ε) × σ) :=
  r.map fun x => (x.1.2, x.2)

/-- A module that answers `f input` on its first `ok` calls, fails with the error
`boom` afterwards, and counts its calls. -/
def flaky {I O : Type} (ok : Nat) (f : I → O) : Module Nat Bytes I O :=
  fun _ input calls =>
    if calls < ok then some ((f input, none), calls + 1)
    else some ((f input, some (ascii "boom")), calls + 1)

/-- A module that answers `f input`, never fails, and records what `Err` of the
context it is given returns at the time of the call. -/
def probe {I O : Type} (f : I → O) : Module (List (Option CtxErr)) Bytes I O :=
  fun ctx input seen => some ((f input, none), seen ++ [ctx seen])

/-- The clock of a world whose state is a call counter: one nanosecond per
call. -/
def callClock (calls : Nat) : Int := calls

/-- One example for the tests: the input `good` with the expected output
`positive`. -/
def goodExample : Example Bytes GoValue :=
  { Input := ascii "good", Output := labelled "positive" }

/-- The loop of `Optimize` with the values assigned to `bestScore` written down:
the result of the loop and, for each iteration whose evaluation succeeds, the
value `bestScore` holds after it, in order. -/
def optimizeLoopBest {σ ε I O : Type} (optCtx : Context σ) (module : Module σ ε I O)
    (examples : List (Example I O)) (metric : Metric σ O) (minScore : ℚ) :
    Nat → ℚ → σ → Option ((Option CtxErr × σ) × List ℚ)
  | 0, _, st => some ((none, st), [])
  | n + 1, bestScore, st =>
    match optCtx st with
    | some e => some ((some e, st), [])
    | none =>
      match Evaluate module examples metric st with
      | none => none
      | some ((_, some _), st1) =>
        optimizeLoopBest optCtx module examples metric minScore n bestScore st1
      | some ((currentScore, none), st1) =>
        if (if currentScore > bestScore then currentScore else bestScore) ≥ minScore then
          some ((none, st1), [if currentScore > bestScore then currentScore else bestScore])
        else
          (optimizeLoopBest optCtx module examples metric minScore n
            (if currentScore > bestScore then currentScore else bestScore) st1).map fun r =>
              (r.1, (if currentScore > bestScore then currentScore else bestScore) :: r.2)

/-- Three examples for the tests, the second of which the classifier gets
wrong. -/
def mixedExamples : List (Example Bytes GoValue) :=
  [goodExample, { Input := ascii "bad", Output := labelled "positive" }, goodExample]

/-- A metric with `float64` scores that returns 0.7 for every pair and does not
touch the world. -/
def always07 {σ O : Type} : MetricFloat64 σ O := fun _ _ st => (point7, st)

/-- An excerpt of the standard library tables: the case pair U+023A, U+2C65 of
`unicode.CaseRanges`, no other letter above ASCII, and the float conversions
on the literal `0` only. -/
def excerpt : Stdlib where
  lower := fun r => if r = 0x23A then 0x2C65 else r
  title := fun r => if r = 0x2C65 then 0x23A else r
  fold := fun r => if r = 0x2C65 then 0x23A else r
  isLetter := fun r => r = 0x23A || r = 0x2C65
  isDigit := fun _ => false
  parseFloat := fun _ lit => if lit = [0x30] then some 0 else none
  formatFloat := fun _ b => if b = 0 then [0x30] else []

/-- The field `name` of kind `k`, exported. -/
def field (name : String) (k : Kind) : StructField := { Name := ascii name, PkgPath := [], Typ := k }

/-! ## The parser with one pattern -/

/-- The loop over the fields of a parser that tries only the pattern made of the
name of the field and a colon. -/
def parseFieldsFirst (L : Stdlib) (response : Bytes) :
    List StructField → List Value → Option (List Value)
  | field :: fs, v :: vs =>
    if !field.IsExported then (parseFieldsFirst L response fs vs).map (v :: ·)
    else
      match matchPatterns L response field.Typ v [field.Name ++ ascii ":"] with
      | none => none
      | some v1 => (parseFieldsFirst L response fs vs).map (v1 :: ·)
  | _, vs => some vs

/-- The field extraction of the parser with one pattern. -/
def extractFromTextFirst (L : Stdlib) (response : Bytes) (typ : GoType) (val : GoValue) :
    Option GoValue :=
  match typ, val with
  | .struct fs, .struct vals => (parseFieldsFirst L response fs vals).map .struct
  | .scalar .String, _ => some (.scalar (.str response))
  | _, _ => some val

/-- The parser with one pattern: `parseResponse` with the list of patterns cut
down to its first element. -/
def parseResponseFirst (ε : Type) (L : Stdlib) (O : GoType) (response : Bytes) :
    Option (GoValue × Option ε) :=
  let responseTrimmed := TrimSpace response
  let looksJson := HasPrefix responseTrimmed (ascii "\x7b") || HasPrefix responseTrimmed (ascii "[")
  let decoded := jsonUnmarshal L responseTrimmed O (zero O)
  if looksJson ∧ decoded.2 = none then some (decoded.1, none)
  else
    let output := if looksJson then decoded.1 else zero O
    match O with
    | .ptr typ =>
      let val := match output with
        | .ref v => v
        | _ => zero typ
      (extractFromTextFirst L response typ val).map fun v => (.ref v, none)
    | typ => (extractFromTextFirst L response typ output).map fun v => (v, none)

/-- The fields of the struct a parser fills: those of a struct type, or of the
struct a pointer type refers to. -/
def outputFields : GoType → List StructField
  | .struct fs => fs
  | .ptr (.struct fs) => fs
  | _ => []

/-- The exported text field whose name is the letter U+023A followed by `x`, in
UTF-8: its name has three bytes and its lower-cased name four. -/
def strokeField : StructField := { Name := [0xC8, 0xBA, 0x78], PkgPath := [], Typ := .String }

/-- The response that is the letter U+2C65, the lower case of U+023A, followed by
`x: v`, in UTF-8. -/
def strokeResponse : Bytes := [0xE2, 0xB1, 0xA5, 0x78, 0x3A, 0x20, 0x76]

/-- The output record with the fields `Label`, a text, and `Score`, a float. -/
def scoredLabel : GoType := .struct [field "Label" .String, field "Score" .Float64]

/-! ## Specification of field extraction -/

/-- Two byte strings are equal up to the case of ASCII letters. -/
def eqFold (a b : Bytes) : Bool := a.map lowerByte = b.map lowerByte

/-- The text that follows the first occurrence of `label` in `text`, occurrences
being taken up to the case of ASCII letters; `none` when there is none. -/
def afterLabel (label : Bytes) : Bytes → Option Bytes
  | [] => if label = [] then some [] else none
  | c :: cs =>
    if eqFold ((c :: cs).take label.length) label then some ((c :: cs).drop label.length)
    else afterLabel label cs

/-- The text up to the next line break, or all of it when there is none. -/
def upToLineBreak (s : Bytes) : Bytes := s.takeWhile fun c => c ≠ 0x0A

/-- The value the specification gives the text field `name`: the trimmed text
between the first occurrence of `name:` and the next line break, or the empty
string when `name:` does not occur. -/
def specField (name response : Bytes) : Bytes :=
  match afterLabel (name ++ ascii ":") response with
  | some rest => TrimSpace (upToLineBreak rest)
  | none => []

/-- The record the specification gives for a struct shape: every exported text
field holds its `specField`, every other field its zero value. -/
def specRecord (fs : List StructField) (response : Bytes) : List Value :=
  fs.map fun f =>
    if f.IsExported ∧ f.Typ = .String then .str (specField f.Name response) else zeroValue f.Typ

/-- The trimmed response starts with an opening brace or bracket, so that
`parseResponse` tries the structured decode. -/
def looksJson (response : Bytes) : Bool :=
  HasPrefix (TrimSpace response) (ascii "\x7b") || HasPrefix (TrimSpace response) (ascii "[")

/-- A client that records the prompts it is called with, in call order, next to
its own state. -/
def recording {Ctx σ ε : Type} (g : Generate Ctx σ ε) : Generate Ctx (σ × List Bytes) ε :=
  fun ctx prompt st => ((g ctx prompt st.1).1, ((g ctx prompt st.1).2, st.2 ++ [prompt]))

/-- The value `parseResponse` stores in a field of kind `k` holding `cur` when `rest` follows the pattern found. -/
def stored (k : Kind) (cur : Value) (rest : Bytes) : Value :=
  match k with
  | .String => .str (TrimSpace (upToLineBreak rest))
  | _ => cur

/-- An exported Go identifier written in ASCII: an upper-case letter followed by
letters, digits and underscores. -/
def isExportedName (name : Bytes) : Bool :=
  match name with
  | [] => false
  | c :: cs =>
    (0x41 ≤ c && c ≤ 0x5A) &&
      cs.all fun d =>
        (0x41 ≤ d && d ≤ 0x5A) || (0x61 ≤ d && d ≤ 0x7A) || (0x30 ≤ d && d ≤ 0x39) || d = 0x5F

/-- The entries the specification gives the map of input fields: one per
exported field, with its name and value, in declaration order. -/
def exportedEntries (fs : List StructField) (vals : List Value) : GoMap :=
  ((fs.zip vals).filter fun p => p.1.IsExported).map fun p => (p.1.Name, p.2)

/-- The prompt line of an input field. -/
def inputLine (L : Stdlib) (e : Bytes × Value) : Bytes := e.1 ++ ascii ": " ++ formatValue L e.2

/-- The prompt line of an output field. -/
def outputLine (name : Bytes) : Bytes := ascii "- " ++ name

/-- The names of the exported fields, in declaration order. -/
def exportedNames (fs : List StructField) : List Bytes :=
  (fs.filter StructField.IsExported).map StructField.Name

/-- The signature of the question answering test: input `Question`, output
`Answer`. -/
def qaSignature : Signature :=
  { Name := ascii "QA", Description := ascii "Answer questions",
    I := .struct [field "Question" .String], O := .struct [field "Answer" .String] }

/-- A client that answers every prompt with `response` and counts its calls. -/
def answering (response : Bytes) : Generate Unit Nat Bytes :=
  fun _ _ calls => ((response, none), calls + 1)

/-- A client that fails on every prompt with the error `cause` and counts its
calls. -/
def failing (cause : Bytes) : Generate Unit Nat Bytes :=
  fun _ _ calls => (([], some cause), calls + 1)

/-- The input section of the prompt as one block: the header `Input:` after a
line break and the lines of the fields visited; empty when there is no field. -/
def inputSection (L : Stdlib) (order : GoMap → GoMap) (typ : GoType) (val : GoValue) : Bytes :=
  if extractFields typ val = [] then []
  else Join (ascii "\nInput:" :: (order (extractFields typ val)).map (inputLine L)) (ascii "\n")

/-- The output section of the prompt as one block: the header
`Output the following fields:` after a line break and one line per name; empty
when there is no name. -/
def outputSection (O : GoType) : Bytes :=
  if getOutputFieldNames O = [] then []
  else Join (ascii "\nOutput the following fields:" :: (getOutputFieldNames O).map outputLine)
    (ascii "\n")

/-- The signature of a task with two input fields and no description. -/
def pairSignature : Signature :=
  { Name := ascii "Pair", Description := [],
    I := .struct [field "Text" .String, field "Lang" .String], O := .scalar .String }

/-- The field `name` of kind `k` of a struct declared in package `main`, not
exported. -/
def unexported (name : String) (k : Kind) : StructField :=
  { Name := ascii name, PkgPath := ascii "main", Typ := k }

/-! # Theorems -/

/-! ## Lemmas on ASCII text -/

theorem isASCII_cons (c : Nat) (s : Bytes) :
    isASCII (c :: s) = (decide (c < 128) && isASCII s) := by
  simp [isASCII, RuneSelf]

theorem isASCII_append (a b : Bytes) : isASCII (a ++ b) = (isASCII a && isASCII b) := by
  simp [isASCII]

theorem lowerByte_lt {c : Nat} (h : c < 128) : lowerByte c < 128 := by
  unfold lowerByte; split <;> omega

theorem upperByte_lt {c : Nat} (h : c < 128) : upperByte c < 128 := by
  unfold upperByte; split <;> omega

theorem lowerByte_idem (c : Nat) : lowerByte (lowerByte c) = lowerByte c := by
  unfold lowerByte; split_ifs <;> omega

theorem lowerByte_upperByte (c : Nat) : lowerByte (upperByte c) = lowerByte c := by
  unfold lowerByte upperByte; split_ifs <;> omega

theorem isASCII_map_lowerByte : ∀ s : Bytes, isASCII s = true → isASCII (s.map lowerByte) = true
  | [], _ => rfl
  | c :: cs, h => by
    rw [isASCII_cons] at h
    simp only [Bool.and_eq_true, decide_eq_true_eq] at h
    rw [List.map_cons, isASCII_cons]
    simp [lowerByte_lt h.1, isASCII_map_lowerByte cs h.2]

theorem map_lowerByte_idem (s : Bytes) : (s.map lowerByte).map lowerByte = s.map lowerByte := by
  simp [List.map_map, Function.comp_def, lowerByte_idem]

theorem ToLower_of_isASCII (L : Stdlib) (s : Bytes) (h : isASCII s = true) :
    ToLower L s = s.map lowerByte := by
  simp [ToLower, h]

theorem DecodeRuneInString_ascii (c : Nat) (cs : Bytes) (h : c < 128) :
    DecodeRuneInString (c :: cs) = (c, 1) := by
  simp [DecodeRuneInString, RuneSelf, h]

theorem EncodeRune_ascii (c : Nat) (h : c < 128) : EncodeRune c = [c] := by
  simp [EncodeRune, h]

theorem titleRunes_ascii (L : Stdlib) : ∀ (s : Bytes) (prev : Nat), isASCII s = true →
    isASCII (titleRunes L prev 0 s) = true ∧
      (titleRunes L prev 0 s).map lowerByte = s.map lowerByte
  | [], _, _ => by simp [titleRunes, isASCII]
  | c :: cs, prev, h => by
    rw [isASCII_cons] at h
    simp only [Bool.and_eq_true, decide_eq_true_eq] at h
    obtain ⟨ih1, ih2⟩ := titleRunes_ascii L cs c h.2
    have hle : c ≤ 127 := by omega
    simp only [titleRunes, DecodeRuneInString_ascii c cs h.1, Nat.sub_self]
    by_cases hs : isSeparator L prev = true
    · simp only [hs, if_true, unicodeToTitle, hle, EncodeRune_ascii _ (upperByte_lt h.1),
        List.singleton_append, isASCII_cons, List.map_cons, lowerByte_upperByte]
      simp [upperByte_lt h.1, ih1, ih2]
    · simp only [hs]
      simp [EncodeRune_ascii c h.1, isASCII_cons, h.1, ih1, ih2]

/-- On an ASCII name the three patterns are the same once lowered. -/
theorem patterns_lowered (L : Stdlib) (name : Bytes) (h : isASCII name = true) :
    (patterns L name).map (ToLower L) =
      [(name ++ ascii ":").map lowerByte, (name ++ ascii ":").map lowerByte,
        (name ++ ascii ":").map lowerByte] := by
  have hc : isASCII (ascii ":") = true := by decide
  have h1 : isASCII (name ++ ascii ":") = true := by rw [isASCII_append, h, hc]; rfl
  have hl : isASCII (name.map lowerByte) = true := isASCII_map_lowerByte name h
  have h2 : isASCII (name.map lowerByte ++ ascii ":") = true := by
    rw [isASCII_append, hl, hc]; rfl
  obtain ⟨ht1, ht2⟩ := titleRunes_ascii L (name.map lowerByte) 0x20 hl
  have h3 : isASCII (Title L (name.map lowerByte) ++ ascii ":") = true := by
    rw [isASCII_append, hc]; unfold Title; rw [ht1]; rfl
  simp only [patterns, List.map_cons, List.map_nil, ToLower_of_isASCII L name h,
    ToLower_of_isASCII L _ h1, ToLower_of_isASCII L _ h2, ToLower_of_isASCII L _ h3,
    List.map_append, map_lowerByte_idem]
  unfold Title
  rw [ht2, map_lowerByte_idem]

/-! ## Lemmas on `strings.Index` -/

theorem isPrefixOf_lowered (p s : Bytes) :
    (p.map lowerByte).isPrefixOf (s.map lowerByte) = eqFold (s.take p.length) p := by
  rw [Bool.eq_iff_iff, List.isPrefixOf_iff_prefix, List.prefix_iff_eq_take]
  simp only [eqFold, List.length_map, decide_eq_true_eq, List.map_take]
  exact eq_comm

theorem eqFold_length {a b : Bytes} (h : eqFold a b = true) : a.length = b.length := by
  simp only [eqFold, decide_eq_true_eq] at h
  simpa using congrArg List.length h

theorem indexFrom_lowered (p : Bytes) : ∀ (s : Bytes) (i : Nat),
    (∀ k, indexFrom (p.map lowerByte) (s.map lowerByte) i = some k →
      i ≤ k ∧ k - i + p.length ≤ s.length ∧
        afterLabel p s = some (s.drop (k - i + p.length))) ∧
    (indexFrom (p.map lowerByte) (s.map lowerByte) i = none → afterLabel p s = none)
  | [], i => by
    cases p with
    | nil => simp [indexFrom, afterLabel]
    | cons a p => simp [indexFrom, afterLabel, List.isPrefixOf]
  | c :: cs, i => by
    obtain ⟨ih1, ih2⟩ := indexFrom_lowered p cs (i + 1)
    have hpre := isPrefixOf_lowered p (c :: cs)
    rw [List.map_cons] at hpre
    rw [List.map_cons]
    simp only [indexFrom, afterLabel, hpre]
    by_cases h : eqFold ((c :: cs).take p.length) p = true
    · have hl := eqFold_length h
      rw [List.length_take] at hl
      simp only [h, if_true, Option.some.injEq]
      refine ⟨?_, by simp⟩
      intro k hk
      subst hk
      refine ⟨le_refl _, by omega, ?_⟩
      simp
    · simp only [h]
      refine ⟨?_, by simpa using ih2⟩
      intro k hk
      obtain ⟨h1, h2, h3⟩ := ih1 k (by simpa using hk)
      refine ⟨by omega, by simp only [List.length_cons]; omega, ?_⟩
      have hk2 : k - i + p.length = (k - (i + 1) + p.length) + 1 := by omega
      simp only [Bool.false_eq_true, if_false]
      rw [h3, hk2, List.drop_succ_cons]

theorem indexFrom_newline : ∀ (t : Bytes) (i : Nat),
    (∀ k, indexFrom [0x0A] t i = some k →
      i ≤ k ∧ k - i ≤ t.length ∧ t.take (k - i) = upToLineBreak t) ∧
    (indexFrom [0x0A] t i = none → upToLineBreak t = t)
  | [], i => by simp [indexFrom, upToLineBreak, List.isPrefixOf]
  | c :: cs, i => by
    obtain ⟨ih1, ih2⟩ := indexFrom_newline cs (i + 1)
    by_cases h : c = 0x0A
    · subst h
      simp [indexFrom, upToLineBreak, List.isPrefixOf]
    · have hne : ¬ (0x0A = c) := fun e => h e.symm
      have hstep : ∀ j, indexFrom [0x0A] (c :: cs) j = indexFrom [0x0A] cs (j + 1) := by
        intro j
        simp [indexFrom, List.isPrefixOf, hne]
      rw [hstep]
      refine ⟨?_, ?_⟩
      · intro k hk
        obtain ⟨h1, h2, h3⟩ := ih1 k hk
        refine ⟨by omega, by simp only [List.length_cons]; omega, ?_⟩
        have hk2 : k - i = (k - (i + 1)) + 1 := by omega
        rw [hk2, List.take_succ_cons, h3]
        simp [upToLineBreak, List.takeWhile, h]
      · intro hk
        have := ih2 hk
        simp only [upToLineBreak, List.takeWhile, ne_eq, h, not_false_eq_true, decide_True] at this ⊢
        rw [this]

/-! ## Lemmas on the pattern loop -/

theorem ascii_newline : ascii "\n" = [0x0A] := by decide

theorem sliceFrom_ok (s : Bytes) (n : Nat) (h : n ≤ s.length) :
    sliceFrom s (n : Int) = some (s.drop n) := by
  have h2 : (0 : Int) ≤ n ∧ (n : Int) ≤ s.length := ⟨by omega, by omega⟩
  simp [sliceFrom, h2]

theorem slice_ok (s : Bytes) (lo hi : Nat) (h1 : lo ≤ hi) (h2 : hi ≤ s.length) :
    slice s (lo : Int) (hi : Int) = some ((s.take hi).drop lo) := by
  have h : (0 : Int) ≤ lo ∧ (lo : Int) ≤ hi ∧ (hi : Int) ≤ s.length :=
    ⟨by omega, by omega, by omega⟩
  simp [slice, h]

theorem matchPatterns_miss (L : Stdlib) (response : Bytes) (k : Kind) (cur : Value)
    (pattern : Bytes) (rest : List Bytes)
    (h : indexFrom (ToLower L pattern) (ToLower L response) 0 = none) :
    matchPatterns L response k cur (pattern :: rest) = matchPatterns L response k cur rest := by
  simp [matchPatterns, Index, h]

theorem matchPatterns_hit (L : Stdlib) (response : Bytes) (k : Kind) (cur : Value)
    (pattern : Bytes) (rest : List Bytes) (k0 : Nat)
    (h : indexFrom (ToLower L pattern) (ToLower L response) 0 = some k0)
    (hle : k0 + pattern.length ≤ response.length) :
    matchPatterns L response k cur (pattern :: rest) =
      some (stored k cur (response.drop (k0 + pattern.length))) := by
  have hidx : Index (ToLower L response) (ToLower L pattern) = (k0 : Int) := by
    simp [Index, h]
  have hne : ((k0 : Int) ≠ -1) := by omega
  have hcast : ((k0 : Int) + (pattern.length : Int)) = ((k0 + pattern.length : Nat) : Int) := by
    push_cast; rfl
  have hfrom := sliceFrom_ok response (k0 + pattern.length) hle
  obtain ⟨hn1, hn2⟩ := indexFrom_newline (response.drop (k0 + pattern.length)) 0
  unfold matchPatterns
  simp only [hidx, hne, ne_eq, not_false_eq_true, if_true, hcast, hfrom, ascii_newline]
  cases hnl : indexFrom [0x0A] (response.drop (k0 + pattern.length)) 0 with
  | none =>
    have hup := hn2 hnl
    have hend : ((k0 + pattern.length : Nat) : Int) +
        ((response.length : Int) - ((k0 + pattern.length : Nat) : Int)) =
          ((response.length : Nat) : Int) := by omega
    simp only [Index, hnl, if_true, hend, slice_ok response _ _ hle (le_refl _),
      List.take_length]
    cases k <;> simp [stored, hup]
  | some j =>
    obtain ⟨-, hj, hup⟩ := hn1 j hnl
    simp only [Nat.sub_zero, List.length_drop] at hj hup
    have hjne : ((j : Int) = -1) = False := by
      apply propext; constructor
      · intro hh; omega
      · intro hh; exact hh.elim
    have hend : ((k0 + pattern.length : Nat) : Int) + (j : Int) =
        ((k0 + pattern.length + j : Nat) : Int) := by push_cast; rfl
    have hsl := slice_ok response (k0 + pattern.length) (k0 + pattern.length + j)
      (by omega) (by omega)
    have hdt : (response.take (k0 + pattern.length + j)).drop (k0 + pattern.length) =
        (response.drop (k0 + pattern.length)).take j := by
      rw [List.drop_take]
      congr 1
      omega
    simp only [Index, hnl, hjne, if_false, hend, hsl, hdt, hup]
    cases k <;> simp [stored]

theorem matchPatterns_patterns (L : Stdlib) (response name : Bytes) (k : Kind) (cur : Value)
    (hresp : ToLower L response = response.map lowerByte) (hname : isASCII name = true) :
    matchPatterns L response k cur (patterns L name) =
      some (match afterLabel (name ++ ascii ":") response with
        | some rest => stored k cur rest
        | none => cur) := by
  have hp := patterns_lowered L name hname
  simp only [patterns, List.map_cons, List.map_nil, List.cons.injEq, and_true] at hp
  obtain ⟨hp1, hp2, hp3⟩ := hp
  obtain ⟨i1, i2⟩ := indexFrom_lowered (name ++ ascii ":") response 0
  unfold patterns
  cases hi : indexFrom ((name ++ ascii ":").map lowerByte) (response.map lowerByte) 0 with
  | none =>
    rw [matchPatterns_miss L response k cur _ _ (by rw [hp1, hresp]; exact hi),
      matchPatterns_miss L response k cur _ _ (by rw [hp2, hresp]; exact hi),
      matchPatterns_miss L response k cur _ _ (by rw [hp3, hresp]; exact hi), i2 hi]
    rfl
  | some k0 =>
    obtain ⟨-, hle, haft⟩ := i1 k0 hi
    simp only [Nat.sub_zero] at hle haft
    rw [matchPatterns_hit L response k cur _ _ k0 (by rw [hp1, hresp]; exact hi) hle, haft]

theorem parseFields_spec (L : Stdlib) (response : Bytes)
    (hresp : ToLower L response = response.map lowerByte) :
    ∀ fs : List StructField, (∀ f ∈ fs, f.IsExported = true → isASCII f.Name = true) →
      parseFields L response fs (fs.map fun f => zeroValue f.Typ) =
        some (specRecord fs response)
  | [], _ => rfl
  | f :: fs, h => by
    have ih := parseFields_spec L response hresp fs
      (fun g hg => h g (List.mem_cons_of_mem _ hg))
    simp only [List.map_cons, parseFields, ih, Option.map_some', specRecord]
    by_cases he : f.IsExported = true
    · have hn := h f (List.mem_cons_self _ _) he
      rw [matchPatterns_patterns L response f.Name f.Typ _ hresp hn]
      simp only [he, Bool.not_true, Bool.false_eq_true, if_false, true_and, specField]
      cases afterLabel (f.Name ++ ascii ":") response with
      | none => cases hk : f.Typ <;> simp [zeroValue]
      | some rest => cases hk : f.Typ <;> simp [stored, zeroValue]
    · simp [he]

theorem parseResponse_struct_spec {ε : Type} (L : Stdlib) (fs : List StructField)
    (response : Bytes) (hj : looksJson response = false)
    (hresp : ToLower L response = response.map lowerByte)
    (hnames : ∀ f ∈ fs, f.IsExported = true → isASCII f.Name = true) :
    parseResponse ε L (.struct fs) response =
      some (.struct (specRecord fs response), none) := by
  have hj2 := hj
  rw [looksJson] at hj2
  simp only [parseResponse, hj2, Bool.false_eq_true, false_and, if_false, extractFromText, zero,
    parseFields_spec L response hresp fs hnames, Option.map_some']

/-! ## Lemmas on the structured decode -/

theorem HasPrefix_singleton {s : Bytes} {c : Nat} (h : HasPrefix s [c] = true) :
    ∃ t, s = c :: t := by
  cases s with
  | nil => simp [HasPrefix, List.isPrefixOf] at h
  | cons a t =>
    simp only [HasPrefix, List.isPrefixOf, Bool.and_true, beq_iff_eq] at h
    exact ⟨t, by rw [h]⟩

theorem parseValue_brace (n : Nat) (t : Bytes) :
    parseValue (n + 1) (0x7B :: t) = none ∨
      ∃ ms rest, parseValue (n + 1) (0x7B :: t) = some (.obj ms, rest) := by
  rw [parseValue]
  simp only [skipWs, isJsonSpace]
  norm_num
  split
  · exact Or.inr ⟨_, _, rfl⟩
  · split
    · exact Or.inr ⟨_, _, rfl⟩
    · exact Or.inl rfl

theorem parseValue_bracket (n : Nat) (t : Bytes) :
    parseValue (n + 1) (0x5B :: t) = none ∨
      ∃ items rest, parseValue (n + 1) (0x5B :: t) = some (.arr items, rest) := by
  rw [parseValue]
  simp only [skipWs, isJsonSpace]
  norm_num
  split
  · exact Or.inr ⟨_, _, rfl⟩
  · split
    · exact Or.inr ⟨_, _, rfl⟩
    · exact Or.inl rfl

theorem parseJson_brace (t : Bytes) :
    parseJson (0x7B :: t) = none ∨ ∃ ms, parseJson (0x7B :: t) = some (.obj ms) := by
  unfold parseJson
  rcases parseValue_brace (0x7B :: t).length t with h | ⟨ms, rest, h⟩
  · rw [h]; exact Or.inl rfl
  · rw [h]
    by_cases hr : skipWs rest = []
    · exact Or.inr ⟨ms, by simp [hr]⟩
    · exact Or.inl (by simp [hr])

theorem parseJson_bracket (t : Bytes) :
    parseJson (0x5B :: t) = none ∨ ∃ items, parseJson (0x5B :: t) = some (.arr items) := by
  unfold parseJson
  rcases parseValue_bracket (0x5B :: t).length t with h | ⟨items, rest, h⟩
  · rw [h]; exact Or.inl rfl
  · rw [h]
    by_cases hr : skipWs rest = []
    · exact Or.inr ⟨items, by simp [hr]⟩
    · exact Or.inl (by simp [hr])

/-- A text that starts with a brace or a bracket never decodes into a string. -/
theorem jsonUnmarshal_string_fails (L : Stdlib) (data : Bytes) (cur : Value)
    (h : (HasPrefix data (ascii "\x7b") || HasPrefix data (ascii "[")) = true) :
    (jsonUnmarshal L data (.scalar .String) (.scalar cur)).2 ≠ none := by
  have hb : ascii "\x7b" = [0x7B] := by decide
  have hk : ascii "[" = [0x5B] := by decide
  rw [hb, hk, Bool.or_eq_true] at h
  rcases h with h | h
  · obtain ⟨t, rfl⟩ := HasPrefix_singleton h
    rcases parseJson_brace t with hp | ⟨ms, hp⟩ <;>
      simp [jsonUnmarshal, hp, decodeInto, decodeScalar]
  · obtain ⟨t, rfl⟩ := HasPrefix_singleton h
    rcases parseJson_bracket t with hp | ⟨items, hp⟩ <;>
      simp [jsonUnmarshal, hp, decodeInto, decodeScalar]

/-! ## Lemmas on fields that are not text -/

theorem matchPatterns_other (L : Stdlib) (response : Bytes) (k : Kind) (cur : Value)
    (hk : k ≠ .String) :
    ∀ (ps : List Bytes) (v : Value), matchPatterns L response k cur ps = some v → v = cur
  | [], v, h => by
    simp only [matchPatterns, Option.some.injEq] at h
    exact h.symm
  | pattern :: rest, v, h => by
    have ih := matchPatterns_other L response k cur hk rest v
    unfold matchPatterns at h
    simp only at h
    split at h
    · split at h
      · exact absurd h (by simp)
      · split at h
        · exact absurd h (by simp)
        · cases k <;> simp_all
    · exact ih h

theorem parseFields_other (L : Stdlib) (response : Bytes) :
    ∀ (fs : List StructField) (vals out : List Value),
      parseFields L response fs vals = some out →
        out.length = vals.length ∧
          ∀ (i : Nat) (f : StructField), fs.get? i = some f → f.Typ ≠ .String →
            out.get? i = vals.get? i
  | [], vals, out, h => by
    simp only [parseFields, Option.some.injEq] at h
    subst h
    exact ⟨rfl, fun _ _ _ _ => rfl⟩
  | f :: fs, [], out, h => by
    simp only [parseFields, Option.some.injEq] at h
    subst h
    exact ⟨rfl, fun _ _ _ _ => rfl⟩
  | f :: fs, v :: vs, out, h => by
    simp only [parseFields] at h
    by_cases he : f.IsExported = true
    · simp only [he, Bool.not_true, Bool.false_eq_true, if_false] at h
      cases hm : matchPatterns L response f.Typ v (patterns L f.Name) with
      | none => rw [hm] at h; exact absurd h (by simp)
      | some v1 =>
        rw [hm] at h
        cases hr : parseFields L response fs vs with
        | none => rw [hr] at h; exact absurd h (by simp)
        | some out1 =>
          rw [hr] at h
          simp only [Option.map_some', Option.some.injEq] at h
          subst h
          obtain ⟨h1, h2⟩ := parseFields_other L response fs vs out1 hr
          refine ⟨by simp [h1], ?_⟩
          intro i g hg hne
          cases i with
          | zero =>
            simp only [List.get?_cons_zero, Option.some.injEq] at hg
            subst hg
            simp [matchPatterns_other L response f.Typ v hne _ v1 hm]
          | succ j => simpa using h2 j g (by simpa using hg) hne
    · simp only [he, Bool.not_false, if_true] at h
      cases hr : parseFields L response fs vs with
      | none => rw [hr] at h; exact absurd h (by simp)
      | some out1 =>
        rw [hr] at h
        simp only [Option.map_some', Option.some.injEq] at h
        subst h
        obtain ⟨h1, h2⟩ := parseFields_other L response fs vs out1 hr
        refine ⟨by simp [h1], ?_⟩
        intro i g hg hne
        cases i with
        | zero => simp
        | succ j => simpa using h2 j g (by simpa using hg) hne

/-! ## Lemmas on white space -/

theorem TrimLeftSpace_space (v : Bytes) : TrimLeftSpace (0x20 :: v) = TrimLeftSpace v := by
  conv_lhs => rw [TrimLeftSpace.eq_def]
  simp [isSpaceSeq]

theorem TrimSpace_space (v : Bytes) : TrimSpace (0x20 :: v) = TrimSpace v := by
  unfold TrimSpace
  rw [TrimLeftSpace_space]

theorem isSpaceSeq_cons_ascii (c : Nat) (t : Bytes) (hc : c < 128)
    (hs : isSpaceSeq [c] = false) : isSpaceSeq (c :: t) = false := by
  match t with
  | [] => exact hs
  | [b] => simp only [isSpaceSeq]; simp; omega
  | [b, d] => simp only [isSpaceSeq]; simp; omega
  | _ :: _ :: _ :: _ => simp [isSpaceSeq]

theorem isSpaceSeq_snoc_ascii (c : Nat) (a : Bytes) (hc : c < 128)
    (hs : isSpaceSeq [c] = false) : isSpaceSeq (a ++ [c]) = false := by
  match a with
  | [] => exact hs
  | [b] => simp only [List.cons_append, List.nil_append, isSpaceSeq]; simp; omega
  | [b, d] => simp only [List.cons_append, List.nil_append, isSpaceSeq]; simp; omega
  | _ :: _ :: _ :: _ => simp [isSpaceSeq]

theorem TrimLeftSpace_cons_ascii (c : Nat) (t : Bytes) (hc : c < 128)
    (hs : isSpaceSeq [c] = false) : TrimLeftSpace (c :: t) = c :: t := by
  rw [TrimLeftSpace.eq_def]
  match t with
  | [] => simp [hs]
  | [b] => simp [hs, isSpaceSeq_cons_ascii c [b] hc hs]
  | b :: d :: t3 =>
    simp [hs, isSpaceSeq_cons_ascii c [b] hc hs, isSpaceSeq_cons_ascii c [b, d] hc hs]

theorem TrimRightSpace_cons_ascii (c : Nat) (t : Bytes) (hc : c < 128)
    (hs : isSpaceSeq [c] = false) : TrimRightSpace (c :: t) = c :: TrimRightSpace t := by
  rw [TrimRightSpace]
  simp [isSpaceSeq_cons_ascii c _ hc hs]

theorem TrimRightSpace_snoc_ascii (c : Nat) (hc : c < 128) (hs : isSpaceSeq [c] = false) :
    ∀ a : Bytes, TrimRightSpace (a ++ [c]) = a ++ [c]
  | [] => by
    simp [TrimRightSpace, hs]
  | x :: a => by
    rw [List.cons_append, TrimRightSpace, TrimRightSpace_snoc_ascii c hc hs a]
    have := isSpaceSeq_snoc_ascii c (x :: a) hc hs
    rw [List.cons_append] at this
    simp [this]

theorem TrimSpace_cons_ascii (c : Nat) (t : Bytes) (hc : c < 128)
    (hs : isSpaceSeq [c] = false) : TrimSpace (c :: t) = c :: TrimRightSpace t := by
  unfold TrimSpace
  rw [TrimLeftSpace_cons_ascii c t hc hs, TrimRightSpace_cons_ascii c t hc hs]

/-- A text between two ASCII bytes that are not white space is its own trimmed
form. -/
theorem TrimSpace_between (c d : Nat) (a : Bytes) (hc : c < 128) (hs : isSpaceSeq [c] = false)
    (hd : d < 128) (ht : isSpaceSeq [d] = false) :
    TrimSpace (c :: (a ++ [d])) = c :: (a ++ [d]) := by
  rw [TrimSpace_cons_ascii c _ hc hs, TrimRightSpace_snoc_ascii d hd ht]

theorem upToLineBreak_eq_self (s : Bytes) (h : 0x0A ∉ s) : upToLineBreak s = s := by
  unfold upToLineBreak
  rw [List.takeWhile_eq_self_iff]
  intro c hc
  have : c ≠ 0x0A := fun e => h (e ▸ hc)
  simpa using this

/-! ## Lemmas on a response that starts with its label -/

theorem lowerByte_lt_iff (c : Nat) : lowerByte c < 128 ↔ c < 128 := by
  unfold lowerByte; split <;> omega

theorem isASCII_of_map_lowerByte : ∀ s : Bytes, isASCII (s.map lowerByte) = true →
    isASCII s = true
  | [], _ => rfl
  | c :: cs, h => by
    rw [List.map_cons, isASCII_cons] at h
    simp only [Bool.and_eq_true, decide_eq_true_eq] at h
    rw [isASCII_cons]
    simp [(lowerByte_lt_iff c).1 h.1, isASCII_of_map_lowerByte cs h.2]

theorem mapRunes_ascii_append (L : Stdlib) : ∀ (a b : Bytes), isASCII a = true →
    mapRunes (unicodeToLower L) 0 (a ++ b) =
      a.map lowerByte ++ mapRunes (unicodeToLower L) 0 b
  | [], b, _ => rfl
  | c :: a, b, h => by
    rw [isASCII_cons] at h
    simp only [Bool.and_eq_true, decide_eq_true_eq] at h
    have hle : c ≤ 127 := by omega
    have ih := mapRunes_ascii_append L a b h.2
    simp only [List.cons_append, mapRunes, DecodeRuneInString_ascii c _ h.1, Nat.sub_self,
      unicodeToLower, hle, if_true, EncodeRune_ascii _ (lowerByte_lt h.1), List.map_cons,
      List.singleton_append]
    exact congrArg (fun t => lowerByte c :: t) ih

theorem ToLower_ascii_prefix (L : Stdlib) (a b : Bytes) (h : isASCII a = true) :
    ∃ t, ToLower L (a ++ b) = a.map lowerByte ++ t := by
  unfold ToLower
  by_cases hab : isASCII (a ++ b) = true
  · exact ⟨b.map lowerByte, by simp [hab]⟩
  · exact ⟨_, by simp only [hab, Bool.false_eq_true, if_false]; exact mapRunes_ascii_append L a b h⟩

theorem indexFrom_of_prefix (sep s : Bytes) (i : Nat) (h : sep.isPrefixOf s = true) :
    indexFrom sep s i = some i := by
  cases s <;> simp [indexFrom, h]

theorem isExportedName_ascii : ∀ name : Bytes, isExportedName name = true → isASCII name = true
  | [], h => by simp [isExportedName] at h
  | c :: cs, h => by
    simp only [isExportedName, Bool.and_eq_true, decide_eq_true_eq, List.all_eq_true,
      Bool.or_eq_true] at h
    rw [isASCII_cons]
    have hc : c < 128 := by omega
    simp only [hc, decide_True, Bool.true_and, isASCII, List.all_eq_true, decide_eq_true_eq,
      RuneSelf]
    intro d hd
    have := h.2 d hd
    omega

/-- The response `label: v` for a one-field text struct: the field holds the
trimmed `v`, whatever bytes `v` has apart from line breaks. -/
theorem parseResponse_labelled (ε : Type) (L : Stdlib) (name label v : Bytes)
    (hname : isExportedName name = true) (hcase : eqFold label name = true)
    (hv : 0x0A ∉ v) :
    parseResponse ε L (.struct [{ Name := name, PkgPath := [], Typ := .String }])
        (label ++ ascii ": " ++ v) = some (.struct [.str (TrimSpace v)], none) := by
  have hcolon : ascii ": " = [0x3A, 0x20] := by decide
  have hcol : ascii ":" = [0x3A] := by decide
  have hna := isExportedName_ascii name hname
  have hlen := eqFold_length hcase
  simp only [eqFold, decide_eq_true_eq] at hcase
  have hla : isASCII label = true :=
    isASCII_of_map_lowerByte label (by rw [hcase]; exact isASCII_map_lowerByte name hna)
  -- the first byte of the label is a letter
  obtain ⟨c, cs, rfl⟩ : ∃ c cs, name = c :: cs := by
    cases name with
    | nil => simp [isExportedName] at hname
    | cons c cs => exact ⟨c, cs, rfl⟩
  obtain ⟨d, ds, rfl⟩ : ∃ d ds, label = d :: ds := by
    cases label with
    | nil => simp at hlen
    | cons d ds => exact ⟨d, ds, rfl⟩
  have hc : 0x41 ≤ c ∧ c ≤ 0x5A := by
    simp only [isExportedName, Bool.and_eq_true, decide_eq_true_eq] at hname
    exact hname.1
  have hd : lowerByte d = lowerByte c := by
    simp only [List.map_cons, List.cons.injEq] at hcase
    exact hcase.1
  have hd1 : d < 128 := by
    unfold lowerByte at hd; split_ifs at hd <;> omega
  have hd2 : isSpaceSeq [d] = false := by
    simp only [isSpaceSeq]
    unfold lowerByte at hd; split_ifs at hd <;> simp <;> omega
  have hd3 : d ≠ 0x7B ∧ d ≠ 0x5B := by
    unfold lowerByte at hd; split_ifs at hd <;> omega
  -- the structured decode is not tried
  have hj : (HasPrefix (TrimSpace (d :: ds ++ ascii ": " ++ v)) (ascii "\x7b") ||
      HasPrefix (TrimSpace (d :: ds ++ ascii ": " ++ v)) (ascii "[")) = false := by
    have hb : ascii "\x7b" = [0x7B] := by decide
    have hk : ascii "[" = [0x5B] := by decide
    rw [List.cons_append, List.cons_append, TrimSpace_cons_ascii d _ hd1 hd2, hb, hk]
    simp [HasPrefix, List.isPrefixOf, Ne.symm hd3.1, Ne.symm hd3.2]
  -- the first pattern is found at offset 0
  have hsplit : d :: ds ++ ascii ": " ++ v = (d :: ds ++ [0x3A]) ++ (0x20 :: v) := by
    rw [hcolon]; simp
  have hpa : isASCII (d :: ds ++ [0x3A]) = true := by
    rw [isASCII_append, hla]; rfl
  obtain ⟨t, ht⟩ := ToLower_ascii_prefix L (d :: ds ++ [0x3A]) (0x20 :: v) hpa
  have hpat : ToLower L (c :: cs ++ ascii ":") = (d :: ds ++ [0x3A]).map lowerByte := by
    rw [ToLower_of_isASCII L _ (by rw [isASCII_append, hna]; rfl), hcol, List.map_append,
      List.map_append, hcase]
  have hidx : indexFrom (ToLower L (c :: cs ++ ascii ":"))
      (ToLower L (d :: ds ++ ascii ": " ++ v)) 0 = some 0 := by
    apply indexFrom_of_prefix
    rw [hsplit, ht, hpat, List.isPrefixOf_iff_prefix]
    exact List.prefix_append _ _
  have hplen : (c :: cs ++ ascii ":").length = (d :: ds ++ [0x3A]).length := by
    rw [hcol, List.length_append, List.length_append, hlen]
  have hle : 0 + (c :: cs ++ ascii ":").length ≤ (d :: ds ++ ascii ": " ++ v).length := by
    rw [hsplit, hplen]; simp only [List.length_append, List.length_cons]; omega
  have hm := matchPatterns_hit L (d :: ds ++ ascii ": " ++ v) .String (zeroValue .String)
    (c :: cs ++ ascii ":") [ToLower L (c :: cs) ++ ascii ":",
      Title L (ToLower L (c :: cs)) ++ ascii ":"] 0 hidx hle
  have hdrop : (d :: ds ++ ascii ": " ++ v).drop (0 + (c :: cs ++ ascii ":").length) =
      0x20 :: v := by
    rw [hsplit, hplen, Nat.zero_add]
    exact List.drop_left' rfl
  rw [hdrop] at hm
  have hup : upToLineBreak (0x20 :: v) = 0x20 :: v :=
    upToLineBreak_eq_self _ (by simp only [List.mem_cons, not_or]; exact ⟨by decide, hv⟩)
  simp only [stored, hup, TrimSpace_space] at hm
  simp only [parseResponse, hj, Bool.false_eq_true, false_and, if_false, extractFromText, zero,
    List.map_cons, List.map_nil, parseFields, StructField.IsExported, decide_True, Bool.not_true,
    patterns, hm, Option.map_some']

/-! ## Lemmas on a response that is a JSON object with one text member -/

theorem scanString_plain : ∀ (v rest : Bytes), v.all plainByte = true →
    scanString (v ++ 0x22 :: rest) = some (v, rest)
  | [], rest, _ => by
    simp [scanString, scanStringFrom]
  | c :: v, rest, h => by
    simp only [List.all_cons, Bool.and_eq_true] at h
    have ih := scanString_plain v rest h.2
    have hc := h.1
    simp only [plainByte, Bool.not_eq_true', Bool.or_eq_false_iff, decide_eq_false_iff_not] at hc
    unfold scanString at ih ⊢
    rw [List.cons_append, scanStringFrom]
    simp [hc.1.1, hc.1.2, hc.2, ih, scanned]

theorem parseValue_single_member (n : Nat) (key v : Bytes) (hk : key.all plainByte = true)
    (hv : v.all plainByte = true) :
    parseValue (n + 3) (0x7B :: 0x22 :: (key ++ 0x22 :: 0x3A :: 0x22 :: (v ++ [0x22, 0x7D]))) =
      some (.obj [(unquote key, .str (unquote v))], []) := by
  have h1 := scanString_plain key (0x3A :: 0x22 :: (v ++ [0x22, 0x7D])) hk
  have h2 := scanString_plain v [0x7D] hv
  have hinner : parseValue (n + 1) (0x22 :: (v ++ [0x22, 0x7D])) =
      some (.str (unquote v), [0x7D]) := by
    rw [parseValue]
    simp [skipWs, isJsonSpace, h2]
  have hmem : parseMembers (n + 2) (0x22 :: (key ++ 0x22 :: 0x3A :: 0x22 :: (v ++ [0x22, 0x7D]))) =
      some ([(unquote key, .str (unquote v))], []) := by
    rw [parseMembers]
    simp [skipWs, isJsonSpace, h1, hinner]
  rw [parseValue]
  simp [skipWs, isJsonSpace, hmem]

theorem parseJson_single_member (key v : Bytes) (hk : key.all plainByte = true)
    (hv : v.all plainByte = true) :
    parseJson (0x7B :: 0x22 :: (key ++ 0x22 :: 0x3A :: 0x22 :: (v ++ [0x22, 0x7D]))) =
      some (.obj [(unquote key, .str (unquote v))]) := by
  unfold parseJson
  have hlen : (0x7B :: 0x22 :: (key ++ 0x22 :: 0x3A :: 0x22 :: (v ++ [0x22, 0x7D]))).length + 1 =
      (key.length + v.length + 5) + 3 := by
    simp only [List.length_cons, List.length_append, List.length_nil]; omega
  rw [hlen, parseValue_single_member _ key v hk hv]
  simp [skipWs]

/-- The response that is the JSON object with the member `Label` holding the
text `v`, for the struct with the text field `Label`: the structured decode
succeeds and the field holds `v`. -/
theorem parseResponse_json_label (ε : Type) (L : Stdlib) (v : Bytes)
    (hplain : v.all plainByte = true) (hvalid : ValidString v = true) :
    parseResponse ε L (.struct [field "Label" .String])
      (ascii "\x7b\"Label\":\"" ++ v ++ ascii "\"\x7d") = some (.struct [.str v], none) := by
  have ha : ascii "\x7b\"Label\":\"" = 0x7B :: 0x22 :: (ascii "Label" ++ [0x22, 0x3A, 0x22]) := by
    decide
  have hb : ascii "\"\x7d" = [0x22, 0x7D] := by decide
  have hbrace : ascii "\x7b" = [0x7B] := by decide
  have hdata : ascii "\x7b\"Label\":\"" ++ v ++ ascii "\"\x7d" =
      0x7B :: 0x22 :: (ascii "Label" ++ 0x22 :: 0x3A :: 0x22 :: (v ++ [0x22, 0x7D])) := by
    rw [ha, hb]; simp
  have hshape : 0x7B :: 0x22 :: (ascii "Label" ++ 0x22 :: 0x3A :: 0x22 :: (v ++ [0x22, 0x7D])) =
      0x7B :: ((0x22 :: (ascii "Label" ++ 0x22 :: 0x3A :: 0x22 :: (v ++ [0x22]))) ++ [0x7D]) := by
    simp
  have htrim : TrimSpace (ascii "\x7b\"Label\":\"" ++ v ++ ascii "\"\x7d") =
      0x7B :: 0x22 :: (ascii "Label" ++ 0x22 :: 0x3A :: 0x22 :: (v ++ [0x22, 0x7D])) := by
    rw [hdata, hshape]
    exact TrimSpace_between 0x7B 0x7D _ (by decide) (by decide) (by decide) (by decide)
  have hkey : unquote (ascii "Label") = ascii "Label" := by decide
  have hval : unquote v = v := by simp [unquote, hplain, hvalid]
  have hjson := parseJson_single_member (ascii "Label") v (by decide) hplain
  rw [hkey, hval] at hjson
  have hdec : jsonUnmarshal L
      (0x7B :: 0x22 :: (ascii "Label" ++ 0x22 :: 0x3A :: 0x22 :: (v ++ [0x22, 0x7D])))
      (.struct [field "Label" .String]) (zero (.struct [field "Label" .String])) =
        (.struct [.str v], none) := by
    simp [jsonUnmarshal, hjson, decodeInto, zero, decodeMembers, findField, firstIdx, field,
      StructField.IsExported, decodeScalar, zeroValue]
  unfold parseResponse
  simp only [htrim, hdec, hbrace]
  simp [HasPrefix, List.isPrefixOf]

/-! ## Lemmas on the prompt -/

theorem GoMap_insert_fresh (m : GoMap) (k : Bytes) (v : Value) (h : k ∉ m.map Prod.fst) :
    GoMap.insert m k v = m ++ [(k, v)] := by
  unfold GoMap.insert
  have : m.any (fun e => decide (e.1 = k)) = false := by
    rw [Bool.eq_false_iff]
    intro hany
    rw [List.any_eq_true] at hany
    obtain ⟨e, he, hek⟩ := hany
    simp only [decide_eq_true_eq] at hek
    exact h (List.mem_map.2 ⟨e, he, hek⟩)
  simp [this]

theorem extractLoop_eq : ∀ (fs : List StructField) (vals : List Value) (acc : GoMap),
    (acc.map Prod.fst ++ exportedNames fs).Nodup →
      extractLoop fs vals acc = acc ++ exportedEntries fs vals
  | [], vals, acc, _ => by simp [extractLoop, exportedEntries]
  | f :: fs, [], acc, _ => by simp [extractLoop, exportedEntries]
  | f :: fs, v :: vs, acc, h => by
    by_cases he : f.IsExported = true
    · have hn : exportedNames (f :: fs) = f.Name :: exportedNames fs := by
        simp [exportedNames, List.filter_cons, he]
      rw [hn] at h
      have hfresh : f.Name ∉ acc.map Prod.fst := by
        intro hmem
        have := (List.nodup_append.1 h).2.2
        exact this hmem (List.mem_cons_self _ _)
      have h2 : ((acc ++ [(f.Name, v)]).map Prod.fst ++ exportedNames fs).Nodup := by
        simpa [List.map_append, List.append_assoc] using h
      have ih := extractLoop_eq fs vs (acc ++ [(f.Name, v)]) h2
      simp only [extractLoop, he, Bool.not_true, Bool.false_eq_true, if_false,
        GoMap_insert_fresh acc f.Name v hfresh, ih]
      simp [exportedEntries, List.zip_cons_cons, List.filter_cons, he]
    · have hn : exportedNames (f :: fs) = exportedNames fs := by
        simp [exportedNames, List.filter_cons, he]
      rw [hn] at h
      have ih := extractLoop_eq fs vs acc h
      simp only [extractLoop, he, Bool.not_false, if_true, ih]
      simp [exportedEntries, List.zip_cons_cons, List.filter_cons, he]

theorem exportedEntries_ne_nil : ∀ (fs : List StructField) (vals : List Value),
    vals.length = fs.length → (∃ f ∈ fs, f.IsExported = true) → exportedEntries fs vals ≠ []
  | [], _, _, h => by
    obtain ⟨f, hf, _⟩ := h
    exact absurd hf (List.not_mem_nil f)
  | f :: fs, [], hl, _ => by simp at hl
  | f :: fs, v :: vs, hl, h => by
    by_cases he : f.IsExported = true
    · simp [exportedEntries, List.zip_cons_cons, List.filter_cons, he]
    · have ih := exportedEntries_ne_nil fs vs (by simpa using hl) (by
        obtain ⟨g, hg, hge⟩ := h
        rcases List.mem_cons.1 hg with rfl | hg
        · exact absurd hge he
        · exact ⟨g, hg, hge⟩)
      simpa [exportedEntries, List.zip_cons_cons, List.filter_cons, he] using ih

theorem Join_append : ∀ (xs ys : List Bytes) (sep : Bytes), xs ≠ [] → ys ≠ [] →
    Join (xs ++ ys) sep = Join xs sep ++ sep ++ Join ys sep
  | [], _, _, h, _ => absurd rfl h
  | [a], [], _, _, h => absurd rfl h
  | [a], b :: ys, sep, _, _ => by simp [Join]
  | a :: a2 :: xs, ys, sep, _, h => by
    have ih := Join_append (a2 :: xs) ys sep (by simp) h
    simp only [List.cons_append] at ih ⊢
    simp only [Join, ih, List.append_assoc]

theorem parseResponse_err_nil (ε : Type) (L : Stdlib) (O : GoType) (response : Bytes)
    (out : GoValue) (err : Option ε) (h : parseResponse ε L O response = some (out, err)) :
    err = none := by
  unfold parseResponse at h
  simp only at h
  split at h
  · simp only [Option.some.injEq, Prod.mk.injEq] at h
    exact h.2.symm
  · split at h <;>
    · simp only [Option.map_eq_some'] at h
      obtain ⟨_, _, h⟩ := h
      simp only [Prod.mk.injEq] at h
      exact h.2.symm

/-! ## The response parser -/

/-- The reference definition of field extraction, where the code meets it: on
the heuristic path (the trimmed response does not start with a brace or a
bracket), for a response whose lower-casing acts byte by byte (every ASCII text
is one) and a struct shape whose exported names are ASCII, `parseResponse`
returns the record of the specification with a nil error: every exported text
field `F` holds the trimmed text between the first occurrence of `F:` up to
case and the next line break, or the empty string when `F:` does not occur. -/
theorem parseResponse_eq_specRecord (ε : Type) (L : Stdlib) (fs : List StructField)
    (response : Bytes) (hj : looksJson response = false)
    (hresp : ToLower L response = response.map lowerByte)
    (hnames : ∀ f ∈ fs, f.IsExported = true → isASCII f.Name = true) :
    parseResponse ε L (.struct fs) response = some (.struct (specRecord fs response), none) :=
  parseResponse_struct_spec L fs response hj hresp hnames

theorem parseResponse_eq_specRecord_witness :
    looksJson (ascii "Intro\nanswer: Go is a language. \nAnswer: no") = false ∧
    parseResponse Unit excerpt (.struct [field "Answer" .String, field "Topic" .String])
        (ascii "Intro\nanswer: Go is a language. \nAnswer: no") =
      some (.struct [.str (ascii "Go is a language."), .str []], none) :=
  ⟨by decide,
    (parseResponse_eq_specRecord Unit excerpt [field "Answer" .String, field "Topic" .String]
      (ascii "Intro\nanswer: Go is a language. \nAnswer: no") (by decide) (by decide)
      (by decide)).trans (by decide)⟩


set_option maxRecDepth 100000 in
/-- C1 (the code differs): for a field whose name changes its length in bytes
when lower-cased, field extraction does not start just after the label.  The
field is named U+023A `x`; the response is U+2C65 `x: v`, in lower case already,
so that lower-casing it changes nothing and it does not start with a brace or a
bracket.  The label occurs at offset 0 up to case and is five bytes long there,
and the text after it, trimmed, is `v`; `parseResponse` adds the four bytes of
the pattern as written to the offset and stores `: v`. -/
theorem parseResponse_starts_inside_label :
    strokeField.IsExported = true ∧
    looksJson strokeResponse = false ∧
    ToLower excerpt strokeResponse = strokeResponse ∧
    (strokeField.Name ++ ascii ":").length = 4 ∧
    ToLower excerpt (strokeField.Name ++ ascii ":") = strokeResponse.take 5 ∧
    Index (ToLower excerpt strokeResponse) (ToLower excerpt (strokeField.Name ++ ascii ":")) = 0 ∧
    TrimSpace (strokeResponse.drop 5) = ascii "v" ∧
    parseResponse Bytes excerpt (.struct [strokeField]) strokeResponse =
      some (.struct [.str (ascii ": v")], none) := by
  decide

/-- C3: for the output shape `string`, `parseResponse` returns the raw response,
untrimmed, with a nil error, for every response text; a text whose trimmed form
starts with a brace or a bracket fails the structured decode and falls through. -/
theorem parseResponse_string (ε : Type) (L : Stdlib) (response : Bytes) :
    parseResponse ε L (.scalar .String) response = some (.scalar (.str response), none) := by
  unfold parseResponse
  by_cases hj : (HasPrefix (TrimSpace response) (ascii "\x7b") ||
      HasPrefix (TrimSpace response) (ascii "[")) = true
  · have hf := jsonUnmarshal_string_fails L (TrimSpace response) (zeroValue .String) hj
    simp only [zero] at hf ⊢
    simp [hj, hf, extractFromText]
  · simp [hj, extractFromText]

/-- C6: on the heuristic path every field of the output struct whose kind is not
string is left at its zero value, whatever the response holds: whenever
`parseResponse` returns, the record has one value per field and each field that
is not text holds the zero value of its kind; and it does return when the
lower-casing of the response acts byte by byte and the exported names are
ASCII. -/
theorem parseResponse_other_kinds_zero (ε : Type) (L : Stdlib) (fs : List StructField)
    (response : Bytes) (hj : looksJson response = false) :
    (∀ (out : GoValue) (err : Option ε),
      parseResponse ε L (.struct fs) response = some (out, err) →
        ∃ vals, out = .struct vals ∧ vals.length = fs.length ∧
          ∀ (i : Nat) (f : StructField), fs.get? i = some f → f.Typ ≠ .String →
            vals.get? i = some (zeroValue f.Typ)) ∧
    (ToLower L response = response.map lowerByte →
      (∀ f ∈ fs, f.IsExported = true → isASCII f.Name = true) →
        (parseResponse ε L (.struct fs) response).isSome = true) := by
  refine ⟨?_, fun hresp hnames => by
    rw [parseResponse_struct_spec L fs response hj hresp hnames]; rfl⟩
  intro out err h
  have hj2 := hj
  rw [looksJson] at hj2
  simp only [parseResponse, hj2, Bool.false_eq_true, false_and, if_false, extractFromText,
    zero] at h
  cases hp : parseFields L response fs (fs.map fun f => zeroValue f.Typ) with
  | none => rw [hp] at h; exact absurd h (by simp)
  | some vals =>
    rw [hp] at h
    simp only [Option.map_some', Option.some.injEq, Prod.mk.injEq] at h
    obtain ⟨h1, h2⟩ := parseFields_other L response fs _ vals hp
    refine ⟨vals, h.1.symm, by simpa using h1, ?_⟩
    intro i f hf hne
    rw [h2 i f hf hne, List.get?_eq_getElem?, List.getElem?_map, ← List.get?_eq_getElem?, hf]
    rfl

theorem parseResponse_other_kinds_zero_witness :
    looksJson (ascii "Label: positive\nScore: 0.9") = false ∧
    parseResponse Unit excerpt (.struct [field "Label" .String, field "Score" .Float64])
        (ascii "Label: positive\nScore: 0.9") =
      some (.struct [.str (ascii "positive"), .float 64 0], none) ∧
    (parseResponse Unit excerpt (.struct [field "Label" .String, field "Score" .Float64])
        (ascii "Label: positive\nScore: 0.9")).isSome = true :=
  ⟨by decide, by decide,
    (parseResponse_other_kinds_zero Unit excerpt
      [field "Label" .String, field "Score" .Float64]
      (ascii "Label: positive\nScore: 0.9") (by decide)).2 (by decide) (by decide)⟩

/-- C7: the label search is a raw substring search: for the output struct with
the text fields `FirstName` and `Name` and the response
`"FirstName: Ann\nName: Smith"`, the field `Name` is given `Ann`, the value that
follows the longer label `FirstName:`, although the line `Name: Smith` comes
later in the response. -/
theorem parseResponse_label_inside_longer_label (ε : Type) (L : Stdlib) :
    parseResponse ε L (.struct [field "FirstName" .String, field "Name" .String])
        (ascii "FirstName: Ann\nName: Smith") =
      some (.struct [.str (ascii "Ann"), .str (ascii "Ann")], none) ∧
    ascii "FirstName: Ann\nName: Smith" = ascii "FirstName: Ann" ++ ascii "\nName: Smith" := by
  refine ⟨?_, by decide⟩
  rw [parseResponse_struct_spec L _ _ (by decide) (ToLower_of_isASCII L _ (by decide))
    (by decide)]
  have h : specRecord [field "FirstName" .String, field "Name" .String]
      (ascii "FirstName: Ann\nName: Smith") = [.str (ascii "Ann"), .str (ascii "Ann")] := by
    decide
  rw [h]

/-- C2 (the code does not do this): a response whose lowered form is longer than
the response itself makes a slice expression of `parseResponse` panic.  For the
output struct with the text field `Label`, the response `ȺLabel:` (bytes
`C8 BA` and `Label:`, 8 bytes) lowers to 9 bytes, the pattern is found at offset
3, `valueStart` is 9, and `response[9:]` is out of range; the same happens for
the invalid byte `FF` followed by `Label:`, which `strings.ToLower` widens to
`EF BF BD`. -/
theorem parseResponse_panics_on_wider_lowercase :
    ([0xC8, 0xBA] ++ ascii "Label:").length = 8 ∧
    (ToLower excerpt ([0xC8, 0xBA] ++ ascii "Label:")).length = 9 ∧
    Index (ToLower excerpt ([0xC8, 0xBA] ++ ascii "Label:")) (ToLower excerpt (ascii "Label:")) +
      (ascii "Label:").length = 9 ∧
    parseResponse Unit excerpt (.struct [field "Label" .String])
      ([0xC8, 0xBA] ++ ascii "Label:") = none ∧
    parseResponse Unit excerpt (.struct [field "Label" .String])
      ([0xFF] ++ ascii "Label:") = none := by
  decide

/-- C4: label matching does not depend on case: for an exported ASCII field
name `F`, a label equal to `F` up to the case of ASCII letters and a value `v`
without line break, parsing `label: v` into the struct with the text field `F`
gives the record whose field holds `TrimSpace v`, with a nil error. -/
theorem parseResponse_label_case_insensitive (ε : Type) (L : Stdlib) (name label v : Bytes)
    (hname : isExportedName name = true) (hcase : eqFold label name = true)
    (hv : 0x0A ∉ v) :
    parseResponse ε L (.struct [{ Name := name, PkgPath := [], Typ := .String }])
        (label ++ ascii ": " ++ v) = some (.struct [.str (TrimSpace v)], none) :=
  parseResponse_labelled ε L name label v hname hcase hv

theorem parseResponse_label_case_insensitive_witness :
    parseResponse Unit excerpt (.struct [field "Label" .String]) (ascii "label: positive") =
      some (.struct [.str (ascii "positive")], none) ∧
    parseResponse Unit excerpt (.struct [field "Label" .String]) (ascii "LABEL: positive") =
      some (.struct [.str (ascii "positive")], none) :=
  ⟨parseResponse_label_case_insensitive Unit excerpt (ascii "Label") (ascii "label")
      (ascii "positive") (by decide) (by decide) (by decide),
    parseResponse_label_case_insensitive Unit excerpt (ascii "Label") (ascii "LABEL")
      (ascii "positive") (by decide) (by decide) (by decide)⟩

/-- C5: the structured path and the heuristic path agree: for the output struct
with the single text field `Label` and a value `v` that has no surrounding white
space and nothing that JSON escapes (no quote, backslash or control byte, which
covers the line break, and well-formed UTF-8), the text `Label: v` and the JSON
object text with the member `Label` holding `v` both parse to the record whose
field holds `v`, with a nil error. -/
theorem parseResponse_paths_agree (ε : Type) (L : Stdlib) (v : Bytes)
    (hplain : v.all plainByte = true) (hvalid : ValidString v = true)
    (htrim : TrimSpace v = v) :
    parseResponse ε L (.struct [field "Label" .String]) (ascii "Label: " ++ v) =
      some (.struct [.str v], none) ∧
    parseResponse ε L (.struct [field "Label" .String])
      (ascii "\x7b\"Label\":\"" ++ v ++ ascii "\"\x7d") = some (.struct [.str v], none) := by
  refine ⟨?_, parseResponse_json_label ε L v hplain hvalid⟩
  have hnl : 0x0A ∉ v := by
    intro hmem
    have := List.all_eq_true.1 hplain 0x0A hmem
    simp [plainByte] at this
  have h := parseResponse_labelled ε L (ascii "Label") (ascii "Label") v (by decide) (by decide) hnl
  have hs : ascii "Label: " ++ v = ascii "Label" ++ ascii ": " ++ v := by
    have : ascii "Label: " = ascii "Label" ++ ascii ": " := by decide
    rw [this]
  rw [htrim] at h
  rw [hs]
  exact h

theorem parseResponse_paths_agree_witness :
    parseResponse Unit excerpt (.struct [field "Label" .String]) (ascii "Label: positive") =
      some (.struct [.str (ascii "positive")], none) ∧
    parseResponse Unit excerpt (.struct [field "Label" .String])
      (ascii "\x7b\"Label\":\"positive\"\x7d") =
        some (.struct [.str (ascii "positive")], none) :=
  parseResponse_paths_agree Unit excerpt (ascii "positive") (by decide) (by decide) (by decide)

/-! ## The predictor -/

/-- C8: `Forward` is build, generate, parse.  With a client that records its
calls, on every path on which `Forward` returns the calls recorded are the
earlier ones followed by the single prompt `buildPrompt input`, and the client
is in the state that one call produced; and when that call returns the text `r`
without error, `Forward` returns exactly what `parseResponse r` returns, with a
nil error. -/
theorem Forward_eq_parseResponse {Ctx σ ε : Type} (L : Stdlib) (order : GoMap → GoMap)
    (sig : Signature) (g : Generate Ctx σ ε) (ctx : Ctx) (input : GoValue) (st : σ)
    (log : List Bytes) :
    (∀ res, Forward L order { Signature := sig, Client := recording g } ctx input (st, log) =
        some res →
      res.2 = ((g ctx (buildPrompt L order sig input) st).2,
        log ++ [buildPrompt L order sig input])) ∧
    (∀ (r : Bytes) (st1 : σ), g ctx (buildPrompt L order sig input) st = ((r, none), st1) →
      Forward L order { Signature := sig, Client := recording g } ctx input (st, log) =
        (parseResponse ε L sig.O r).map fun pr =>
          ((pr.1, none), (st1, log ++ [buildPrompt L order sig input]))) := by
  constructor
  · intro res h
    simp only [Forward, recording] at h
    split at h
    · simp only [Option.some.injEq] at h
      rw [← h]
    · split at h
      · exact absurd h (by simp)
      · simp only [Option.some.injEq] at h
        rw [← h]
      · simp only [Option.some.injEq] at h
        rw [← h]
  · intro r st1 hgen
    simp only [Forward, recording, hgen]
    cases hp : parseResponse ε L sig.O r with
    | none => rfl
    | some pr =>
      obtain ⟨out, err⟩ := pr
      have herr := parseResponse_err_nil ε L sig.O r out err hp
      subst herr
      rfl

theorem Forward_eq_parseResponse_witness :
    Forward excerpt id
        { Signature := qaSignature,
          Client := recording (answering (ascii "Answer: Go is a programming language.")) }
        () (.struct [.str (ascii "What is Go?")]) (0, []) =
      some ((.struct [.str (ascii "Go is a programming language.")], none),
        (1, [ascii "Answer questions\n\nInput:\nQuestion: What is Go?\n\nOutput the following fields:\n- Answer"])) :=
  ((Forward_eq_parseResponse excerpt id qaSignature
    (answering (ascii "Answer: Go is a programming language.")) ()
    (.struct [.str (ascii "What is Go?")]) 0 []).2
    (ascii "Answer: Go is a programming language.") 1 rfl).trans (by decide)

/-- C9: when `Generate` fails with the cause `e`, `Forward` returns the zero
value of the output type together with a `dspy.Error` whose `Op` is
`predictor.Forward`, whose `Unwrap` is `e`, and whose `Error` text is
`predictor.Forward: ` followed by the message of `e`. -/
theorem Forward_generate_error {Ctx σ ε : Type} (L : Stdlib) (order : GoMap → GoMap)
    (sig : Signature) (g : Generate Ctx σ ε) (ctx : Ctx) (input : GoValue) (st st1 : σ)
    (r : Bytes) (e : ε) (msg : ε → Bytes)
    (hgen : g ctx (buildPrompt L order sig input) st = ((r, some e), st1)) :
    ∃ err : Error ε,
      Forward L order { Signature := sig, Client := g } ctx input st =
        some ((zero sig.O, some err), st1) ∧
      err.Op = ascii "predictor.Forward" ∧ err.Unwrap = some e ∧
      err.Error msg = ascii "predictor.Forward: " ++ msg e := by
  refine ⟨ErrModuleExecution (ascii "predictor.Forward") (some e), ?_, rfl, rfl, ?_⟩
  · simp only [Forward, hgen]
  · have h : ascii "predictor.Forward: " = ascii "predictor.Forward" ++ ascii ": " := by decide
    rw [h]
    rfl

theorem Forward_generate_error_witness :
    ∃ err : Error Bytes,
      Forward excerpt id
          { Signature := qaSignature, Client := failing (ascii "no response configured") }
          () (.struct [.str (ascii "Unknown question")]) 0 =
        some ((.struct [.str []], some err), 1) ∧
      err.Op = ascii "predictor.Forward" ∧ err.Unwrap = some (ascii "no response configured") ∧
      err.Error id = ascii "predictor.Forward: " ++ ascii "no response configured" :=
  Forward_generate_error excerpt id qaSignature (failing (ascii "no response configured")) ()
    (.struct [.str (ascii "Unknown question")]) 0 1 [] (ascii "no response configured") id rfl

/-- C10: the layout of the prompt.  For a non-empty description `d`, an input
struct with at least one exported field (exported names distinct, one value per
field) and an output struct with at least one exported field, `buildPrompt`
returns `d`, the header `Input:` after a blank line, the input lines joined by
line breaks, the header `Output the following fields:` after a blank line, and
one line `- name` per exported output field in declaration order, joined by line
breaks.  The input lines are the lines `name: value` of the exported input
fields, each exactly once, in the order in which the map is visited. -/
theorem buildPrompt_layout (L : Stdlib) (order : GoMap → GoMap) (name d : Bytes)
    (fsI fsO : List StructField) (valsI : List Value) (hd : d ≠ [])
    (hlen : valsI.length = fsI.length) (hnodup : (exportedNames fsI).Nodup)
    (hin : ∃ f ∈ fsI, f.IsExported = true) (hout : ∃ f ∈ fsO, f.IsExported = true)
    (horder : (order (exportedEntries fsI valsI)).Perm (exportedEntries fsI valsI)) :
    buildPrompt L order { Name := name, Description := d, I := .struct fsI, O := .struct fsO }
        (.struct valsI) =
      d ++ ascii "\n\nInput:\n" ++
        Join ((order (exportedEntries fsI valsI)).map (inputLine L)) (ascii "\n") ++
        ascii "\n\nOutput the following fields:\n" ++
        Join ((exportedNames fsO).map outputLine) (ascii "\n") ∧
    ((order (exportedEntries fsI valsI)).map (inputLine L)).Perm
      ((exportedEntries fsI valsI).map (inputLine L)) := by
  refine ⟨?_, horder.map _⟩
  have hext : extractFields (.struct fsI) (.struct valsI) = exportedEntries fsI valsI := by
    simp only [extractFields]
    rw [extractLoop_eq fsI valsI [] (by simpa using hnodup)]
    rfl
  have hne := exportedEntries_ne_nil fsI valsI hlen hin
  have hpos : (exportedEntries fsI valsI).length > 0 := List.length_pos.2 hne
  have hlines : (order (exportedEntries fsI valsI)).map (inputLine L) ≠ [] := by
    intro h
    have h0 := horder.length_eq
    rw [List.map_eq_nil_iff] at h
    rw [h] at h0
    exact hne (List.length_eq_zero.1 h0.symm)
  have hnames : exportedNames fsO ≠ [] := by
    obtain ⟨f, hf, he⟩ := hout
    intro h
    have : f.Name ∈ exportedNames fsO :=
      List.mem_map.2 ⟨f, List.mem_filter.2 ⟨hf, he⟩, rfl⟩
    rw [h] at this
    exact absurd this (List.not_mem_nil _)
  have hopos : (getOutputFieldNames (.struct fsO)).length > 0 := List.length_pos.2 hnames
  have houts : (exportedNames fsO).map outputLine ≠ [] := by
    simpa [List.map_eq_nil_iff] using hnames
  have h1 : ascii "\n\nInput:\n" = ascii "\n" ++ ascii "\nInput:" ++ ascii "\n" := by decide
  have h2 : ascii "\n\nOutput the following fields:\n" =
      ascii "\n" ++ ascii "\nOutput the following fields:" ++ ascii "\n" := by decide
  simp only [buildPrompt, hext, hpos, hopos, hd, ne_eq, not_false_eq_true, if_true]
  have hshape : [d] ++ [ascii "\nInput:"] ++
      (order (exportedEntries fsI valsI)).map (fun e => e.1 ++ ascii ": " ++ formatValue L e.2) ++
      [ascii "\nOutput the following fields:"] ++
      (getOutputFieldNames (.struct fsO)).map (fun field => ascii "- " ++ field) =
      ([d, ascii "\nInput:"] ++ (order (exportedEntries fsI valsI)).map (inputLine L)) ++
        (ascii "\nOutput the following fields:" ::
          (exportedNames fsO).map outputLine) := by
    have hil : inputLine L = fun e => e.1 ++ ascii ": " ++ formatValue L e.2 := rfl
    have hol : outputLine = fun field => ascii "- " ++ field := rfl
    rw [hil, hol]
    simp [getOutputFieldNames, exportedNames]
  rw [hshape, Join_append _ _ _ (by simp) (by simp),
    Join_append [d, ascii "\nInput:"] _ _ (by simp) hlines]
  obtain ⟨o, os, ho⟩ := List.exists_cons_of_ne_nil houts
  rw [ho, h1, h2]
  simp [Join, List.append_assoc]

theorem buildPrompt_layout_witness :
    buildPrompt excerpt List.reverse
        { Name := ascii "Classification", Description := ascii "Classify text",
          I := .struct [field "Text" .String, field "Lang" .String],
          O := .struct [field "Label" .String, field "Score" .Float64] }
        (.struct [.str (ascii "I love this!"), .str (ascii "en")]) =
      ascii "Classify text\n\nInput:\nLang: en\nText: I love this!\n\nOutput the following fields:\n- Label\n- Score" :=
  (buildPrompt_layout excerpt List.reverse (ascii "Classification") (ascii "Classify text")
    [field "Text" .String, field "Lang" .String] [field "Label" .String, field "Score" .Float64]
    [.str (ascii "I love this!"), .str (ascii "en")] (by decide) (by decide) (by decide)
    ⟨field "Text" .String, by decide, by decide⟩ ⟨field "Label" .String, by decide, by decide⟩
    (List.reverse_perm _)).1.trans (by decide)

/-! ## Lemmas on the sections of the prompt -/

theorem Join_cons_ne_nil (a : Bytes) (l : List Bytes) (sep : Bytes) (h : a ≠ []) :
    Join (a :: l) sep ≠ [] := by
  cases l with
  | nil => simpa [Join] using h
  | cons b l => simp [Join, h]

theorem Join_append_cases (xs ys : List Bytes) (sep : Bytes) :
    Join (xs ++ ys) sep =
      if xs = [] then Join ys sep
      else if ys = [] then Join xs sep
      else Join xs sep ++ sep ++ Join ys sep := by
  by_cases hx : xs = []
  · simp [hx]
  · by_cases hy : ys = []
    · simp [hx, hy]
    · simp only [hx, hy, if_false]
      exact Join_append xs ys sep hx hy

/-- The parts of the prompt, section by section. -/
theorem buildPrompt_parts (L : Stdlib) (order : GoMap → GoMap) (sig : Signature)
    (input : GoValue) :
    buildPrompt L order sig input =
      Join ((if sig.Description = [] then [] else [sig.Description]) ++
        ((if extractFields sig.I input = [] then []
          else ascii "\nInput:" :: (order (extractFields sig.I input)).map (inputLine L)) ++
        (if getOutputFieldNames sig.O = [] then []
          else ascii "\nOutput the following fields:" ::
            (getOutputFieldNames sig.O).map outputLine))) (ascii "\n") := by
  have hil : inputLine L = fun e => e.1 ++ ascii ": " ++ formatValue L e.2 := rfl
  have hol : outputLine = fun field => ascii "- " ++ field := rfl
  unfold buildPrompt
  by_cases hd : sig.Description = [] <;> by_cases hm : extractFields sig.I input = [] <;>
    by_cases hn : getOutputFieldNames sig.O = [] <;>
    simp [hd, hm, hn, hil, hol, List.length_pos]

/-- The prompt is the non-empty sections joined by line breaks. -/
theorem buildPrompt_blocks (L : Stdlib) (order : GoMap → GoMap) (sig : Signature)
    (input : GoValue) :
    buildPrompt L order sig input =
      Join ([sig.Description, inputSection L order sig.I input, outputSection sig.O].filter
        fun s => s ≠ []) (ascii "\n") := by
  have hin : ascii "\nInput:" ≠ [] := by decide
  have hout : ascii "\nOutput the following fields:" ≠ [] := by decide
  rw [buildPrompt_parts, Join_append_cases, Join_append_cases]
  unfold inputSection outputSection
  by_cases hd : sig.Description = [] <;> by_cases hm : extractFields sig.I input = [] <;>
    by_cases hn : getOutputFieldNames sig.O = [] <;>
    simp [hd, hm, hn, Join, Join_cons_ne_nil _ _ _ hin, Join_cons_ne_nil _ _ _ hout,
      List.filter_cons]

theorem GoMap_insert_ne_nil (m : GoMap) (k : Bytes) (v : Value) : GoMap.insert m k v ≠ [] := by
  unfold GoMap.insert
  cases m with
  | nil => simp
  | cons a m => split <;> simp

theorem extractLoop_acc_ne_nil : ∀ (fs : List StructField) (vals : List Value) (acc : GoMap),
    acc ≠ [] → extractLoop fs vals acc ≠ []
  | [], _, _, h => by simpa [extractLoop] using h
  | _ :: _, [], _, h => by simpa [extractLoop] using h
  | f :: fs, v :: vs, acc, h => by
    simp only [extractLoop]
    split
    · exact extractLoop_acc_ne_nil fs vs acc h
    · exact extractLoop_acc_ne_nil fs vs _ (GoMap_insert_ne_nil acc f.Name v)

theorem extractLoop_none_exported : ∀ (fs : List StructField) (vals : List Value) (acc : GoMap),
    (¬ ∃ f ∈ fs, f.IsExported = true) → extractLoop fs vals acc = acc
  | [], _, _, _ => by simp [extractLoop]
  | _ :: _, [], _, _ => by simp [extractLoop]
  | f :: fs, v :: vs, acc, h => by
    have hf : f.IsExported = false := by
      cases he : f.IsExported with
      | false => rfl
      | true => exact absurd ⟨f, List.mem_cons_self _ _, he⟩ h
    have ih := extractLoop_none_exported fs vs acc
      (fun ⟨g, hg, hge⟩ => h ⟨g, List.mem_cons_of_mem _ hg, hge⟩)
    simp [extractLoop, hf, ih]

theorem extractLoop_some_exported : ∀ (fs : List StructField) (vals : List Value) (acc : GoMap),
    vals.length = fs.length → (∃ f ∈ fs, f.IsExported = true) → extractLoop fs vals acc ≠ []
  | [], _, _, _, h => by
    obtain ⟨f, hf, _⟩ := h
    exact absurd hf (List.not_mem_nil f)
  | _ :: _, [], _, hl, _ => by simp at hl
  | f :: fs, v :: vs, acc, hl, h => by
    simp only [extractLoop]
    by_cases he : f.IsExported = true
    · simp only [he, Bool.not_true, Bool.false_eq_true, if_false]
      exact extractLoop_acc_ne_nil fs vs _ (GoMap_insert_ne_nil acc f.Name v)
    · simp only [he, Bool.not_false, if_true]
      refine extractLoop_some_exported fs vs acc (by simpa using hl) ?_
      obtain ⟨g, hg, hge⟩ := h
      rcases List.mem_cons.1 hg with rfl | hg
      · exact absurd hge he
      · exact ⟨g, hg, hge⟩

/-- The map of a struct has an entry exactly when the struct has an exported
field. -/
theorem extractFields_ne_nil_iff (fs : List StructField) (vals : List Value)
    (hlen : vals.length = fs.length) :
    extractFields (.struct fs) (.struct vals) ≠ [] ↔ ∃ f ∈ fs, f.IsExported = true := by
  simp only [extractFields]
  constructor
  · intro h
    by_contra hne
    exact h (extractLoop_none_exported fs vals [] hne)
  · exact extractLoop_some_exported fs vals [] hlen

theorem getOutputFieldNames_ne_nil_iff (fs : List StructField) :
    getOutputFieldNames (.struct fs) ≠ [] ↔ ∃ f ∈ fs, f.IsExported = true := by
  simp only [getOutputFieldNames, ne_eq, List.map_eq_nil_iff, List.filter_eq_nil_iff, not_forall,
    Classical.not_imp, Bool.not_eq_true, Bool.not_eq_false, exists_prop]

theorem inputSection_ne_nil_iff (L : Stdlib) (order : GoMap → GoMap) (typ : GoType)
    (val : GoValue) : inputSection L order typ val ≠ [] ↔ extractFields typ val ≠ [] := by
  unfold inputSection
  by_cases h : extractFields typ val = []
  · simp [h]
  · simp only [h, if_false, ne_eq, not_false_eq_true, iff_true]
    exact Join_cons_ne_nil _ _ _ (by decide)

theorem outputSection_ne_nil_iff (O : GoType) :
    outputSection O ≠ [] ↔ getOutputFieldNames O ≠ [] := by
  unfold outputSection
  by_cases h : getOutputFieldNames O = []
  · simp [h]
  · simp only [h, if_false, ne_eq, not_false_eq_true, iff_true]
    exact Join_cons_ne_nil _ _ _ (by decide)

theorem Join_cons_prefix (a : Bytes) (l : List Bytes) (sep : Bytes) :
    ∃ rest, Join (a :: l) sep = a ++ rest := by
  cases l with
  | nil => exact ⟨[], by simp [Join]⟩
  | cons b l => exact ⟨sep ++ Join (b :: l) sep, by simp [Join]⟩

theorem exportedEntries_keys : ∀ (fs : List StructField) (vals : List Value),
    vals.length = fs.length → (exportedEntries fs vals).map Prod.fst = exportedNames fs
  | [], _, _ => by simp [exportedEntries, exportedNames]
  | _ :: _, [], hl => by simp at hl
  | f :: fs, v :: vs, hl => by
    have ih := exportedEntries_keys fs vs (by simpa using hl)
    simp only [exportedEntries, exportedNames] at ih ⊢
    by_cases he : f.IsExported = true
    · simp [List.zip_cons_cons, List.filter_cons, he, ih]
    · simp [List.zip_cons_cons, List.filter_cons, he, ih]

theorem exportedEntries_mem : ∀ (fs : List StructField) (vals : List Value) (i : Nat)
    (f : StructField) (v : Value), fs.get? i = some f → vals.get? i = some v →
      f.IsExported = true → (f.Name, v) ∈ exportedEntries fs vals
  | [], _, i, f, v, hf, _, _ => by simp at hf
  | _ :: _, [], i, f, v, _, hv, _ => by simp at hv
  | g :: fs, w :: vs, 0, f, v, hf, hv, he => by
    simp only [List.get?_cons_zero, Option.some.injEq] at hf hv
    subst hf hv
    simp [exportedEntries, List.zip_cons_cons, List.filter_cons, he]
  | g :: fs, w :: vs, i + 1, f, v, hf, hv, he => by
    have ih := exportedEntries_mem fs vs i f v (by simpa using hf) (by simpa using hv) he
    simp only [exportedEntries] at ih ⊢
    by_cases hg : g.IsExported = true
    · simp only [List.zip_cons_cons, List.filter_cons, hg, if_true, List.map_cons, List.mem_cons]
      exact Or.inr ih
    · simpa [List.zip_cons_cons, List.filter_cons, hg] using ih

/-! ## The prompt builder -/

/-- C11 (as stated it fails): with an empty description the prompt does not
begin with the header `Input:` but with a line break, because the header strings
of `buildPrompt` carry their own leading line break: for the input field
`Question` holding `x`, no description and a string output the prompt is a line
break, `Input:`, a line break and `Question: x`. -/
theorem buildPrompt_empty_description_line_break :
    buildPrompt excerpt id
        { Name := ascii "QA", Description := [], I := .struct [field "Question" .String],
          O := .scalar .String }
        (.struct [.str (ascii "x")]) = ascii "\nInput:\nQuestion: x" ∧
    HasPrefix (buildPrompt excerpt id
        { Name := ascii "QA", Description := [], I := .struct [field "Question" .String],
          O := .scalar .String }
        (.struct [.str (ascii "x")])) (ascii "Input:") = false := by
  decide

/-- C11 (amended): empty sections are omitted.  For a struct input with one
value per field and a struct output, the prompt is the non-empty ones of the
three blocks description, input section and output section, joined by single
line breaks; the input section is there exactly when the input has an exported
field and the output section exactly when the output has one; each of the two
sections starts with the line break of its header, so that with an empty
description the prompt begins with a line break followed by the header of the
first section present; and with no description, no input field and no output
field the prompt is empty. -/
theorem buildPrompt_omits_empty_sections (L : Stdlib) (order : GoMap → GoMap) (name d : Bytes)
    (fsI fsO : List StructField) (valsI : List Value) (hlen : valsI.length = fsI.length) :
    buildPrompt L order { Name := name, Description := d, I := .struct fsI, O := .struct fsO }
        (.struct valsI) =
      Join ([d, inputSection L order (.struct fsI) (.struct valsI),
        outputSection (.struct fsO)].filter fun s => s ≠ []) (ascii "\n") ∧
    (inputSection L order (.struct fsI) (.struct valsI) ≠ [] ↔
      ∃ f ∈ fsI, f.IsExported = true) ∧
    (outputSection (.struct fsO) ≠ [] ↔ ∃ f ∈ fsO, f.IsExported = true) ∧
    ((∃ f ∈ fsI, f.IsExported = true) →
      ∃ rest, inputSection L order (.struct fsI) (.struct valsI) = ascii "\nInput:" ++ rest) ∧
    ((∃ f ∈ fsO, f.IsExported = true) →
      ∃ rest, outputSection (.struct fsO) = ascii "\nOutput the following fields:" ++ rest) ∧
    (d = [] → (∃ f ∈ fsI, f.IsExported = true) →
      ∃ rest, buildPrompt L order
        { Name := name, Description := d, I := .struct fsI, O := .struct fsO }
        (.struct valsI) = ascii "\nInput:" ++ rest) ∧
    (d = [] → (¬ ∃ f ∈ fsI, f.IsExported = true) → (¬ ∃ f ∈ fsO, f.IsExported = true) →
      buildPrompt L order { Name := name, Description := d, I := .struct fsI, O := .struct fsO }
        (.struct valsI) = []) := by
  have hI := extractFields_ne_nil_iff fsI valsI hlen
  have hO := getOutputFieldNames_ne_nil_iff fsO
  have hsecI : (∃ f ∈ fsI, f.IsExported = true) →
      ∃ rest, inputSection L order (.struct fsI) (.struct valsI) = ascii "\nInput:" ++ rest := by
    intro h
    unfold inputSection
    rw [if_neg (hI.2 h)]
    exact Join_cons_prefix _ _ _
  have hsecO : (∃ f ∈ fsO, f.IsExported = true) →
      ∃ rest, outputSection (.struct fsO) = ascii "\nOutput the following fields:" ++ rest := by
    intro h
    unfold outputSection
    rw [if_neg (hO.2 h)]
    exact Join_cons_prefix _ _ _
  refine ⟨buildPrompt_blocks L order _ _, (inputSection_ne_nil_iff L order _ _).trans hI,
    (outputSection_ne_nil_iff _).trans hO, hsecI, hsecO, ?_, ?_⟩
  · intro hd hin
    rw [buildPrompt_blocks]
    obtain ⟨rest, hrest⟩ := hsecI hin
    have hne : inputSection L order (.struct fsI) (.struct valsI) ≠ [] := by
      rw [hrest]
      have : ascii "\nInput:" ≠ [] := by decide
      simp [this]
    have hf : List.filter (fun s => decide (s ≠ []))
        [[], inputSection L order (.struct fsI) (.struct valsI), outputSection (.struct fsO)] =
        inputSection L order (.struct fsI) (.struct valsI) ::
          List.filter (fun s => decide (s ≠ [])) [outputSection (.struct fsO)] := by
      rw [List.filter_cons, List.filter_cons]
      simp [hne]
    rw [hd, hf]
    obtain ⟨rest2, hrest2⟩ := Join_cons_prefix (inputSection L order (.struct fsI) (.struct valsI))
      (List.filter (fun s => decide (s ≠ [])) [outputSection (.struct fsO)]) (ascii "\n")
    exact ⟨rest ++ rest2, by rw [hrest2, hrest, List.append_assoc]⟩
  · intro hd hin hout
    have h1 : inputSection L order (.struct fsI) (.struct valsI) = [] := by
      by_contra h
      exact hin (((inputSection_ne_nil_iff L order _ _).trans hI).1 h)
    have h2 : outputSection (.struct fsO) = [] := by
      by_contra h
      exact hout (((outputSection_ne_nil_iff _).trans hO).1 h)
    rw [buildPrompt_blocks]
    simp [hd, h1, h2, Join]

theorem buildPrompt_omits_empty_sections_witness :
    buildPrompt excerpt id
        { Name := ascii "QA", Description := [], I := .struct [field "Question" .String],
          O := .struct [field "Answer" .String] }
        (.struct [.str (ascii "x")]) =
      ascii "\nInput:\nQuestion: x\n\nOutput the following fields:\n- Answer" ∧
    buildPrompt excerpt id
        { Name := ascii "QA", Description := [], I := .struct [], O := .struct [] }
        (.struct []) = [] :=
  ⟨(buildPrompt_omits_empty_sections excerpt id (ascii "QA") [] [field "Question" .String]
      [field "Answer" .String] [.str (ascii "x")] (by decide)).1.trans (by decide),
    (buildPrompt_omits_empty_sections excerpt id (ascii "QA") [] [] [] [] (by decide)).2.2.2.2.2.2
      rfl (by decide) (by decide)⟩

/-- C12 (as stated it fails): the lines of the input fields come from a `range`
over a map, whose order Go leaves open.  For an input with the two fields `Text`
and `Lang`, visiting the map in one order and in the reverse order, both of
which visit every entry once, gives two different prompts. -/
theorem buildPrompt_depends_on_map_order :
    (List.reverse (extractFields pairSignature.I (.struct [.str (ascii "hi"), .str (ascii "en")]))).Perm
      (extractFields pairSignature.I (.struct [.str (ascii "hi"), .str (ascii "en")])) ∧
    buildPrompt excerpt id pairSignature (.struct [.str (ascii "hi"), .str (ascii "en")]) =
      ascii "\nInput:\nText: hi\nLang: en" ∧
    buildPrompt excerpt List.reverse pairSignature (.struct [.str (ascii "hi"), .str (ascii "en")]) =
      ascii "\nInput:\nLang: en\nText: hi" ∧
    buildPrompt excerpt id pairSignature (.struct [.str (ascii "hi"), .str (ascii "en")]) ≠
      buildPrompt excerpt List.reverse pairSignature
        (.struct [.str (ascii "hi"), .str (ascii "en")]) :=
  ⟨List.reverse_perm _, by decide, by decide, by decide⟩

/-- C12 (amended): `buildPrompt` is a function of its inputs and of the order in
which the map of input fields is visited.  For two visiting orders that each
visit every entry once: the prompts are identical when the two orders visit the
entries in the same sequence, in particular when the input has at most one
exported field; and in every case the input lines of the two prompts are the
same lines up to their order. -/
theorem buildPrompt_deterministic_up_to_order (L : Stdlib) (order1 order2 : GoMap → GoMap)
    (sig : Signature) (input : GoValue)
    (h1 : (order1 (extractFields sig.I input)).Perm (extractFields sig.I input))
    (h2 : (order2 (extractFields sig.I input)).Perm (extractFields sig.I input)) :
    (order1 (extractFields sig.I input) = order2 (extractFields sig.I input) →
      buildPrompt L order1 sig input = buildPrompt L order2 sig input) ∧
    ((extractFields sig.I input).length ≤ 1 →
      buildPrompt L order1 sig input = buildPrompt L order2 sig input) ∧
    ((order1 (extractFields sig.I input)).map (inputLine L)).Perm
      ((order2 (extractFields sig.I input)).map (inputLine L)) := by
  have hsame : order1 (extractFields sig.I input) = order2 (extractFields sig.I input) →
      buildPrompt L order1 sig input = buildPrompt L order2 sig input := by
    intro h
    rw [buildPrompt_parts, buildPrompt_parts, h]
  refine ⟨hsame, ?_, (h1.trans h2.symm).map _⟩
  intro hlen
  apply hsame
  match hm : extractFields sig.I input, hlen with
  | [], _ =>
    rw [hm] at h1 h2
    rw [List.perm_nil.1 h1, List.perm_nil.1 h2]
  | [a], _ =>
    rw [hm] at h1 h2
    rw [List.perm_singleton.1 h1, List.perm_singleton.1 h2]
  | _ :: _ :: _, hl => simp at hl

theorem buildPrompt_deterministic_up_to_order_witness :
    buildPrompt excerpt id qaSignature (.struct [.str (ascii "What is Go?")]) =
      buildPrompt excerpt List.reverse qaSignature (.struct [.str (ascii "What is Go?")]) :=
  (buildPrompt_deterministic_up_to_order excerpt id List.reverse qaSignature
    (.struct [.str (ascii "What is Go?")]) (List.Perm.refl _) (List.reverse_perm _)).2.1
    (by decide)

/-- C13: schema introspection.  For a struct with distinct exported names and
one value per field, passed by value or through a non-nil pointer,
`extractFields` returns the map whose keys are the names of the exported fields
and which holds, for every exported field, its name with its value; for a nil
pointer, a scalar and a pointer to a scalar it returns the empty map.
`getOutputFieldNames` returns the exported names of a struct output type in
declaration order, and the empty list for a scalar output type. -/
theorem extractFields_getOutputFieldNames_spec (fs fsO : List StructField)
    (vals : List Value) (hlen : vals.length = fs.length) (hnodup : (exportedNames fs).Nodup) :
    extractFields (.struct fs) (.struct vals) = exportedEntries fs vals ∧
    extractFields (.ptr (.struct fs)) (.ref (.struct vals)) = exportedEntries fs vals ∧
    (exportedEntries fs vals).map Prod.fst = exportedNames fs ∧
    (∀ (i : Nat) (f : StructField) (v : Value), fs.get? i = some f → vals.get? i = some v →
      f.IsExported = true → (f.Name, v) ∈ extractFields (.struct fs) (.struct vals)) ∧
    (∀ t : GoType, extractFields (.ptr t) .nil = []) ∧
    (∀ (k : Kind) (v : GoValue), extractFields (.scalar k) v = []) ∧
    (∀ (k : Kind) (v : GoValue), extractFields (.ptr (.scalar k)) (.ref v) = []) ∧
    getOutputFieldNames (.struct fsO) = exportedNames fsO ∧
    (∀ k : Kind, getOutputFieldNames (.scalar k) = []) := by
  have h0 : extractLoop fs vals [] = exportedEntries fs vals := by
    rw [extractLoop_eq fs vals [] (by simpa using hnodup)]
    rfl
  refine ⟨by simp only [extractFields, h0], by simp only [extractFields, h0],
    exportedEntries_keys fs vals hlen, ?_, ?_, ?_, ?_, rfl, fun _ => rfl⟩
  · intro i f v hf hv he
    simp only [extractFields, h0]
    exact exportedEntries_mem fs vals i f v hf hv he
  · intro t
    simp [extractFields]
  · intro k v
    simp [extractFields]
  · intro k v
    simp [extractFields]

theorem extractFields_getOutputFieldNames_spec_witness :
    extractFields (.struct [field "Text" .String, unexported "secret" .Int, field "Lang" .String])
      (.struct [.str (ascii "hi"), .int 7, .str (ascii "en")]) =
        [(ascii "Text", .str (ascii "hi")), (ascii "Lang", .str (ascii "en"))] ∧
    getOutputFieldNames (.struct [field "Label" .String, field "Score" .Float64]) =
      [ascii "Label", ascii "Score"] :=
  ⟨(extractFields_getOutputFieldNames_spec
      [field "Text" .String, unexported "secret" .Int,
        field "Lang" .String] [] [.str (ascii "hi"), .int 7, .str (ascii "en")]
      (by decide) (by decide)).1.trans (by decide),
    (extractFields_getOutputFieldNames_spec [] [field "Label" .String, field "Score" .Float64] []
      (by decide) (by decide)).2.2.2.2.2.2.2.1.trans (by decide)⟩

/-! ## Lemmas on the evaluation loop -/

theorem evaluateLoop_scores {σ ε I O : Type} (m : Module σ ε I O) (μ : Metric σ O) :
    ∀ (l : List (Example I O)) (t : ℚ) (st : σ) (ps : List (O × ℚ)) (st' : σ),
      scoresOf m μ l st = some (ps, st') → ∀ rest : List (Example I O),
        evaluateLoop m μ (l ++ rest) t st =
          evaluateLoop m μ rest (t + (ps.map Prod.snd).sum) st'
  | [], t, st, ps, st', h, rest => by
    simp only [scoresOf, Option.some.injEq, Prod.mk.injEq] at h
    obtain ⟨rfl, rfl⟩ := h
    simp
  | ex :: l, t, st, ps, st', h, rest => by
    simp only [scoresOf] at h
    cases hm : m Background ex.Input st with
    | none => rw [hm] at h; simp at h
    | some r =>
      obtain ⟨⟨p, err⟩, st1⟩ := r
      rw [hm] at h
      cases err with
      | some e => simp at h
      | none =>
        simp only at h
        cases hs : scoresOf m μ l (μ p ex.Output st1).2 with
        | none => rw [hs] at h; simp at h
        | some r2 =>
          obtain ⟨l', st2⟩ := r2
          rw [hs] at h
          simp only [Option.some.injEq, Prod.mk.injEq] at h
          obtain ⟨rfl, rfl⟩ := h
          have ih := evaluateLoop_scores m μ l (t + (μ p ex.Output st1).1) _ l' st2 hs rest
          simp only [List.cons_append, evaluateLoop, hm, List.map_cons, List.sum_cons]
          rw [← add_assoc]
          exact ih

theorem length_ne_zero_of_ne_nil {α : Type} {l : List α} (h : l ≠ []) : ¬ l.length = 0 := by
  intro h0
  exact h (List.length_eq_zero.1 h0)

/-- When every `Forward` succeeds, `Evaluate` returns the sum of the scores
divided by the number of examples. -/
theorem Evaluate_of_scores {σ ε I O : Type} (m : Module σ ε I O) (μ : Metric σ O)
    (l : List (Example I O)) (st st' : σ) (ps : List (O × ℚ)) (hne : l ≠ [])
    (hs : scoresOf m μ l st = some (ps, st')) :
    Evaluate m l μ st = some (((ps.map Prod.snd).sum / (l.length : ℚ), none), st') := by
  have h := evaluateLoop_scores m μ l 0 st ps st' hs []
  rw [List.append_nil] at h
  simp only [Evaluate, length_ne_zero_of_ne_nil hne, if_false, h, evaluateLoop, zero_add]

/-- When every `Forward` before an example succeeds and `Forward` on that
example fails, `Evaluate` returns zero and that error. -/
theorem Evaluate_of_failure {σ ε I O : Type} (m : Module σ ε I O) (μ : Metric σ O)
    (pre post : List (Example I O)) (ex : Example I O) (st stk stk' : σ) (ps : List (O × ℚ))
    (p : O) (e : ε) (hpre : scoresOf m μ pre st = some (ps, stk))
    (hfail : m Background ex.Input stk = some ((p, some e), stk')) :
    Evaluate m (pre ++ ex :: post) μ st = some ((0, some e), stk') := by
  have h := evaluateLoop_scores m μ pre 0 st ps stk hpre (ex :: post)
  have hlen : ¬ (pre ++ ex :: post).length = 0 := by simp
  simp only [Evaluate, hlen, if_false, h, evaluateLoop, hfail]

theorem forwardCalls_append {I O : Type} : ∀ (a b : List (Event I O)),
    forwardCalls (a ++ b) = forwardCalls a ++ forwardCalls b
  | [], b => rfl
  | .forward i :: a, b => by simp [forwardCalls, forwardCalls_append a b]
  | .metric _ _ :: a, b => by simp [forwardCalls, forwardCalls_append a b]

theorem metricCalls_append {I O : Type} : ∀ (a b : List (Event I O)),
    metricCalls (a ++ b) = metricCalls a ++ metricCalls b
  | [], b => rfl
  | .forward i :: a, b => by simp [metricCalls, metricCalls_append a b]
  | .metric _ _ :: a, b => by simp [metricCalls, metricCalls_append a b]

theorem tracedModule_Background {σ ε I O : Type} (m : Module σ ε I O) (input : I) (st : σ)
    (log : List (Event I O)) :
    tracedModule m Background input (st, log) =
      match m Background input st with
      | none => none
      | some (r, st1) => some (r, (st1, log ++ [.forward input])) := rfl

/-- The evaluation of the recording module and metric follows the evaluation of
the module and metric themselves and adds, per example, one call of `Forward`
and one call of the metric to the log. -/
theorem scoresOf_traced {σ ε I O : Type} (m : Module σ ε I O) (μ : Metric σ O) :
    ∀ (l : List (Example I O)) (st st' : σ) (ps : List (O × ℚ)) (log : List (Event I O)),
      scoresOf m μ l st = some (ps, st') →
        ∃ log', scoresOf (tracedModule m) (tracedMetric I μ) l (st, log) = some (ps, (st', log')) ∧
          forwardCalls log' = forwardCalls log ++ l.map Example.Input ∧
          metricCalls log' =
            metricCalls log ++ (ps.map Prod.fst).zip (l.map Example.Output)
  | [], st, st', ps, log, h => by
    simp only [scoresOf, Option.some.injEq, Prod.mk.injEq] at h
    obtain ⟨rfl, rfl⟩ := h
    exact ⟨log, by simp [scoresOf]⟩
  | ex :: l, st, st', ps, log, h => by
    simp only [scoresOf] at h
    cases hm : m Background ex.Input st with
    | none => rw [hm] at h; simp at h
    | some r =>
      obtain ⟨⟨p, err⟩, st1⟩ := r
      rw [hm] at h
      cases err with
      | some e => simp at h
      | none =>
        simp only at h
        cases hs : scoresOf m μ l (μ p ex.Output st1).2 with
        | none => rw [hs] at h; simp at h
        | some r2 =>
          obtain ⟨l', st2⟩ := r2
          rw [hs] at h
          simp only [Option.some.injEq, Prod.mk.injEq] at h
          obtain ⟨rfl, rfl⟩ := h
          obtain ⟨log', h1, h2, h3⟩ := scoresOf_traced m μ l (μ p ex.Output st1).2 st2 l'
            (log ++ [.forward ex.Input] ++ [.metric p ex.Output]) hs
          refine ⟨log', ?_, ?_, ?_⟩
          · simp only [scoresOf, tracedModule_Background, hm, tracedMetric]
            rw [h1]
          · rw [h2]
            simp [forwardCalls_append, forwardCalls]
          · rw [h3]
            simp [metricCalls_append, metricCalls]

theorem scoresOf_length {σ ε I O : Type} (m : Module σ ε I O) (μ : Metric σ O) :
    ∀ (l : List (Example I O)) (st st' : σ) (ps : List (O × ℚ)),
      scoresOf m μ l st = some (ps, st') → ps.length = l.length
  | [], st, st', ps, h => by
    simp only [scoresOf, Option.some.injEq, Prod.mk.injEq] at h
    rw [← h.1]
    rfl
  | ex :: l, st, st', ps, h => by
    simp only [scoresOf] at h
    cases hm : m Background ex.Input st with
    | none => rw [hm] at h; simp at h
    | some r =>
      obtain ⟨⟨p, err⟩, st1⟩ := r
      rw [hm] at h
      cases err with
      | some e => simp at h
      | none =>
        simp only at h
        cases hs : scoresOf m μ l (μ p ex.Output st1).2 with
        | none => rw [hs] at h; simp at h
        | some r2 =>
          obtain ⟨l', st2⟩ := r2
          rw [hs] at h
          simp only [Option.some.injEq, Prod.mk.injEq] at h
          rw [← h.1, List.length_cons, List.length_cons, scoresOf_length m μ l _ st2 l' hs]

theorem sum_zero_one : ∀ xs : List ℚ, (∀ x ∈ xs, x = 0 ∨ x = 1) →
    0 ≤ xs.sum ∧ xs.sum ≤ xs.length ∧ (xs.sum = xs.length ↔ ∀ x ∈ xs, x = 1) ∧
      (xs.sum = 0 ↔ ∀ x ∈ xs, x = 0)
  | [], _ => by simp
  | x :: xs, h => by
    obtain ⟨h0, h1, h2, h3⟩ := sum_zero_one xs (fun y hy => h y (List.mem_cons_of_mem _ hy))
    simp only [List.sum_cons, List.length_cons, Nat.cast_add, Nat.cast_one, List.mem_cons,
      forall_eq_or_imp]
    rcases h x (List.mem_cons_self _ _) with hx | hx
    · subst hx
      refine ⟨by linarith, by linarith, ?_, ?_⟩
      · constructor
        · intro hs; linarith
        · intro hs; exact absurd hs.1 (by norm_num)
      · simp only [zero_add, true_and]
        exact h3
    · subst hx
      refine ⟨by linarith, by linarith, ?_, ?_⟩
      · simp only [true_and]
        constructor
        · intro hs; exact h2.1 (by linarith)
        · intro hs; have := h2.2 hs; linarith
      · constructor
        · intro hs; linarith
        · intro hs; exact absurd hs.1 (by norm_num)

theorem scoresOf_exact {σ ε I O : Type} [DecidableEq O] (m : Module σ ε I O) :
    ∀ (l : List (Example I O)) (st st' : σ) (ps : List (O × ℚ)),
      scoresOf m (pureMetric ExactMatch) l st = some (ps, st') →
        (∀ x ∈ ps.map Prod.snd, x = 0 ∨ x = 1) ∧
        ((∀ x ∈ ps.map Prod.snd, x = 1) ↔
          ∀ pe ∈ (ps.map Prod.fst).zip (l.map Example.Output), pe.1 = pe.2) ∧
        ((∀ x ∈ ps.map Prod.snd, x = 0) ↔
          ∀ pe ∈ (ps.map Prod.fst).zip (l.map Example.Output), pe.1 ≠ pe.2)
  | [], st, st', ps, h => by
    simp only [scoresOf, Option.some.injEq, Prod.mk.injEq] at h
    obtain ⟨rfl, rfl⟩ := h
    simp
  | ex :: l, st, st', ps, h => by
    simp only [scoresOf] at h
    cases hm : m Background ex.Input st with
    | none => rw [hm] at h; simp at h
    | some r =>
      obtain ⟨⟨p, err⟩, st1⟩ := r
      rw [hm] at h
      cases err with
      | some e => simp at h
      | none =>
        simp only at h
        cases hs : scoresOf m (pureMetric ExactMatch) l
            (pureMetric ExactMatch p ex.Output st1).2 with
        | none => rw [hs] at h; simp at h
        | some r2 =>
          obtain ⟨l', st2⟩ := r2
          rw [hs] at h
          simp only [Option.some.injEq, Prod.mk.injEq] at h
          obtain ⟨rfl, rfl⟩ := h
          obtain ⟨h1, h2, h3⟩ := scoresOf_exact m l _ st2 l' hs
          simp only [List.map_cons, List.mem_cons, forall_eq_or_imp, List.zip_cons_cons,
            pureMetric, ExactMatch]
          refine ⟨⟨?_, h1⟩, ?_, ?_⟩
          · by_cases hp : p = ex.Output <;> simp [hp]
          · rw [h2]
            by_cases hp : p = ex.Output <;> simp [hp]
          · rw [h3]
            by_cases hp : p = ex.Output <;> simp [hp]

/-! ## The evaluator -/

/-- C14: `Evaluate` returns the arithmetic mean.  For a non-empty list of
examples on which every `Forward` succeeds, with the predictions and the scores
`metric(prediction, expected)` collected example by example, `Evaluate` returns
the sum of the scores divided by the number of examples, with a nil error.  With
`ExactMatch` the result is 1 exactly when every prediction equals its expected
output, and 0 exactly when none does. -/
theorem Evaluate_mean {σ ε I O : Type} [DecidableEq O] (m : Module σ ε I O) (μ : Metric σ O)
    (examples : List (Example I O)) (st st' : σ) (ps : List (O × ℚ)) (hne : examples ≠ [])
    (hs : scoresOf m μ examples st = some (ps, st')) :
    Evaluate m examples μ st =
      some (((ps.map Prod.snd).sum / (examples.length : ℚ), none), st') ∧
    (μ = pureMetric ExactMatch →
      ((ps.map Prod.snd).sum / (examples.length : ℚ) = 1 ↔
        ∀ pe ∈ (ps.map Prod.fst).zip (examples.map Example.Output), pe.1 = pe.2) ∧
      ((ps.map Prod.snd).sum / (examples.length : ℚ) = 0 ↔
        ∀ pe ∈ (ps.map Prod.fst).zip (examples.map Example.Output), pe.1 ≠ pe.2)) := by
  refine ⟨Evaluate_of_scores m μ examples st st' ps hne hs, ?_⟩
  intro hμ
  subst hμ
  obtain ⟨h1, h2, h3⟩ := scoresOf_exact m examples st st' ps hs
  obtain ⟨-, -, h4, h5⟩ := sum_zero_one (ps.map Prod.snd) h1
  have hlen : ps.length = examples.length := scoresOf_length m _ examples st st' ps hs
  have hn : (examples.length : ℚ) ≠ 0 := by
    exact_mod_cast length_ne_zero_of_ne_nil hne
  have hcast : ((ps.map Prod.snd).length : ℚ) = (examples.length : ℚ) := by
    rw [List.length_map, hlen]
  constructor
  · rw [div_eq_one_iff_eq hn, ← hcast, h4, h2]
  · rw [div_eq_zero_iff, or_iff_left hn, h5, h3]

theorem Evaluate_mean_witness :
    Evaluate (pureModule classify)
        [{ Input := ascii "good", Output := labelled "positive" },
          { Input := ascii "bad", Output := labelled "positive" }]
        (pureMetric ExactMatch) 0 = some ((1 / 2, none), 2) :=
  ((Evaluate_mean (pureModule classify) (pureMetric ExactMatch)
    [{ Input := ascii "good", Output := labelled "positive" },
      { Input := ascii "bad", Output := labelled "positive" }] 0 2
    [(labelled "positive", 1), (labelled "negative", 0)] (by simp) (by decide)).1).trans
    (by norm_num)

/-- C15: on an empty list of examples `Evaluate` returns zero and a nil error
and leaves the world as it is: with a module and a metric that record their
calls, the log is unchanged, so neither `Forward` nor the metric is called. -/
theorem Evaluate_empty {σ ε I O : Type} (m : Module σ ε I O) (μ : Metric σ O) (st : σ)
    (log : List (Event I O)) :
    Evaluate m [] μ st = some ((0, none), st) ∧
    Evaluate (tracedModule m) [] (tracedMetric I μ) (st, log) = some ((0, none), (st, log)) :=
  ⟨rfl, rfl⟩

/-- C16: `Evaluate` stops at the first failure.  When every `Forward` on the
examples before example `ex` succeeds and `Forward` on `ex` fails with the error
`e`, `Evaluate` returns zero and exactly `e`, whatever the scores before; and
with a module that records its calls, `Forward` was called once on each example
up to and including `ex`, in list order, and on none after it. -/
theorem Evaluate_first_failure {σ ε I O : Type} (m : Module σ ε I O) (μ : Metric σ O)
    (pre post : List (Example I O)) (ex : Example I O) (st stk stk' : σ) (ps : List (O × ℚ))
    (p : O) (e : ε) (log : List (Event I O))
    (hpre : scoresOf m μ pre st = some (ps, stk))
    (hfail : m Background ex.Input stk = some ((p, some e), stk')) :
    Evaluate m (pre ++ ex :: post) μ st = some ((0, some e), stk') ∧
    ∃ log', Evaluate (tracedModule m) (pre ++ ex :: post) (tracedMetric I μ) (st, log) =
        some ((0, some e), (stk', log')) ∧
      forwardCalls log' = forwardCalls log ++ (pre ++ [ex]).map Example.Input := by
  refine ⟨Evaluate_of_failure m μ pre post ex st stk stk' ps p e hpre hfail, ?_⟩
  obtain ⟨log1, h1, h2, -⟩ := scoresOf_traced m μ pre st stk ps log hpre
  refine ⟨log1 ++ [(Event.forward ex.Input : Event I O)], ?_, ?_⟩
  · apply Evaluate_of_failure (tracedModule m) (tracedMetric I μ) pre post ex (st, log)
      (stk, log1) (stk', log1 ++ [(Event.forward ex.Input : Event I O)]) ps p e h1
    rw [tracedModule_Background, hfail]
  · rw [forwardCalls_append, h2]
    simp [forwardCalls]

theorem Evaluate_first_failure_witness :
    Evaluate (failingOn (ascii "bad") (ascii "boom") classify)
        [{ Input := ascii "good", Output := labelled "positive" },
          { Input := ascii "bad", Output := labelled "positive" },
          { Input := ascii "good", Output := labelled "positive" }]
        (pureMetric ExactMatch) 0 = some ((0, some (ascii "boom")), 2) :=
  (Evaluate_first_failure (failingOn (ascii "bad") (ascii "boom") classify)
    (pureMetric ExactMatch) [{ Input := ascii "good", Output := labelled "positive" }]
    [{ Input := ascii "good", Output := labelled "positive" }]
    { Input := ascii "bad", Output := labelled "positive" } 0 1 2
    [(labelled "positive", 1)] (labelled "negative") (ascii "boom") [] (by decide)
    (by decide)).1

/-- C17: `ExactMatch` is 1 exactly when the prediction equals the expected
output and 0 exactly when it does not; it is symmetric in its two arguments and
takes no other value. -/
theorem ExactMatch_spec {O : Type} [DecidableEq O] (predicted expected : O) :
    (ExactMatch predicted expected = 1 ↔ predicted = expected) ∧
    (ExactMatch predicted expected = 0 ↔ predicted ≠ expected) ∧
    ExactMatch predicted expected = ExactMatch expected predicted ∧
    (ExactMatch predicted expected = 0 ∨ ExactMatch predicted expected = 1) := by
  unfold ExactMatch
  by_cases h : predicted = expected
  · subst h
    simp
  · have h' : ¬ expected = predicted := fun e => h e.symm
    simp [h, h']

/-! ## Lemmas on `strings.Contains` -/

theorem indexFrom_isSome_iff (sub : Bytes) : ∀ (s : Bytes) (i : Nat),
    (indexFrom sub s i).isSome = true ↔ sub <:+: s
  | [], i => by
    cases sub with
    | nil => simp [indexFrom]
    | cons a sub => simp [indexFrom, List.isPrefixOf]
  | c :: cs, i => by
    have ih := indexFrom_isSome_iff sub cs (i + 1)
    rw [List.infix_cons_iff, ← ih, ← List.isPrefixOf_iff_prefix]
    simp only [indexFrom]
    by_cases h : sub.isPrefixOf (c :: cs) = true
    · simp [h]
    · simp [h]

theorem Contains_iff_substring (s sub : Bytes) : Contains s sub = true ↔ sub <:+: s := by
  rw [← indexFrom_isSome_iff sub s 0]
  unfold Contains Index
  cases indexFrom sub s 0 with
  | none => simp
  | some k => simp

theorem EncodeRune_ne_nil (r : Nat) : EncodeRune r ≠ [] := by
  unfold EncodeRune
  split_ifs <;> simp

theorem ToLower_ne_nil (L : Stdlib) (s : Bytes) (h : s ≠ []) : ToLower L s ≠ [] := by
  unfold ToLower
  cases s with
  | nil => exact absurd rfl h
  | cons c cs =>
    split
    · simp
    · simp only [mapRunes, ne_eq, List.append_eq_nil, not_and]
      intro h0
      exact absurd h0 (EncodeRune_ne_nil _)

theorem infix_map_iff (f : Nat → Nat) (l s : Bytes) :
    l <:+: s.map f ↔ ∃ w, w <:+: s ∧ w.map f = l := by
  constructor
  · rintro ⟨a, b, hab⟩
    obtain ⟨s1, s2, hs, h1, h2⟩ := List.map_eq_append_iff.1 hab.symm
    obtain ⟨s3, w, hs1, h3, h4⟩ := List.map_eq_append_iff.1 h1
    exact ⟨w, ⟨s3, s2, by rw [hs, hs1]⟩, h4⟩
  · rintro ⟨w, hw, rfl⟩
    exact hw.map f

/-- The cases of `StringContains` and its value in terms of substrings of the
lowered strings. -/
theorem StringContains_cases (L : Stdlib) (predicted expected : Bytes) :
    (expected = [] → StringContains L predicted expected = 1) ∧
    (predicted = [] → expected ≠ [] → StringContains L predicted expected = 0) ∧
    (StringContains L predicted expected = 1 ↔ ToLower L expected <:+: ToLower L predicted) ∧
    (StringContains L predicted expected = 0 ↔
      ¬ ToLower L expected <:+: ToLower L predicted) ∧
    StringContains L predicted expected =
      (if Contains (ToLower L predicted) (ToLower L expected) then 1 else 0) := by
  have hempty : ∀ p : Bytes, ToLower L ([] : Bytes) <:+: ToLower L p := by
    intro p
    have : ToLower L ([] : Bytes) = [] := by simp [ToLower, isASCII]
    rw [this]
    exact List.nil_infix
  have hnone : ∀ e : Bytes, e ≠ [] → ¬ ToLower L e <:+: ToLower L ([] : Bytes) := by
    intro e he hin
    have : ToLower L ([] : Bytes) = [] := by simp [ToLower, isASCII]
    rw [this] at hin
    exact ToLower_ne_nil L e he (List.eq_nil_of_infix_nil hin)
  unfold StringContains
  by_cases he : expected = []
  · subst he
    have hc : Contains (ToLower L predicted) (ToLower L []) = true :=
      (Contains_iff_substring _ _).2 (hempty predicted)
    simp [hempty predicted, hc]
  · have hel : ¬ expected.length = 0 := length_ne_zero_of_ne_nil he
    by_cases hp : predicted = []
    · subst hp
      have hc : Contains (ToLower L []) (ToLower L expected) = false := by
        rw [Bool.eq_false_iff]
        intro h
        exact hnone expected he ((Contains_iff_substring _ _).1 h)
      simp [he, hnone expected he, hc]
    · have hpl : ¬ predicted.length = 0 := length_ne_zero_of_ne_nil hp
      by_cases hc : Contains (ToLower L predicted) (ToLower L expected) = true
      · have := (Contains_iff_substring _ _).1 hc
        simp [he, hp, hel, hpl, hc, this]
      · have : ¬ ToLower L expected <:+: ToLower L predicted :=
          fun h => hc ((Contains_iff_substring _ _).2 h)
        simp [he, hp, hel, hpl, hc, this]

/-! ## The metrics -/

/-- C18: `StringContains` is containment up to case with the two edge cases: it
is 1 when the expected string is empty, 0 when the predicted string is empty and
the expected one is not, and otherwise 1 or 0 as the lowered expected string is
or is not a substring of the lowered predicted string.  For all strings the
result is 1 exactly when the lowered expected string is a substring of the
lowered predicted string, and 0 otherwise, so the two guards change nothing. -/
theorem StringContains_spec (L : Stdlib) (predicted expected : Bytes) :
    (expected = [] → StringContains L predicted expected = 1) ∧
    (predicted = [] → expected ≠ [] → StringContains L predicted expected = 0) ∧
    (StringContains L predicted expected = 1 ↔ ToLower L expected <:+: ToLower L predicted) ∧
    (StringContains L predicted expected = 0 ↔
      ¬ ToLower L expected <:+: ToLower L predicted) ∧
    StringContains L predicted expected =
      (if Contains (ToLower L predicted) (ToLower L expected) then 1 else 0) :=
  StringContains_cases L predicted expected

theorem StringContains_spec_witness :
    StringContains excerpt (ascii "This is POSITIVE") (ascii "positive") = 1 ∧
    StringContains excerpt (ascii "x") [] = 1 ∧
    StringContains excerpt [] (ascii "positive") = 0 :=
  ⟨(StringContains_spec excerpt (ascii "This is POSITIVE") (ascii "positive")).2.2.2.2.trans
      (by decide),
    (StringContains_spec excerpt (ascii "x") []).1 rfl,
    (StringContains_spec excerpt [] (ascii "positive")).2.1 rfl (by decide)⟩

/-- C19 (as stated it fails): `StringContains` lowers both strings before it
searches: for the predicted string `This is POSITIVE` and the expected string
`positive` it returns 1 although `positive` does not occur in the predicted
string. -/
theorem StringContains_ignores_case :
    StringContains excerpt (ascii "This is POSITIVE") (ascii "positive") = 1 ∧
    Contains (ascii "This is POSITIVE") (ascii "positive") = false ∧
    ¬ ascii "positive" <:+: ascii "This is POSITIVE" := by
  have h2 : Contains (ascii "This is POSITIVE") (ascii "positive") = false := by decide
  refine ⟨?_, h2, ?_⟩
  · rw [(StringContains_cases excerpt _ _).2.2.2.2]
    decide
  · intro h
    rw [← Contains_iff_substring, h2] at h
    exact Bool.false_ne_true h

/-- C19 (amended): for ASCII strings `StringContains` is 1 exactly when the
expected string occurs in the predicted string up to the case of letters, that
is when some substring of the predicted string equals it up to case, and 0
otherwise; in particular it is 1 whenever the expected string occurs in the
predicted string. -/
theorem StringContains_up_to_case (L : Stdlib) (predicted expected : Bytes)
    (hp : isASCII predicted = true) (he : isASCII expected = true) :
    (StringContains L predicted expected = 1 ↔
      ∃ w, w <:+: predicted ∧ eqFold w expected = true) ∧
    (StringContains L predicted expected = 0 ↔
      ¬ ∃ w, w <:+: predicted ∧ eqFold w expected = true) ∧
    (expected <:+: predicted → StringContains L predicted expected = 1) := by
  have hiff : ToLower L expected <:+: ToLower L predicted ↔
      ∃ w, w <:+: predicted ∧ eqFold w expected = true := by
    rw [ToLower_of_isASCII L _ hp, ToLower_of_isASCII L _ he, infix_map_iff]
    simp only [eqFold, decide_eq_true_eq]
  have h1 : StringContains L predicted expected = 1 ↔
      ∃ w, w <:+: predicted ∧ eqFold w expected = true := by
    have hbase : StringContains L predicted expected = 1 ↔
        ToLower L expected <:+: ToLower L predicted := by
      unfold StringContains
      by_cases hc : Contains (ToLower L predicted) (ToLower L expected) = true
      · have hin := (Contains_iff_substring _ _).1 hc
        simp only [hc, if_true, hin, iff_true]
        split_ifs with ha hb
        · rfl
        · have hpn : predicted = [] := List.length_eq_zero.1 hb
          have hen : expected ≠ [] := fun h => ha (by rw [h]; rfl)
          subst hpn
          have hl : ToLower L ([] : Bytes) = [] := by simp [ToLower, isASCII]
          rw [hl] at hin
          exact absurd (List.eq_nil_of_infix_nil hin) (ToLower_ne_nil L expected hen)
        · rfl
      · have hin : ¬ ToLower L expected <:+: ToLower L predicted :=
          fun h => hc ((Contains_iff_substring _ _).2 h)
        simp only [hc, Bool.false_eq_true, if_false, hin, iff_false]
        split_ifs with ha
        · have hen : expected = [] := List.length_eq_zero.1 ha
          subst hen
          have hl : ToLower L ([] : Bytes) = [] := by simp [ToLower, isASCII]
          rw [hl] at hin
          exact absurd ( List.nil_infix) hin
        · norm_num
        · norm_num
    exact hbase.trans hiff
  have h01 : StringContains L predicted expected = 0 ∨ StringContains L predicted expected = 1 := by
    unfold StringContains
    split_ifs <;> simp
  refine ⟨h1, ?_, ?_⟩
  · rw [← h1]
    rcases h01 with h | h
    · simp [h]
    · simp [h]
  · intro hin
    exact h1.2 ⟨expected, hin, by simp [eqFold]⟩

theorem StringContains_up_to_case_witness :
    StringContains excerpt (ascii "This is a positive review") (ascii "positive") = 1 ∧
    StringContains excerpt (ascii "This is a negative review") (ascii "positive") = 0 :=
  ⟨(StringContains_up_to_case excerpt (ascii "This is a positive review") (ascii "positive")
      (by decide) (by decide)).2.2 (by decide),
    (StringContains_up_to_case excerpt (ascii "This is a negative review") (ascii "positive")
      (by decide) (by decide)).2.1.2 (by
        rw [← (StringContains_up_to_case excerpt (ascii "This is a negative review")
          (ascii "positive") (by decide) (by decide)).1]
        rw [(StringContains_cases excerpt _ _).2.2.2.2]
        decide)⟩

/-! ## The bootstrap optimizer -/

/-- C20: on an empty list of examples `Optimize` returns the module it was given
together with the error `no examples provided` and leaves the world as it is,
for every clock, configuration, context, module and metric: with a module and a
metric that record their calls the log is unchanged, so neither `Forward` nor
the metric is called. -/
theorem Optimize_no_examples {σ ε I O : Type} (clock : σ → Int) (errMsg : ε → Bytes)
    (b : BootstrapOptimizer) (ctx : Context σ) (m : Module σ ε I O) (μ : Metric σ O) (st : σ)
    (log : List (Event I O)) :
    Optimize clock errMsg b ctx m [] μ st =
      some ((m, some (.errorString (ascii "no examples provided"))), st) ∧
    Optimize (fun s => clock s.1) errMsg b (fun s => ctx s.1) (tracedModule m) []
        (tracedMetric I μ) (st, log) =
      some ((tracedModule m, some (.errorString (ascii "no examples provided"))), (st, log)) :=
  ⟨rfl, rfl⟩

/-! ## Lemmas on the optimizer -/

theorem Optimize_of_success {σ ε I O : Type} (clock : σ → Int) (errMsg : ε → Bytes)
    (b : BootstrapOptimizer) (ctx : Context σ) (m : Module σ ε I O) (μ : Metric σ O)
    (examples : List (Example I O)) (st st1 : σ) (ps : List (O × ℚ)) (hne : examples ≠ [])
    (hs : scoresOf m μ examples st = some (ps, st1)) :
    Optimize clock errMsg b ctx m examples μ st =
      match optimizeLoop (WithTimeout clock ctx b.Timeout st) m examples μ b.MinScore
          b.MaxIterations.toNat ((ps.map Prod.snd).sum / (examples.length : ℚ)) st1 with
      | none => none
      | some (some e, st2) => some ((m, some (.context e)), st2)
      | some (none, st2) => some ((m, none), st2) := by
  simp only [Optimize, length_ne_zero_of_ne_nil hne, if_false,
    Evaluate_of_scores m μ examples st st1 ps hne hs]

theorem Optimize_of_failure {σ ε I O : Type} (clock : σ → Int) (errMsg : ε → Bytes)
    (b : BootstrapOptimizer) (ctx : Context σ) (m : Module σ ε I O) (μ : Metric σ O)
    (pre post : List (Example I O)) (ex : Example I O) (st stk stk' : σ) (ps : List (O × ℚ))
    (p : O) (e : ε) (hpre : scoresOf m μ pre st = some (ps, stk))
    (hfail : m Background ex.Input stk = some ((p, some e), stk')) :
    Optimize clock errMsg b ctx m (pre ++ ex :: post) μ st =
      some ((m, some (.wrapError (ascii "initial evaluation failed: " ++ errMsg e) e)), stk') := by
  have hlen : ¬ (pre ++ ex :: post).length = 0 := by simp
  simp only [Optimize, hlen, if_false,
    Evaluate_of_failure m μ pre post ex st stk stk' ps p e hpre hfail]

theorem optimizeLoop_done {σ ε I O : Type} (optCtx : Context σ) (m : Module σ ε I O)
    (examples : List (Example I O)) (μ : Metric σ O) (minScore : ℚ) (n : Nat) (best : ℚ) (st : σ)
    (e : CtxErr) (h : optCtx st = some e) :
    optimizeLoop optCtx m examples μ minScore (n + 1) best st = some (some e, st) := by
  simp only [optimizeLoop, h]

theorem optimizeLoop_stop {σ ε I O : Type} (optCtx : Context σ) (m : Module σ ε I O)
    (examples : List (Example I O)) (μ : Metric σ O) (minScore : ℚ) (n : Nat) (best : ℚ)
    (st st' : σ) (ps : List (O × ℚ)) (h : optCtx st = none) (hne : examples ≠ [])
    (hs : scoresOf m μ examples st = some (ps, st'))
    (hge : minScore ≤ best ∨ minScore ≤ (ps.map Prod.snd).sum / (examples.length : ℚ)) :
    optimizeLoop optCtx m examples μ minScore (n + 1) best st = some (none, st') := by
  simp only [optimizeLoop, h, Evaluate_of_scores m μ examples st st' ps hne hs]
  rw [if_pos]
  split_ifs with hc
  · rcases hge with hb | hb
    · exact le_of_lt (lt_of_le_of_lt hb hc)
    · exact hb
  · rcases hge with hb | hb
    · exact hb
    · exact le_trans hb (not_lt.1 hc)

theorem optimizeLoop_continue {σ ε I O : Type} (optCtx : Context σ) (m : Module σ ε I O)
    (examples : List (Example I O)) (μ : Metric σ O) (minScore : ℚ) (n : Nat) (best : ℚ)
    (st st' : σ) (ps : List (O × ℚ)) (h : optCtx st = none) (hne : examples ≠ [])
    (hs : scoresOf m μ examples st = some (ps, st'))
    (hb : best < minScore) (hc : (ps.map Prod.snd).sum / (examples.length : ℚ) < minScore) :
    optimizeLoop optCtx m examples μ minScore (n + 1) best st =
      optimizeLoop optCtx m examples μ minScore n
        (if (ps.map Prod.snd).sum / (examples.length : ℚ) > best then
          (ps.map Prod.snd).sum / (examples.length : ℚ) else best) st' := by
  simp only [optimizeLoop, h, Evaluate_of_scores m μ examples st st' ps hne hs]
  rw [if_neg]
  split_ifs <;> simpa using (by assumption)

theorem optimizeLoop_failed {σ ε I O : Type} (optCtx : Context σ) (m : Module σ ε I O)
    (examples : List (Example I O)) (μ : Metric σ O) (minScore : ℚ) (n : Nat) (best x : ℚ)
    (st st' : σ) (e : ε) (h : optCtx st = none)
    (hf : Evaluate m examples μ st = some ((x, some e), st')) :
    optimizeLoop optCtx m examples μ minScore (n + 1) best st =
      optimizeLoop optCtx m examples μ minScore n best st' := by
  simp only [optimizeLoop, h, hf]

theorem optimizeLoop_failedRounds {σ ε I O : Type} (optCtx : Context σ) (m : Module σ ε I O)
    (examples : List (Example I O)) (μ : Metric σ O) (minScore : ℚ) :
    ∀ (n : Nat) (best : ℚ) (st stEnd : σ),
      failedRounds optCtx m examples μ n st = some stEnd →
        optimizeLoop optCtx m examples μ minScore n best st = some (none, stEnd)
  | 0, best, st, stEnd, h => by
    simp only [failedRounds, Option.some.injEq] at h
    simp only [optimizeLoop, h]
  | n + 1, best, st, stEnd, h => by
    simp only [failedRounds] at h
    cases hc : optCtx st with
    | some e => rw [hc] at h; simp at h
    | none =>
      rw [hc] at h
      simp only at h
      cases he : Evaluate m examples μ st with
      | none => rw [he] at h; simp at h
      | some r =>
        obtain ⟨⟨x, err⟩, st1⟩ := r
        rw [he] at h
        cases err with
        | none => simp at h
        | some e =>
          simp only at h
          rw [optimizeLoop_failed optCtx m examples μ minScore n best x st st1 e hc he]
          exact optimizeLoop_failedRounds optCtx m examples μ minScore n best st1 stEnd h

theorem WithTimeout_traced {σ I O : Type} (clock : σ → Int) (ctx : Context σ) (timeout : Int)
    (st st1 : σ) (log log1 : List (Event I O)) :
    WithTimeout (fun s : σ × List (Event I O) => clock s.1) (fun s => ctx s.1) timeout (st, log)
      (st1, log1) = WithTimeout clock ctx timeout st st1 := rfl

theorem failedRounds_example :
    failedRounds (WithTimeout callClock Background 1000 0) (flaky 1 classify) [goodExample]
      (pureMetric ExactMatch) 3 1 = some 4 := by
  decide

theorem scoresOf_flaky_example :
    scoresOf (flaky 1 classify) (pureMetric ExactMatch) [goodExample] 0 =
      some ([(labelled "positive", 1)], 1) := by
  decide

/-! ## The bootstrap optimizer: failures and the loop -/

/-- C21: when the initial evaluation fails, that is every `Forward` before some
example succeeds and `Forward` on that example fails with the error `e`,
`Optimize` returns the module it was given together with an error that wraps
`e` (`errors.Unwrap` gives `e`) and reads `initial evaluation failed: ` followed
by the message of `e`; the world is left as that one failed evaluation left it,
and with a module that records its calls `Forward` was called on the examples up
to the failing one and not again. -/
theorem Optimize_initial_failure {σ ε I O : Type} (clock : σ → Int) (errMsg : ε → Bytes)
    (b : BootstrapOptimizer) (ctx : Context σ) (m : Module σ ε I O) (μ : Metric σ O)
    (pre post : List (Example I O)) (ex : Example I O) (st stk stk' : σ) (ps : List (O × ℚ))
    (p : O) (e : ε) (log : List (Event I O))
    (hpre : scoresOf m μ pre st = some (ps, stk))
    (hfail : m Background ex.Input stk = some ((p, some e), stk')) :
    ∃ err : OptimizeError ε,
      Optimize clock errMsg b ctx m (pre ++ ex :: post) μ st = some ((m, some err), stk') ∧
      err.Unwrap = some e ∧
      err.Error = ascii "initial evaluation failed: " ++ errMsg e ∧
      ∃ log', Optimize (fun s => clock s.1) errMsg b (fun s => ctx s.1) (tracedModule m)
          (pre ++ ex :: post) (tracedMetric I μ) (st, log) =
            some ((tracedModule m, some err), (stk', log')) ∧
        forwardCalls log' = forwardCalls log ++ (pre ++ [ex]).map Example.Input := by
  refine ⟨.wrapError (ascii "initial evaluation failed: " ++ errMsg e) e,
    Optimize_of_failure clock errMsg b ctx m μ pre post ex st stk stk' ps p e hpre hfail,
    rfl, rfl, ?_⟩
  obtain ⟨log1, h1, h2, -⟩ := scoresOf_traced m μ pre st stk ps log hpre
  refine ⟨log1 ++ [(Event.forward ex.Input : Event I O)], ?_, ?_⟩
  · apply Optimize_of_failure _ errMsg b _ (tracedModule m) (tracedMetric I μ) pre post ex
      (st, log) (stk, log1) (stk', log1 ++ [(Event.forward ex.Input : Event I O)]) ps p e h1
    rw [tracedModule_Background, hfail]
  · rw [forwardCalls_append, h2]
    simp [forwardCalls]

theorem Optimize_initial_failure_witness :
    ∃ err : OptimizeError Bytes,
      Optimize callClock id NewBootstrapOptimizer Background
          (failingOn (ascii "bad") (ascii "boom") classify)
          ([goodExample] ++ { Input := ascii "bad", Output := labelled "positive" } ::
            [goodExample])
          (pureMetric ExactMatch) 0 =
        some ((failingOn (ascii "bad") (ascii "boom") classify, some err), 2) ∧
      err.Unwrap = some (ascii "boom") ∧
      err.Error = ascii "initial evaluation failed: " ++ ascii "boom" := by
  obtain ⟨err, h1, h2, h3, -⟩ := Optimize_initial_failure callClock id NewBootstrapOptimizer
    Background (failingOn (ascii "bad") (ascii "boom") classify) (pureMetric ExactMatch)
    [goodExample] [goodExample] { Input := ascii "bad", Output := labelled "positive" } 0 1 2
    [(labelled "positive", 1)] (labelled "negative") (ascii "boom") [] (by decide) (by decide)
  exact ⟨err, h1, h2, h3⟩

/-- C22: `Optimize` never changes the unit: whenever it returns, on each of its
paths (no examples, failed initial evaluation, context done, threshold reached,
loop finished), the module returned is the module it was given, whatever the
scores, the metric and the configuration. -/
theorem Optimize_same_module {σ ε I O : Type} (clock : σ → Int) (errMsg : ε → Bytes)
    (b : BootstrapOptimizer) (ctx : Context σ) (m : Module σ ε I O) (μ : Metric σ O)
    (examples : List (Example I O)) (st : σ) :
    Optimize clock errMsg b ctx m examples μ st = none ∨
      ∃ (err : Option (OptimizeError ε)) (st' : σ),
        Optimize clock errMsg b ctx m examples μ st = some ((m, err), st') := by
  unfold Optimize
  split_ifs
  · exact Or.inr ⟨_, _, rfl⟩
  · split
    · exact Or.inl rfl
    · exact Or.inr ⟨_, _, rfl⟩
    · split
      · exact Or.inl rfl
      · exact Or.inr ⟨_, _, rfl⟩
      · exact Or.inr ⟨_, _, rfl⟩

/-- C25: failures of the evaluations inside the loop are swallowed.  When the
initial evaluation succeeds and each of the `MaxIterations` rounds of the loop
finds the derived context not done and its evaluation failing, `Optimize`
returns the module it was given and a nil error, in the state of the world after
exactly those rounds, for every `MinScore`, also one the best score already
meets.  And whenever the initial evaluation succeeds, the error `Optimize`
returns is nil or the error of the derived context, never an error of an
evaluation. -/
theorem Optimize_swallows_failures {σ ε I O : Type} (clock : σ → Int) (errMsg : ε → Bytes)
    (b : BootstrapOptimizer) (ctx : Context σ) (m : Module σ ε I O) (μ : Metric σ O)
    (examples : List (Example I O)) (st st1 : σ) (ps : List (O × ℚ)) (hne : examples ≠ [])
    (hs : scoresOf m μ examples st = some (ps, st1)) :
    (∀ stEnd, failedRounds (WithTimeout clock ctx b.Timeout st) m examples μ
        b.MaxIterations.toNat st1 = some stEnd →
      Optimize clock errMsg b ctx m examples μ st = some ((m, none), stEnd)) ∧
    (∀ res, Optimize clock errMsg b ctx m examples μ st = some res →
      res.1.2 = none ∨ ∃ e : CtxErr, res.1.2 = some (.context e)) := by
  have h := Optimize_of_success clock errMsg b ctx m μ examples st st1 ps hne hs
  constructor
  · intro stEnd hfr
    rw [h, optimizeLoop_failedRounds _ m examples μ b.MinScore _ _ st1 stEnd hfr]
  · intro res hres
    rw [h] at hres
    split at hres
    · exact absurd hres (by simp)
    · simp only [Option.some.injEq] at hres
      rw [← hres]
      exact Or.inr ⟨_, rfl⟩
    · simp only [Option.some.injEq] at hres
      rw [← hres]
      exact Or.inl rfl

theorem Optimize_swallows_failures_witness :
    outcome (Optimize callClock id { MaxIterations := 3, MinScore := 0, Timeout := 1000 }
      Background (flaky 1 classify) [goodExample] (pureMetric ExactMatch) 0) = some (none, 4) := by
  rw [(Optimize_swallows_failures callClock id { MaxIterations := 3, MinScore := 0, Timeout := 1000 }
    Background (flaky 1 classify) (pureMetric ExactMatch) [goodExample] 0 1
    [(labelled "positive", 1)] (by simp) scoresOf_flaky_example).1 4 failedRounds_example]
  rfl

/-! ## Lemmas on one round of the loop -/

/-- After a successful initial evaluation, with the derived context not done and
a successful first evaluation of the loop that brings the best score to the
threshold, `Optimize` stops after that one evaluation. -/
theorem Optimize_one_round {σ ε I O : Type} (clock : σ → Int) (errMsg : ε → Bytes)
    (b : BootstrapOptimizer) (ctx : Context σ) (m : Module σ ε I O) (μ : Metric σ O)
    (examples : List (Example I O)) (st st1 st2 : σ) (ps0 ps1 : List (O × ℚ))
    (hne : examples ≠ []) (hmax : 1 ≤ b.MaxIterations)
    (hs0 : scoresOf m μ examples st = some (ps0, st1))
    (hctx : WithTimeout clock ctx b.Timeout st st1 = none)
    (hs1 : scoresOf m μ examples st1 = some (ps1, st2))
    (hge : b.MinScore ≤ (ps0.map Prod.snd).sum / (examples.length : ℚ) ∨
      b.MinScore ≤ (ps1.map Prod.snd).sum / (examples.length : ℚ)) :
    Optimize clock errMsg b ctx m examples μ st = some ((m, none), st2) := by
  obtain ⟨n, hn⟩ : ∃ n, b.MaxIterations.toNat = n + 1 :=
    ⟨b.MaxIterations.toNat - 1, by omega⟩
  rw [Optimize_of_success clock errMsg b ctx m μ examples st st1 ps0 hne hs0, hn,
    optimizeLoop_stop _ m examples μ b.MinScore n _ st1 st2 ps1 hctx hne hs1 hge]

/-- After a successful initial evaluation, with the derived context done when the
loop first looks at it, `Optimize` returns the error of that context without
another evaluation. -/
theorem Optimize_context_done {σ ε I O : Type} (clock : σ → Int) (errMsg : ε → Bytes)
    (b : BootstrapOptimizer) (ctx : Context σ) (m : Module σ ε I O) (μ : Metric σ O)
    (examples : List (Example I O)) (st st1 : σ) (ps0 : List (O × ℚ)) (e : CtxErr)
    (hne : examples ≠ []) (hmax : 1 ≤ b.MaxIterations)
    (hs0 : scoresOf m μ examples st = some (ps0, st1))
    (hctx : WithTimeout clock ctx b.Timeout st st1 = some e) :
    Optimize clock errMsg b ctx m examples μ st = some ((m, some (.context e)), st1) := by
  obtain ⟨n, hn⟩ : ∃ n, b.MaxIterations.toNat = n + 1 :=
    ⟨b.MaxIterations.toNat - 1, by omega⟩
  rw [Optimize_of_success clock errMsg b ctx m μ examples st st1 ps0 hne hs0, hn,
    optimizeLoop_done _ m examples μ b.MinScore n _ st1 e hctx]

/-- After a successful initial evaluation, with `MaxIterations` zero or negative,
`Optimize` returns a nil error without looking at the context. -/
theorem Optimize_no_round {σ ε I O : Type} (clock : σ → Int) (errMsg : ε → Bytes)
    (b : BootstrapOptimizer) (ctx : Context σ) (m : Module σ ε I O) (μ : Metric σ O)
    (examples : List (Example I O)) (st st1 : σ) (ps0 : List (O × ℚ))
    (hne : examples ≠ []) (hmax : b.MaxIterations ≤ 0)
    (hs0 : scoresOf m μ examples st = some (ps0, st1)) :
    Optimize clock errMsg b ctx m examples μ st = some ((m, none), st1) := by
  have hn : b.MaxIterations.toNat = 0 := by omega
  rw [Optimize_of_success clock errMsg b ctx m μ examples st st1 ps0 hne hs0, hn]
  rfl

theorem scoresOf_pure_example (calls : Nat) :
    scoresOf (pureModule classify) (pureMetric ExactMatch) [goodExample] calls =
      some ([(labelled "positive", 1)], calls + 1) := by
  simp [scoresOf, pureModule, pureMetric, ExactMatch, goodExample, classify]

theorem scoresOf_negative_example (calls : Nat) :
    scoresOf (pureModule classify) (pureMetric fun _ _ => (-1 : ℚ)) [goodExample] calls =
      some ([(labelled "positive", -1)], calls + 1) := by
  simp [scoresOf, pureModule, pureMetric, goodExample, classify]

/-! ## The bootstrap optimizer: threshold and deadline -/

/-- C23 (as stated it fails): with `MinScore` zero and a successful initial
evaluation `Optimize` can run more than one evaluation after the initial one,
and can return an error.  With one example and `MaxIterations` three: a metric
that is always -1 never reaches the threshold, and `Forward` is called four
times; a module that fails from its second call on makes every evaluation of the
loop fail, the threshold check is skipped, and `Forward` is called four times;
and with a caller context that is cancelled `Optimize` returns the error
`context canceled`.  The state of the world counts the calls of `Forward`. -/
theorem Optimize_zero_threshold_more_rounds :
    outcome (Optimize callClock id { MaxIterations := 3, MinScore := 0, Timeout := 1000 }
      Background (pureModule classify) [goodExample] (pureMetric fun _ _ => (-1 : ℚ)) 0) =
        some (none, 4) ∧
    outcome (Optimize callClock id { MaxIterations := 3, MinScore := 0, Timeout := 1000 }
      Background (flaky 1 classify) [goodExample] (pureMetric ExactMatch) 0) =
        some (none, 4) ∧
    outcome (Optimize callClock id { MaxIterations := 3, MinScore := 0, Timeout := 1000 }
      (fun _ => some .Canceled) (pureModule classify) [goodExample] (pureMetric ExactMatch) 0) =
        some (some (.context .Canceled), 1) := by
  refine ⟨?_, ?_, ?_⟩
  · have hne : [goodExample] ≠ [] := by simp
    have hval : (([(labelled "positive", (-1 : ℚ))].map Prod.snd).sum /
        (([goodExample].length : ℕ) : ℚ)) = -1 := by norm_num
    rw [Optimize_of_success callClock id _ Background _ _ [goodExample] 0 1 _ hne
      (scoresOf_negative_example 0)]
    simp only [hval]
    have hint : (3 : Int).toNat = 2 + 1 := by decide
    rw [hint, optimizeLoop_continue _ _ [goodExample] _ _ 2 _ 1 2 _ (by decide) hne
      (scoresOf_negative_example 1) (by norm_num) (by rw [hval]; norm_num)]
    simp only [hval, gt_iff_lt, lt_self_iff_false, if_false]
    rw [optimizeLoop_continue _ _ [goodExample] _ _ 1 _ 2 3 _ (by decide) hne
      (scoresOf_negative_example 2) (by norm_num) (by rw [hval]; norm_num)]
    simp only [hval, gt_iff_lt, lt_self_iff_false, if_false]
    rw [optimizeLoop_continue _ _ [goodExample] _ _ 0 _ 3 4 _ (by decide) hne
      (scoresOf_negative_example 3) (by norm_num) (by rw [hval]; norm_num)]
    rfl
  · rw [Optimize_of_success callClock id _ Background _ _ [goodExample] 0 1 _ (by simp)
      scoresOf_flaky_example]
    have hint : (3 : Int).toNat = 3 := by decide
    rw [hint, optimizeLoop_failedRounds _ _ [goodExample] _ _ 3 _ 1 4 failedRounds_example]
    rfl
  · rw [Optimize_context_done callClock id _ _ _ _ [goodExample] 0 1 _ .Canceled (by simp)
      (by decide) (scoresOf_pure_example 0) (by decide)]
    rfl

/-- C23 (amended): the early exit.  With `MinScore` zero, a non-empty list of
examples and a successful initial evaluation: when `MaxIterations` is zero or
negative `Optimize` runs no further evaluation and returns the module it was
given with a nil error; when `MaxIterations` is at least one, the derived
context is not done when the loop first looks at it, the first evaluation of the
loop succeeds, and one of the two mean scores is not negative, `Optimize` runs
exactly one evaluation after the initial one and returns the module it was given
with a nil error, and with a module that records its calls `Forward` is called
on every example once per evaluation, twice in all. -/
theorem Optimize_early_exit {σ ε I O : Type} (clock : σ → Int) (errMsg : ε → Bytes)
    (b : BootstrapOptimizer) (ctx : Context σ) (m : Module σ ε I O) (μ : Metric σ O)
    (examples : List (Example I O)) (st st1 st2 : σ) (ps0 ps1 : List (O × ℚ))
    (log : List (Event I O)) (hmin : b.MinScore = 0) (hne : examples ≠ [])
    (hs0 : scoresOf m μ examples st = some (ps0, st1)) :
    (b.MaxIterations ≤ 0 → Optimize clock errMsg b ctx m examples μ st = some ((m, none), st1)) ∧
    (1 ≤ b.MaxIterations → WithTimeout clock ctx b.Timeout st st1 = none →
      scoresOf m μ examples st1 = some (ps1, st2) →
      (0 ≤ (ps0.map Prod.snd).sum / (examples.length : ℚ) ∨
        0 ≤ (ps1.map Prod.snd).sum / (examples.length : ℚ)) →
      Optimize clock errMsg b ctx m examples μ st = some ((m, none), st2) ∧
      ∃ log', Optimize (fun s => clock s.1) errMsg b (fun s => ctx s.1) (tracedModule m) examples
          (tracedMetric I μ) (st, log) = some ((tracedModule m, none), (st2, log')) ∧
        forwardCalls log' =
          forwardCalls log ++ examples.map Example.Input ++ examples.map Example.Input) := by
  refine ⟨fun hmax => Optimize_no_round clock errMsg b ctx m μ examples st st1 ps0 hne hmax hs0,
    fun hmax hctx hs1 hge => ?_⟩
  rw [← hmin] at hge
  refine ⟨Optimize_one_round clock errMsg b ctx m μ examples st st1 st2 ps0 ps1 hne hmax hs0
    hctx hs1 hge, ?_⟩
  obtain ⟨log1, h1, h2, -⟩ := scoresOf_traced m μ examples st st1 ps0 log hs0
  obtain ⟨log2, h3, h4, -⟩ := scoresOf_traced m μ examples st1 st2 ps1 log1 hs1
  refine ⟨log2, ?_, by rw [h4, h2]⟩
  exact Optimize_one_round _ errMsg b _ (tracedModule m) (tracedMetric I μ) examples (st, log)
    (st1, log1) (st2, log2) ps0 ps1 hne hmax h1 hctx h3 hge

theorem Optimize_early_exit_witness :
    Optimize callClock id { MaxIterations := 2, MinScore := 0, Timeout := 1000 } Background
        (pureModule classify) [goodExample] (pureMetric ExactMatch) 0 =
      some ((pureModule classify, none), 2) :=
  ((Optimize_early_exit callClock id { MaxIterations := 2, MinScore := 0, Timeout := 1000 }
    Background (pureModule classify) (pureMetric ExactMatch) [goodExample] 0 1 2
    [(labelled "positive", 1)] [(labelled "positive", 1)] [] rfl (by simp)
    (scoresOf_pure_example 0)).2 (by decide) (by decide) (scoresOf_pure_example 1)
    (Or.inl (by norm_num))).1

/-- C24 (as stated it fails): with `MaxIterations` zero the loop never looks at
the context: for a caller context that is cancelled from the start and a timeout
of zero, one example and a successful initial evaluation, `Optimize` returns a
nil error. -/
theorem Optimize_expired_without_round :
    WithTimeout callClock (fun _ => some CtxErr.Canceled) 0 0 1 = some .Canceled ∧
    outcome (Optimize callClock id { MaxIterations := 0, MinScore := 8 / 10, Timeout := 0 }
      (fun _ => some .Canceled) (pureModule classify) [goodExample] (pureMetric ExactMatch) 0) =
        some (none, 1) := by
  refine ⟨by decide, ?_⟩
  rw [Optimize_no_round callClock id _ _ _ _ [goodExample] 0 1 _ (by simp) (by decide)
    (scoresOf_pure_example 0)]
  rfl

/-- C24 (amended): the deadline.  With `MaxIterations` at least one, a non-empty
list of examples and a successful initial evaluation, when the derived context
is done at the first look of the loop `Optimize` returns the module it was given
and the error of that context, in the state of the world the initial evaluation
left, and with a module that records its calls `Forward` was called for the
initial evaluation only.  The derived context is done there when the caller
context is, with the same error, and when the timeout is zero or negative and
the clock has not gone back, with `DeadlineExceeded`. -/
theorem Optimize_deadline {σ ε I O : Type} (clock : σ → Int) (errMsg : ε → Bytes)
    (b : BootstrapOptimizer) (ctx : Context σ) (m : Module σ ε I O) (μ : Metric σ O)
    (examples : List (Example I O)) (st st1 : σ) (ps0 : List (O × ℚ)) (e : CtxErr)
    (log : List (Event I O)) (hne : examples ≠ []) (hmax : 1 ≤ b.MaxIterations)
    (hs0 : scoresOf m μ examples st = some (ps0, st1))
    (hctx : WithTimeout clock ctx b.Timeout st st1 = some e) :
    Optimize clock errMsg b ctx m examples μ st = some ((m, some (.context e)), st1) ∧
    (∃ log', Optimize (fun s => clock s.1) errMsg b (fun s => ctx s.1) (tracedModule m) examples
        (tracedMetric I μ) (st, log) = some ((tracedModule m, some (.context e)), (st1, log')) ∧
      forwardCalls log' = forwardCalls log ++ examples.map Example.Input) ∧
    (∀ e', ctx st1 = some e' → WithTimeout clock ctx b.Timeout st st1 = some e') ∧
    (ctx st1 = none → b.Timeout ≤ 0 → clock st ≤ clock st1 →
      WithTimeout clock ctx b.Timeout st st1 = some .DeadlineExceeded) := by
  refine ⟨Optimize_context_done clock errMsg b ctx m μ examples st st1 ps0 e hne hmax hs0 hctx,
    ?_, ?_, ?_⟩
  · obtain ⟨log1, h1, h2, -⟩ := scoresOf_traced m μ examples st st1 ps0 log hs0
    exact ⟨log1, Optimize_context_done _ errMsg b _ (tracedModule m) (tracedMetric I μ) examples
      (st, log) (st1, log1) ps0 e hne hmax h1 hctx, h2⟩
  · intro e' he'
    simp only [WithTimeout, he']
  · intro hc ht hclk
    have : clock st + b.Timeout ≤ clock st1 := by omega
    simp only [WithTimeout, hc, this, if_true]

theorem Optimize_deadline_witness :
    Optimize callClock id { MaxIterations := 10, MinScore := 8 / 10, Timeout := 1 } Background
        (pureModule classify) [goodExample] (pureMetric ExactMatch) 0 =
      some ((pureModule classify, some (.context .DeadlineExceeded)), 1) :=
  (Optimize_deadline callClock id { MaxIterations := 10, MinScore := 8 / 10, Timeout := 1 }
    Background (pureModule classify) (pureMetric ExactMatch) [goodExample] 0 1
    [(labelled "positive", 1)] .DeadlineExceeded [] (by simp) (by decide)
    (scoresOf_pure_example 0) (by decide)).1

/-! ## Lemmas on the number of calls and on termination -/

theorem evaluateLoop_calls {σ ε I O : Type} (m : Module σ ε I O) (μ : Metric σ O) :
    ∀ (l : List (Example I O)) (t : ℚ) (st : σ) (log : List (Event I O))
      (r : (ℚ × Option ε) × σ × List (Event I O)),
      evaluateLoop (tracedModule m) (tracedMetric I μ) l t (st, log) = some r →
        ∃ calls, forwardCalls r.2.2 = forwardCalls log ++ calls ∧ calls.length ≤ l.length
  | [], t, st, log, r, h => by
    simp only [evaluateLoop, Option.some.injEq] at h
    subst h
    exact ⟨[], by simp, by simp⟩
  | ex :: l, t, st, log, r, h => by
    simp only [evaluateLoop, tracedModule_Background] at h
    cases hm : m Background ex.Input st with
    | none => rw [hm] at h; simp at h
    | some x =>
      obtain ⟨⟨p, err⟩, st1⟩ := x
      rw [hm] at h
      cases err with
      | some e =>
        simp only [Option.some.injEq] at h
        subst h
        exact ⟨[ex.Input], by simp [forwardCalls_append, forwardCalls], by simp⟩
      | none =>
        simp only [tracedMetric] at h
        obtain ⟨calls, h1, h2⟩ := evaluateLoop_calls m μ l _ _ _ r h
        refine ⟨ex.Input :: calls, ?_, by simp [h2]⟩
        rw [h1]
        simp [forwardCalls_append, forwardCalls]

theorem Evaluate_calls {σ ε I O : Type} (m : Module σ ε I O) (μ : Metric σ O)
    (l : List (Example I O)) (st : σ) (log : List (Event I O))
    (r : (ℚ × Option ε) × σ × List (Event I O))
    (h : Evaluate (tracedModule m) l (tracedMetric I μ) (st, log) = some r) :
    ∃ calls, forwardCalls r.2.2 = forwardCalls log ++ calls ∧ calls.length ≤ l.length := by
  unfold Evaluate at h
  split_ifs at h
  · simp only [Option.some.injEq] at h
    subst h
    exact ⟨[], by simp, by simp⟩
  · cases he : evaluateLoop (tracedModule m) (tracedMetric I μ) l 0 (st, log) with
    | none => rw [he] at h; simp at h
    | some x =>
      obtain ⟨calls, h1, h2⟩ := evaluateLoop_calls m μ l 0 st log x he
      obtain ⟨⟨total, err⟩, st1⟩ := x
      rw [he] at h
      cases err with
      | none =>
        simp only [Option.some.injEq] at h
        subst h
        exact ⟨calls, h1, h2⟩
      | some e =>
        simp only [Option.some.injEq] at h
        subst h
        exact ⟨calls, h1, h2⟩

theorem optimizeLoop_calls {σ ε I O : Type} (optCtx : Context (σ × List (Event I O)))
    (m : Module σ ε I O) (μ : Metric σ O) (l : List (Example I O)) (minScore : ℚ) :
    ∀ (n : Nat) (best : ℚ) (st : σ) (log : List (Event I O))
      (r : Option CtxErr × σ × List (Event I O)),
      optimizeLoop optCtx (tracedModule m) l (tracedMetric I μ) minScore n best (st, log) =
          some r →
        ∃ calls, forwardCalls r.2.2 = forwardCalls log ++ calls ∧ calls.length ≤ n * l.length
  | 0, best, st, log, r, h => by
    simp only [optimizeLoop, Option.some.injEq] at h
    subst h
    exact ⟨[], by simp, by simp⟩
  | n + 1, best, st, log, r, h => by
    simp only [optimizeLoop] at h
    cases hc : optCtx (st, log) with
    | some e =>
      rw [hc] at h
      simp only [Option.some.injEq] at h
      subst h
      exact ⟨[], by simp, by simp⟩
    | none =>
      rw [hc] at h
      simp only at h
      cases he : Evaluate (tracedModule m) l (tracedMetric I μ) (st, log) with
      | none => rw [he] at h; simp at h
      | some x =>
        obtain ⟨c1, h1, h2⟩ := Evaluate_calls m μ l st log x he
        obtain ⟨⟨score, err⟩, st1, log1⟩ := x
        rw [he] at h
        have hstep : ∀ (best' : ℚ) (r' : Option CtxErr × σ × List (Event I O)),
            optimizeLoop optCtx (tracedModule m) l (tracedMetric I μ) minScore n best'
              (st1, log1) = some r' →
            ∃ calls, forwardCalls r'.2.2 = forwardCalls log ++ calls ∧
              calls.length ≤ (n + 1) * l.length := by
          intro best' r' hr
          obtain ⟨c2, h3, h4⟩ := optimizeLoop_calls optCtx m μ l minScore n best' st1 log1 r' hr
          refine ⟨c1 ++ c2, ?_, ?_⟩
          · rw [h3, h1, List.append_assoc]
          · rw [List.length_append, Nat.add_mul]
            omega
        cases err with
        | some e => exact hstep _ r h
        | none =>
          simp only at h
          by_cases hge : (if score > best then score else best) ≥ minScore
          · rw [if_pos hge] at h
            simp only [Option.some.injEq] at h
            subst h
            refine ⟨c1, h1, ?_⟩
            rw [Nat.add_mul]
            omega
          · rw [if_neg hge] at h
            exact hstep _ r h

theorem Optimize_calls {σ ε I O : Type} (clock : σ × List (Event I O) → Int)
    (errMsg : ε → Bytes) (b : BootstrapOptimizer) (ctx : Context (σ × List (Event I O)))
    (m : Module σ ε I O) (μ : Metric σ O) (l : List (Example I O)) (st : σ)
    (log : List (Event I O))
    (r : (Module (σ × List (Event I O)) ε I O × Option (OptimizeError ε)) × σ × List (Event I O))
    (h : Optimize clock errMsg b ctx (tracedModule m) l (tracedMetric I μ) (st, log) = some r) :
    ∃ calls, forwardCalls r.2.2 = forwardCalls log ++ calls ∧
      calls.length ≤ (b.MaxIterations.toNat + 1) * l.length := by
  unfold Optimize at h
  split_ifs at h
  · simp only [Option.some.injEq] at h
    subst h
    exact ⟨[], by simp, by simp⟩
  · cases he : Evaluate (tracedModule m) l (tracedMetric I μ) (st, log) with
    | none => rw [he] at h; simp at h
    | some x =>
      obtain ⟨c1, h1, h2⟩ := Evaluate_calls m μ l st log x he
      obtain ⟨⟨score, err⟩, st1, log1⟩ := x
      rw [he] at h
      cases err with
      | some e =>
        simp only [Option.some.injEq] at h
        subst h
        refine ⟨c1, h1, ?_⟩
        rw [Nat.add_mul]
        omega
      | none =>
        simp only at h
        cases hl : optimizeLoop (WithTimeout clock ctx b.Timeout (st, log)) (tracedModule m) l
            (tracedMetric I μ) b.MinScore b.MaxIterations.toNat score (st1, log1) with
        | none => rw [hl] at h; simp at h
        | some y =>
          obtain ⟨c2, h3, h4⟩ := optimizeLoop_calls _ m μ l b.MinScore _ score st1 log1 y hl
          obtain ⟨cerr, st2, log2⟩ := y
          rw [hl] at h
          have hres : ∃ calls, forwardCalls log2 = forwardCalls log ++ calls ∧
              calls.length ≤ (b.MaxIterations.toNat + 1) * l.length := by
            refine ⟨c1 ++ c2, ?_, ?_⟩
            · rw [h3, h1, List.append_assoc]
            · rw [List.length_append, Nat.add_mul]
              omega
          cases cerr with
          | some e =>
            simp only [Option.some.injEq] at h
            subst h
            exact hres
          | none =>
            simp only [Option.some.injEq] at h
            subst h
            exact hres

theorem evaluateLoop_isSome {σ ε I O : Type} (m : Module σ ε I O) (μ : Metric σ O)
    (hm : ∀ ctx input st, (m ctx input st).isSome = true) :
    ∀ (l : List (Example I O)) (t : ℚ) (st : σ), (evaluateLoop m μ l t st).isSome = true
  | [], t, st => rfl
  | ex :: l, t, st => by
    simp only [evaluateLoop]
    cases h : m Background ex.Input st with
    | none =>
      have := hm Background ex.Input st
      rw [h] at this
      exact absurd this (by simp)
    | some x =>
      obtain ⟨⟨p, err⟩, st1⟩ := x
      cases err with
      | some e => rfl
      | none => exact evaluateLoop_isSome m μ hm l _ _

theorem Evaluate_isSome {σ ε I O : Type} (m : Module σ ε I O) (μ : Metric σ O)
    (hm : ∀ ctx input st, (m ctx input st).isSome = true) (l : List (Example I O)) (st : σ) :
    (Evaluate m l μ st).isSome = true := by
  unfold Evaluate
  split_ifs
  · rfl
  · have h := evaluateLoop_isSome m μ hm l 0 st
    cases he : evaluateLoop m μ l 0 st with
    | none => rw [he] at h; exact absurd h (by simp)
    | some x =>
      obtain ⟨⟨total, err⟩, st1⟩ := x
      cases err <;> rfl

theorem optimizeLoop_isSome {σ ε I O : Type} (optCtx : Context σ) (m : Module σ ε I O)
    (μ : Metric σ O) (l : List (Example I O)) (minScore : ℚ)
    (hm : ∀ ctx input st, (m ctx input st).isSome = true) :
    ∀ (n : Nat) (best : ℚ) (st : σ),
      (optimizeLoop optCtx m l μ minScore n best st).isSome = true
  | 0, best, st => rfl
  | n + 1, best, st => by
    simp only [optimizeLoop]
    cases optCtx st with
    | some e => rfl
    | none =>
      simp only
      have h := Evaluate_isSome m μ hm l st
      cases he : Evaluate m l μ st with
      | none => rw [he] at h; exact absurd h (by simp)
      | some x =>
        obtain ⟨⟨score, err⟩, st1⟩ := x
        cases err with
        | some e => exact optimizeLoop_isSome optCtx m μ l minScore hm n _ _
        | none =>
          simp only
          by_cases hge : (if score > best then score else best) ≥ minScore
          · rw [if_pos hge]
            rfl
          · rw [if_neg hge]
            exact optimizeLoop_isSome optCtx m μ l minScore hm n _ _

theorem Optimize_isSome {σ ε I O : Type} (clock : σ → Int) (errMsg : ε → Bytes)
    (b : BootstrapOptimizer) (ctx : Context σ) (m : Module σ ε I O) (μ : Metric σ O)
    (l : List (Example I O)) (st : σ)
    (hm : ∀ ctx input st, (m ctx input st).isSome = true) :
    (Optimize clock errMsg b ctx m l μ st).isSome = true := by
  unfold Optimize
  split_ifs
  · rfl
  · have h := Evaluate_isSome m μ hm l st
    cases he : Evaluate m l μ st with
    | none => rw [he] at h; exact absurd h (by simp)
    | some x =>
      obtain ⟨⟨score, err⟩, st1⟩ := x
      cases err with
      | some e => rfl
      | none =>
        simp only
        have h2 := optimizeLoop_isSome (WithTimeout clock ctx b.Timeout st) m μ l b.MinScore hm
          b.MaxIterations.toNat score st1
        cases hl : optimizeLoop (WithTimeout clock ctx b.Timeout st) m l μ b.MinScore
            b.MaxIterations.toNat score st1 with
        | none => rw [hl] at h2; exact absurd h2 (by simp)
        | some y =>
          obtain ⟨cerr, st2⟩ := y
          cases cerr <;> rfl

theorem tracedModule_isSome {σ ε I O : Type} (m : Module σ ε I O)
    (hm : ∀ ctx input st, (m ctx input st).isSome = true)
    (ctx : Context (σ × List (Event I O))) (input : I) (st : σ × List (Event I O)) :
    (tracedModule m ctx input st).isSome = true := by
  have h := hm (fun s => ctx (s, st.2)) input st.1
  simp only [tracedModule]
  cases hc : m (fun s => ctx (s, st.2)) input st.1 with
  | none => rw [hc] at h; exact absurd h (by simp)
  | some x => rfl

theorem evaluateLoop_withBackground {σ ε I O : Type} (m : Module σ ε I O) (μ : Metric σ O) :
    ∀ (l : List (Example I O)) (t : ℚ) (st : σ),
      evaluateLoop (withBackground m) μ l t st = evaluateLoop m μ l t st
  | [], _, _ => rfl
  | ex :: l, t, st => by
    simp only [evaluateLoop]
    rw [show withBackground m Background ex.Input st = m Background ex.Input st from rfl]
    cases m Background ex.Input st with
    | none => rfl
    | some x =>
      obtain ⟨⟨p, err⟩, st1⟩ := x
      cases err with
      | some e => rfl
      | none => exact evaluateLoop_withBackground m μ l _ _

theorem Evaluate_withBackground {σ ε I O : Type} (m : Module σ ε I O) (μ : Metric σ O)
    (l : List (Example I O)) (st : σ) :
    Evaluate (withBackground m) l μ st = Evaluate m l μ st := by
  simp only [Evaluate, evaluateLoop_withBackground]

theorem optimizeLoop_withBackground {σ ε I O : Type} (optCtx : Context σ) (m : Module σ ε I O)
    (μ : Metric σ O) (l : List (Example I O)) (minScore : ℚ) :
    ∀ (n : Nat) (best : ℚ) (st : σ),
      optimizeLoop optCtx (withBackground m) l μ minScore n best st =
        optimizeLoop optCtx m l μ minScore n best st
  | 0, _, _ => rfl
  | n + 1, best, st => by
    simp only [optimizeLoop, Evaluate_withBackground]
    cases optCtx st with
    | some e => rfl
    | none =>
      simp only
      cases Evaluate m l μ st with
      | none => rfl
      | some x =>
        obtain ⟨⟨score, err⟩, st1⟩ := x
        cases err with
        | some e => exact optimizeLoop_withBackground optCtx m μ l minScore n _ _
        | none =>
          simp only
          rw [optimizeLoop_withBackground optCtx m μ l minScore n]

theorem scoresOf_probe_example (seen : List (Option CtxErr)) :
    scoresOf (probe classify) (pureMetric ExactMatch) [goodExample] seen =
      some ([(labelled "positive", 1)], seen ++ [none]) := by
  simp [scoresOf, probe, pureMetric, ExactMatch, goodExample, classify, Background]

/-! ## The bootstrap optimizer: bounds and the context of `Forward` -/

/-- C26 (as stated it fails): with `MaxIterations` zero `Optimize` does not
always perform the initial evaluation and return a nil error.  On an empty list
of examples it returns the error `no examples provided` without calling
`Forward`, and when the initial evaluation fails it returns the wrapped error of
that evaluation. -/
theorem Optimize_no_rounds_can_fail :
    outcome (Optimize callClock id { MaxIterations := 0, MinScore := 8 / 10, Timeout := 1000 }
      Background (pureModule classify) [] (pureMetric ExactMatch) 0) =
        some (some (.errorString (ascii "no examples provided")), 0) ∧
    outcome (Optimize callClock id { MaxIterations := 0, MinScore := 8 / 10, Timeout := 1000 }
      Background (failingOn (ascii "good") (ascii "boom") classify) [goodExample]
      (pureMetric ExactMatch) 0) =
        some (some (.wrapError (ascii "initial evaluation failed: boom") (ascii "boom")), 1) := by
  constructor
  · rfl
  · have h := Optimize_of_failure callClock id
      { MaxIterations := 0, MinScore := 8 / 10, Timeout := 1000 } Background
      (failingOn (ascii "good") (ascii "boom") classify) (pureMetric ExactMatch) [] []
      goodExample 0 0 1 [] (labelled "positive") (ascii "boom") rfl (by decide)
    simp only [List.nil_append] at h
    rw [h]
    rfl

/-- C26 (amended): the loop is bounded.  `Optimize` returns whenever `Forward`
of the module returns (the loop runs at most `max(MaxIterations, 0)` times, the
recursion being on that number); with a module that records its calls, whatever
`Optimize` returns, `Forward` was called at most
`(max(MaxIterations, 0) + 1) * len(examples)` times; and with `MaxIterations`
zero or negative, a non-empty list of examples and a successful initial
evaluation, `Optimize` performs exactly the initial evaluation, one `Forward` on
each example in order, and returns a nil error. -/
theorem Optimize_bounded {σ ε I O : Type} (clock : σ → Int) (errMsg : ε → Bytes)
    (b : BootstrapOptimizer) (ctx : Context σ) (m : Module σ ε I O) (μ : Metric σ O)
    (examples : List (Example I O)) (st : σ) (log : List (Event I O)) :
    ((∀ c input s, (m c input s).isSome = true) →
      (Optimize clock errMsg b ctx m examples μ st).isSome = true ∧
      (Optimize (fun s => clock s.1) errMsg b (fun s => ctx s.1) (tracedModule m) examples
        (tracedMetric I μ) (st, log)).isSome = true) ∧
    (∀ r, Optimize (fun s => clock s.1) errMsg b (fun s => ctx s.1) (tracedModule m) examples
        (tracedMetric I μ) (st, log) = some r →
      ∃ calls, forwardCalls r.2.2 = forwardCalls log ++ calls ∧
        (calls.length : Int) ≤ (max b.MaxIterations 0 + 1) * examples.length) ∧
    (b.MaxIterations ≤ 0 → examples ≠ [] →
      ∀ ps st1, scoresOf m μ examples st = some (ps, st1) →
        Optimize clock errMsg b ctx m examples μ st = some ((m, none), st1) ∧
        ∃ log', Optimize (fun s => clock s.1) errMsg b (fun s => ctx s.1) (tracedModule m)
            examples (tracedMetric I μ) (st, log) =
              some ((tracedModule m, none), (st1, log')) ∧
          forwardCalls log' = forwardCalls log ++ examples.map Example.Input) := by
  refine ⟨fun hm => ⟨Optimize_isSome clock errMsg b ctx m μ examples st hm,
    Optimize_isSome _ errMsg b _ (tracedModule m) (tracedMetric I μ) examples (st, log)
      (tracedModule_isSome m hm)⟩, ?_, ?_⟩
  · intro r hr
    obtain ⟨calls, h1, h2⟩ := Optimize_calls _ errMsg b _ m μ examples st log r hr
    refine ⟨calls, h1, ?_⟩
    rw [← Int.toNat_eq_max]
    exact_mod_cast h2
  · intro hmax hne ps st1 hs
    refine ⟨Optimize_no_round clock errMsg b ctx m μ examples st st1 ps hne hmax hs, ?_⟩
    obtain ⟨log1, h1, h2, -⟩ := scoresOf_traced m μ examples st st1 ps log hs
    exact ⟨log1, Optimize_no_round _ errMsg b _ (tracedModule m) (tracedMetric I μ) examples
      (st, log) (st1, log1) ps hne hmax h1, h2⟩

theorem Optimize_bounded_witness :
    (Optimize callClock id { MaxIterations := 0, MinScore := 8 / 10, Timeout := 1000 }
      Background (pureModule classify) [goodExample] (pureMetric ExactMatch) 0).isSome = true ∧
    Optimize callClock id { MaxIterations := 0, MinScore := 8 / 10, Timeout := 1000 }
      Background (pureModule classify) [goodExample] (pureMetric ExactMatch) 0 =
        some ((pureModule classify, none), 1) :=
  have h := Optimize_bounded callClock id { MaxIterations := 0, MinScore := 8 / 10, Timeout := 1000 }
    Background (pureModule classify) (pureMetric ExactMatch) [goodExample] 0 []
  ⟨(h.1 fun _ _ _ => rfl).1,
    (h.2.2 (by decide) (by simp) [(labelled "positive", 1)] 1 (scoresOf_pure_example 0)).1⟩

/-- C27 (the code differs): `Forward` is called with a context that is not
done although the caller context is cancelled, or the timeout has elapsed, from
the start.  The module records what `Err` of the context it is given returns:
it records nil, and `Optimize` then returns the error of the derived context at
the first look of the loop. -/
theorem Optimize_forward_sees_live_context :
    outcome (Optimize (fun _ => 0) id { MaxIterations := 2, MinScore := 0, Timeout := 1000 }
      (fun _ => some CtxErr.Canceled) (probe classify) [goodExample] (pureMetric ExactMatch) []) =
        some (some (.context .Canceled), [none]) ∧
    outcome (Optimize (fun _ => 0) id { MaxIterations := 2, MinScore := 0, Timeout := 0 }
      Background (probe classify) [goodExample] (pureMetric ExactMatch) []) =
        some (some (.context .DeadlineExceeded), [none]) := by
  constructor
  · rw [Optimize_context_done (fun _ => 0) id
      { MaxIterations := 2, MinScore := 0, Timeout := 1000 } (fun _ => some CtxErr.Canceled)
      (probe classify) (pureMetric ExactMatch) [goodExample] [] [none]
      [(labelled "positive", 1)] .Canceled (by simp) (by decide) (scoresOf_probe_example [])
      rfl]
    rfl
  · rw [Optimize_context_done (fun _ => 0) id
      { MaxIterations := 2, MinScore := 0, Timeout := 0 } Background
      (probe classify) (pureMetric ExactMatch) [goodExample] [] [none]
      [(labelled "positive", 1)] .DeadlineExceeded (by simp) (by decide)
      (scoresOf_probe_example []) (by decide)]
    rfl

/-- Where the context of `Forward` comes from.  Every `Forward` made while
`Optimize` runs, in the initial evaluation and in the loop, goes through
`Evaluate`, which passes `context.Background()`: `Evaluate` and
`Optimize` give the same result, error and state of the world for a module and
for the module that replaces whatever context it is given by
`context.Background()`, and `Err` of `context.Background()` is nil in every
state of the world.  The caller context and the timeout are seen only by the
look at the start of each round of the loop. -/
theorem Optimize_forward_gets_Background {σ ε I O : Type} (clock : σ → Int) (errMsg : ε → Bytes)
    (b : BootstrapOptimizer) (ctx : Context σ) (m : Module σ ε I O) (μ : Metric σ O)
    (examples : List (Example I O)) (st : σ) :
    Evaluate m examples μ st = Evaluate (withBackground m) examples μ st ∧
    outcome (Optimize clock errMsg b ctx m examples μ st) =
      outcome (Optimize clock errMsg b ctx (withBackground m) examples μ st) ∧
    ∀ s : σ, (Background : Context σ) s = none := by
  refine ⟨(Evaluate_withBackground m μ examples st).symm, ?_, fun _ => rfl⟩
  simp only [Optimize, Evaluate_withBackground, optimizeLoop_withBackground]
  split_ifs
  · rfl
  · cases Evaluate m examples μ st with
    | none => rfl
    | some x =>
      obtain ⟨⟨score, err⟩, st1⟩ := x
      cases err with
      | some e => rfl
      | none =>
        simp only
        cases optimizeLoop (WithTimeout clock ctx b.Timeout st) m examples μ b.MinScore
            b.MaxIterations.toNat score st1 with
        | none => rfl
        | some y =>
          obtain ⟨cerr, st2⟩ := y
          cases cerr <;> rfl

/-! ## The teleprompter -/

/-- C28: `Teleprompter.Optimize` is the identity.  For every context, module,
list of examples (the empty one too) and metric it returns the module it was
given with a nil error and leaves the world as it was; with a module and a
metric that record their calls the log is unchanged, so neither `Forward` nor
the metric was called. -/
theorem Teleprompter_Optimize_identity {σ ε I O : Type} (t : Teleprompter) (ctx : Context σ)
    (m : Module σ ε I O) (μ : Metric σ O) (examples : List (Example I O)) (st : σ)
    (log : List (Event I O)) :
    t.Optimize ctx m examples μ st = ((m, none), st) ∧
    t.Optimize ctx m [] μ st = ((m, none), st) ∧
    t.Optimize (fun s => ctx s.1) (tracedModule m) examples (tracedMetric I μ) (st, log) =
      ((tracedModule m, none), (st, log)) :=
  ⟨rfl, rfl, rfl⟩

/-! ## The in-memory store -/

theorem mapIndex_mapAssign_same {V : Type} (m : List (Bytes × V)) (k : Bytes) (v : V) :
    mapIndex (mapAssign m k v) k = some v := by
  unfold mapAssign
  split_ifs with h
  · induction m with
    | nil => simp at h
    | cons e m ih =>
      by_cases he : e.1 = k
      · simp [mapIndex, he]
      · have h' : (m.any fun e => decide (e.1 = k)) = true := by simpa [he] using h
        simp only [List.map_cons, he, if_false, mapIndex]
        exact ih h'
  · induction m with
    | nil => simp [mapIndex]
    | cons e m ih =>
      have he : ¬ e.1 = k := by
        intro he
        exact h (by simp [he])
      have h' : ¬ (m.any fun e => decide (e.1 = k)) = true := by
        intro h'
        exact h (by simp only [List.any_cons, h', Bool.or_true])
      simp only [List.cons_append, mapIndex, he, if_false]
      exact ih h'

theorem mapIndex_mapAssign_other {V : Type} (m : List (Bytes × V)) (k k' : Bytes) (v : V)
    (hk : k' ≠ k) : mapIndex (mapAssign m k v) k' = mapIndex m k' := by
  have hkk : ¬ k = k' := fun h => hk h.symm
  unfold mapAssign
  split_ifs with h
  · clear h
    induction m with
    | nil => rfl
    | cons e m ih =>
      by_cases he : e.1 = k
      · have he' : ¬ e.1 = k' := by
          rw [he]
          exact hkk
        simp only [List.map_cons, he, if_true, mapIndex, hkk, he', if_false]
        exact ih
      · simp only [List.map_cons, he, if_false, mapIndex, ih]
  · clear h
    induction m with
    | nil => simp [mapIndex, hkk]
    | cons e m ih =>
      rw [List.cons_append]
      simp only [mapIndex, ih]

theorem mapDelete_cons_same {V : Type} (e : Bytes × V) (m : List (Bytes × V)) (k : Bytes)
    (he : e.1 = k) : mapDelete (e :: m) k = mapDelete m k := by
  simp [mapDelete, he]

theorem mapDelete_cons_other {V : Type} (e : Bytes × V) (m : List (Bytes × V)) (k : Bytes)
    (he : ¬ e.1 = k) : mapDelete (e :: m) k = e :: mapDelete m k := by
  simp [mapDelete, he]

theorem mapIndex_mapDelete_same {V : Type} (m : List (Bytes × V)) (k : Bytes) :
    mapIndex (mapDelete m k) k = none := by
  induction m with
  | nil => rfl
  | cons e m ih =>
    by_cases he : e.1 = k
    · rw [mapDelete_cons_same e m k he]
      exact ih
    · rw [mapDelete_cons_other e m k he]
      simp only [mapIndex, he, if_false]
      exact ih

theorem mapIndex_mapDelete_other {V : Type} (m : List (Bytes × V)) (k k' : Bytes)
    (hk : k' ≠ k) : mapIndex (mapDelete m k) k' = mapIndex m k' := by
  induction m with
  | nil => rfl
  | cons e m ih =>
    by_cases he : e.1 = k
    · have he' : ¬ e.1 = k' := by
        rw [he]
        exact fun h => hk h.symm
      rw [mapDelete_cons_same e m k he]
      simp only [mapIndex, he', if_false]
      exact ih
    · rw [mapDelete_cons_other e m k he]
      simp only [mapIndex, ih]

theorem after_mapIndex_none {σ V : Type} (ctx : Context σ) (k : Bytes) :
    ∀ (calls : List (StoreCall V × σ)) (s : InMemoryStore V),
      mapIndex s.store k = none → (∀ c ∈ calls, ∀ v, c.1 ≠ .put k v) →
        mapIndex (s.after ctx calls).store k = none
  | [], s, hs, _ => hs
  | (.put key value, w) :: rest, s, hs, hc => by
    simp only [InMemoryStore.after]
    apply after_mapIndex_none ctx k rest _ _ fun c hmem => hc c (List.mem_cons_of_mem _ hmem)
    have hkey : k ≠ key := by
      intro h
      exact hc (.put key value, w) (List.mem_cons_self _ _) value (by rw [h])
    simp only [InMemoryStore.Put]
    cases ctx w with
    | some e => exact hs
    | none => exact (mapIndex_mapAssign_other s.store key k value hkey).trans hs
  | (.delete key, w) :: rest, s, hs, hc => by
    simp only [InMemoryStore.after]
    apply after_mapIndex_none ctx k rest _ _ fun c hmem => hc c (List.mem_cons_of_mem _ hmem)
    simp only [InMemoryStore.Delete]
    cases ctx w with
    | some e => exact hs
    | none =>
      by_cases hkey : k = key
      · rw [hkey]
        exact mapIndex_mapDelete_same s.store key
      · exact (mapIndex_mapDelete_other s.store key k hkey).trans hs
  | (.clear, w) :: rest, s, hs, hc => by
    simp only [InMemoryStore.after]
    apply after_mapIndex_none ctx k rest _ _ fun c hmem => hc c (List.mem_cons_of_mem _ hmem)
    simp only [InMemoryStore.Clear]
    cases ctx w with
    | some e => exact hs
    | none => rfl

/-- C29: the round trip of the store.  With a context that is live at each call:
`Put(k, v)` returns a nil error and `Get(k)` then returns `(v, nil)`; `Get` of
every other key returns what it returned on the store before the `Put`; a later
`Put` on the same key overwrites; and `Get` of a key that no call of the history
of a new store has put, or that `Delete` has removed, or after `Clear`, returns
no value and the error `key not found: ` followed by the key. -/
theorem InMemoryStore_round_trip {σ V : Type} (s : InMemoryStore V) (ctx : Context σ)
    (w0 w1 w2 w3 : σ) (k k' : Bytes) (v v' : V) (calls : List (StoreCall V × σ))
    (h0 : ctx w0 = none) (h1 : ctx w1 = none) (h2 : ctx w2 = none) (h3 : ctx w3 = none) :
    (s.Put ctx w1 k v).1 = none ∧
    (s.Put ctx w1 k v).2.Get ctx w3 k = (some v, none) ∧
    (k' ≠ k → (s.Put ctx w1 k v).2.Get ctx w3 k' = s.Get ctx w0 k') ∧
    ((s.Put ctx w1 k v).2.Put ctx w2 k v').2.Get ctx w3 k = (some v', none) ∧
    ((∀ c ∈ calls, ∀ x, c.1 ≠ .put k x) →
      ((NewInMemoryStore : InMemoryStore V).after ctx calls).Get ctx w3 k =
        (none, some (.keyNotFound k))) ∧
    (s.Delete ctx w1 k).2.Get ctx w3 k = (none, some (.keyNotFound k)) ∧
    (s.Clear ctx w1).2.Get ctx w3 k = (none, some (.keyNotFound k)) ∧
    (StoreError.keyNotFound k).Error = ascii "key not found: " ++ k := by
  refine ⟨?_, ?_, ?_, ?_, ?_, ?_, ?_, rfl⟩
  · simp only [InMemoryStore.Put, h1]
  · simp only [InMemoryStore.Put, InMemoryStore.Get, h1, h3, mapIndex_mapAssign_same]
  · intro hk
    simp only [InMemoryStore.Put, InMemoryStore.Get, h0, h1, h3,
      mapIndex_mapAssign_other s.store k k' v hk]
  · simp only [InMemoryStore.Put, InMemoryStore.Get, h1, h2, h3, mapIndex_mapAssign_same]
  · intro hc
    simp only [InMemoryStore.Get, h3,
      after_mapIndex_none ctx k calls (NewInMemoryStore : InMemoryStore V) rfl hc]
  · simp only [InMemoryStore.Delete, InMemoryStore.Get, h1, h3, mapIndex_mapDelete_same]
  · simp only [InMemoryStore.Clear, InMemoryStore.Get, h1, h3, mapIndex]

theorem InMemoryStore_round_trip_witness :
    (({ store := [(ascii "a", 1)] } : InMemoryStore Nat).Put cancelledWhenNot true
        (ascii "b") 2).2.Get cancelledWhenNot true (ascii "b") = (some 2, none) ∧
    (({ store := [(ascii "a", 1)] } : InMemoryStore Nat).Put cancelledWhenNot true
        (ascii "b") 2).2.Get cancelledWhenNot true (ascii "a") = (some 1, none) ∧
    ((NewInMemoryStore : InMemoryStore Nat).after cancelledWhenNot
        [(.put (ascii "a") 1, true), (.delete (ascii "a"), true)]).Get cancelledWhenNot true
          (ascii "b") = (none, some (.keyNotFound (ascii "b"))) :=
  have h := InMemoryStore_round_trip ({ store := [(ascii "a", 1)] } : InMemoryStore Nat)
    cancelledWhenNot true true true true (ascii "b") (ascii "a") 2 3
    [(.put (ascii "a") 1, true), (.delete (ascii "a"), true)] rfl rfl rfl rfl
  ⟨h.2.1, (h.2.2.1 (by decide)).trans (by decide), h.2.2.2.2.1 (by
    intro c hc x
    simp only [List.mem_cons, List.mem_singleton, List.mem_nil_iff, or_false] at hc
    rcases hc with rfl | rfl
    · intro h
      injection h with h1
      exact absurd h1 (by decide)
    · intro h
      cases h)⟩

/-- C30: the store and a cancelled context.  With a context that is done at the
call, `Put`, `Get`, `Delete` and `Clear` each return the error of the context,
`Get` returns no value, and the store is left exactly as it was, so that a later
`Get` returns, for every key and in every state of the world, what it returns on
the store before the call. -/
theorem InMemoryStore_cancelled {σ V : Type} (s : InMemoryStore V) (ctx : Context σ) (w : σ)
    (e : CtxErr) (k : Bytes) (v : V) (he : ctx w = some e) :
    s.Put ctx w k v = (some (.context e), s) ∧
    s.Get ctx w k = (none, some (.context e)) ∧
    s.Delete ctx w k = (some (.context e), s) ∧
    s.Clear ctx w = (some (.context e), s) ∧
    ∀ (w' : σ) (k' : Bytes),
      (s.Put ctx w k v).2.Get ctx w' k' = s.Get ctx w' k' ∧
      (s.Delete ctx w k).2.Get ctx w' k' = s.Get ctx w' k' ∧
      (s.Clear ctx w).2.Get ctx w' k' = s.Get ctx w' k' := by
  have hp : s.Put ctx w k v = (some (.context e), s) := by simp only [InMemoryStore.Put, he]
  have hd : s.Delete ctx w k = (some (.context e), s) := by simp only [InMemoryStore.Delete, he]
  have hc : s.Clear ctx w = (some (.context e), s) := by simp only [InMemoryStore.Clear, he]
  refine ⟨hp, ?_, hd, hc, fun w' k' => ?_⟩
  · simp only [InMemoryStore.Get, he]
  · rw [hp, hd, hc]
    exact ⟨rfl, rfl, rfl⟩

theorem InMemoryStore_cancelled_witness :
    ({ store := [(ascii "a", 1)] } : InMemoryStore Nat).Put cancelledWhenNot false
        (ascii "a") 2 = (some (.context .Canceled), { store := [(ascii "a", 1)] }) ∧
    ({ store := [(ascii "a", 1)] } : InMemoryStore Nat).Get cancelledWhenNot false (ascii "a") =
      (none, some (.context .Canceled)) ∧
    (({ store := [(ascii "a", 1)] } : InMemoryStore Nat).Put cancelledWhenNot false
        (ascii "a") 2).2.Get cancelledWhenNot true (ascii "a") = (some 1, none) :=
  have h := InMemoryStore_cancelled ({ store := [(ascii "a", 1)] } : InMemoryStore Nat)
    cancelledWhenNot false .Canceled (ascii "a") 2 rfl
  ⟨h.1, h.2.1, ((h.2.2.2.2 true (ascii "a")).1).trans (by decide)⟩

/-! ## Lemmas on the mock client -/

theorem mapIndex_eq_none_iff {V : Type} (m : List (Bytes × V)) (k : Bytes) :
    mapIndex m k = none ↔ ∀ e ∈ m, e.1 ≠ k := by
  induction m with
  | nil => simp [mapIndex]
  | cons e m ih =>
    by_cases he : e.1 = k
    · simp [mapIndex, he]
    · simp [mapIndex, he, ih]

theorem mapIndex_eq_some_iff {V : Type} (m : List (Bytes × V)) (k : Bytes) (r : V)
    (h : (m.map Prod.fst).Nodup) : mapIndex m k = some r ↔ (k, r) ∈ m := by
  induction m with
  | nil => simp [mapIndex]
  | cons e m ih =>
    rw [List.map_cons, List.nodup_cons] at h
    by_cases he : e.1 = k
    · have hnot : (k, r) ∉ m := by
        intro hm
        apply h.1
        rw [he]
        exact List.mem_map.2 ⟨(k, r), hm, rfl⟩
      simp only [mapIndex, he, if_true, Option.some.injEq, List.mem_cons, hnot, or_false]
      constructor
      · intro h2
        rw [← he, ← h2]
      · intro h2
        rw [← h2]
    · have hne : (k, r) ≠ e := by
        intro h2
        apply he
        rw [← h2]
      simp only [mapIndex, he, if_false, List.mem_cons, hne, false_or]
      exact ih h.2

/-- The assignment `m[k] = v` keeps a map a map: one entry per key. -/
theorem mapAssign_keys_nodup {V : Type} (m : List (Bytes × V)) (k : Bytes) (v : V)
    (h : (m.map Prod.fst).Nodup) : ((mapAssign m k v).map Prod.fst).Nodup := by
  unfold mapAssign
  split_ifs with hany
  · have hkeys : (m.map fun e => if e.1 = k then (k, v) else e).map Prod.fst = m.map Prod.fst := by
      rw [List.map_map]
      apply List.map_congr_left
      intro e _
      by_cases he : e.1 = k
      · simp [he]
      · simp [he]
    rw [hkeys]
    exact h
  · rw [List.map_append, List.map_singleton]
    refine List.Nodup.append h (List.nodup_singleton _) ?_
    intro x hx hk
    rw [List.mem_singleton] at hk
    subst hk
    apply hany
    obtain ⟨e, he, hfst⟩ := List.mem_map.1 hx
    exact List.any_eq_true.2 ⟨e, he, by simpa using hfst⟩

/-- Every client built from `NewMockClient` with `WithResponse` and
`WithDefaultResponse` holds a map with one entry per key. -/
theorem MockClient_keys_nodup (m : MockClient) (prompt response : Bytes)
    (h : (m.responses.map Prod.fst).Nodup) :
    (NewMockClient.responses.map Prod.fst).Nodup ∧
    ((m.WithResponse prompt response).responses.map Prod.fst).Nodup ∧
    ((m.WithDefaultResponse response).responses.map Prod.fst).Nodup :=
  ⟨List.nodup_nil, mapAssign_keys_nodup m.responses prompt response h, h⟩

theorem Contains_self (s : Bytes) : Contains s s = true :=
  (Contains_iff_substring s s).2 (List.infix_refl s)

theorem MockClient_Generate_exact {Ctx : Type}
    (order : List (Bytes × Bytes) → List (Bytes × Bytes)) (m : MockClient) (ctx : Ctx)
    (prompt r : Bytes) (h : mapIndex m.responses prompt = some r) :
    m.Generate order ctx prompt = (r, none) := by
  simp only [MockClient.Generate, h]

theorem MockClient_Generate_partial {Ctx : Type}
    (order : List (Bytes × Bytes) → List (Bytes × Bytes)) (m : MockClient) (ctx : Ctx)
    (prompt : Bytes) (e : Bytes × Bytes) (h : mapIndex m.responses prompt = none)
    (hf : ((order m.responses).find? fun e => Contains prompt e.1) = some e) :
    m.Generate order ctx prompt = (e.2, none) := by
  simp only [MockClient.Generate, h, hf]

theorem MockClient_Generate_default {Ctx : Type}
    (order : List (Bytes × Bytes) → List (Bytes × Bytes)) (m : MockClient) (ctx : Ctx)
    (prompt : Bytes) (h : mapIndex m.responses prompt = none)
    (hf : ((order m.responses).find? fun e => Contains prompt e.1) = none) :
    m.Generate order ctx prompt =
      if m.defaultResponse ≠ [] then (m.defaultResponse, none)
      else ([], some (ascii "no response configured for prompt: " ++ prompt)) := by
  simp only [MockClient.Generate, h, hf]

/-- The resolution rule of the mock client, case by case. -/
theorem MockClient_Generate_cases {Ctx : Type}
    (order : List (Bytes × Bytes) → List (Bytes × Bytes)) (m : MockClient) (ctx : Ctx)
    (prompt : Bytes) (hkeys : (m.responses.map Prod.fst).Nodup)
    (horder : (order m.responses).Perm m.responses) :
    (∃ r, (prompt, r) ∈ m.responses ∧ m.Generate order ctx prompt = (r, none)) ∨
    ((∀ e ∈ m.responses, e.1 ≠ prompt) ∧
      ∃ e ∈ m.responses, e.1 <:+: prompt ∧ m.Generate order ctx prompt = (e.2, none)) ∨
    ((∀ e ∈ m.responses, ¬ e.1 <:+: prompt) ∧
      m.Generate order ctx prompt =
        if m.defaultResponse ≠ [] then (m.defaultResponse, none)
        else ([], some (ascii "no response configured for prompt: " ++ prompt))) := by
  cases h : mapIndex m.responses prompt with
  | some r =>
    exact Or.inl ⟨r, (mapIndex_eq_some_iff _ _ _ hkeys).1 h,
      MockClient_Generate_exact order m ctx prompt r h⟩
  | none =>
    right
    cases hf : (order m.responses).find? fun e => Contains prompt e.1 with
    | some e =>
      left
      refine ⟨(mapIndex_eq_none_iff _ _).1 h, e, horder.mem_iff.1 (List.mem_of_find?_eq_some hf),
        ?_, MockClient_Generate_partial order m ctx prompt e h hf⟩
      exact (Contains_iff_substring _ _).1 (by simpa using List.find?_some hf)
    | none =>
      right
      refine ⟨fun e he hsub => ?_, MockClient_Generate_default order m ctx prompt h hf⟩
      have hall := List.find?_eq_none.1 hf e (horder.mem_iff.2 he)
      exact hall (by simpa using (Contains_iff_substring _ _).2 hsub)

/-! ## The clients -/

/-- C31 (as stated it fails): `GenerateWithOptions` and `Generate` need not
return the same result.  With the keys `a` and `b`, the responses `A` and `B`,
and the prompt `ab`, neither key is the prompt and both occur in it: a call that
visits the map in one order returns `A`, a call that visits it in the other
order returns `B`, and Go fixes no order. -/
theorem MockClient_methods_differ_by_order :
    (id ((NewMockClient.WithResponse (ascii "a") (ascii "A")).WithResponse (ascii "b")
      (ascii "B")).responses).Perm
        ((NewMockClient.WithResponse (ascii "a") (ascii "A")).WithResponse (ascii "b")
          (ascii "B")).responses ∧
    (List.reverse ((NewMockClient.WithResponse (ascii "a") (ascii "A")).WithResponse (ascii "b")
      (ascii "B")).responses).Perm
        ((NewMockClient.WithResponse (ascii "a") (ascii "A")).WithResponse (ascii "b")
          (ascii "B")).responses ∧
    ((NewMockClient.WithResponse (ascii "a") (ascii "A")).WithResponse (ascii "b")
      (ascii "B")).Generate id () (ascii "ab") = (ascii "A", none) ∧
    ((NewMockClient.WithResponse (ascii "a") (ascii "A")).WithResponse (ascii "b")
      (ascii "B")).GenerateWithOptions List.reverse () (ascii "ab") none =
        (ascii "B", none) :=
  ⟨List.Perm.refl _, List.reverse_perm _, by decide, by decide⟩

/-- C31 (amended): the resolution rule of `MockClient.Generate`, for a map with
one entry per key and every order in which the map can be visited.  When the
prompt is a
configured key the response of that key is returned, whatever other keys occur
in the prompt; otherwise, when some configured key is a substring of the prompt,
the response of such a key is returned; otherwise the default response when it
is not empty; an error is returned exactly when no configured key is a substring
of the prompt and the default response is empty, with an empty text and the
message `no response configured for prompt: ` followed by the prompt.
`GenerateWithOptions` follows the same rule for every options value (nil too):
it is the same function of the client, the prompt and the visiting order, and
for two visiting orders the two results are equal whenever the prompt is a key
or the keys that occur in the prompt all have the same response. -/
theorem MockClient_Generate_rule {Ctx : Type}
    (order order2 : List (Bytes × Bytes) → List (Bytes × Bytes)) (m : MockClient) (ctx : Ctx)
    (prompt : Bytes) (opts : Option GenerateOptions)
    (hkeys : (m.responses.map Prod.fst).Nodup)
    (horder : (order m.responses).Perm m.responses)
    (horder2 : (order2 m.responses).Perm m.responses) :
    (∀ r, (prompt, r) ∈ m.responses → m.Generate order ctx prompt = (r, none)) ∧
    ((∃ e ∈ m.responses, e.1 <:+: prompt) →
      ∃ e ∈ m.responses, e.1 <:+: prompt ∧ m.Generate order ctx prompt = (e.2, none)) ∧
    ((∀ e ∈ m.responses, ¬ e.1 <:+: prompt) → m.defaultResponse ≠ [] →
      m.Generate order ctx prompt = (m.defaultResponse, none)) ∧
    ((m.Generate order ctx prompt).2 ≠ none ↔
      (∀ e ∈ m.responses, ¬ e.1 <:+: prompt) ∧ m.defaultResponse = []) ∧
    (∀ err, (m.Generate order ctx prompt).2 = some err →
      m.Generate order ctx prompt =
        ([], some (ascii "no response configured for prompt: " ++ prompt))) ∧
    m.GenerateWithOptions order ctx prompt opts = m.Generate order ctx prompt ∧
    (((∃ r, (prompt, r) ∈ m.responses) ∨
        ∀ e1 ∈ m.responses, ∀ e2 ∈ m.responses,
          e1.1 <:+: prompt → e2.1 <:+: prompt → e1.2 = e2.2) →
      m.GenerateWithOptions order2 ctx prompt opts = m.Generate order ctx prompt) := by
  have hexact : ∀ (o : List (Bytes × Bytes) → List (Bytes × Bytes)) (r : Bytes),
      (prompt, r) ∈ m.responses → m.Generate o ctx prompt = (r, none) := fun o r hr =>
    MockClient_Generate_exact o m ctx prompt r ((mapIndex_eq_some_iff _ _ _ hkeys).2 hr)
  have hcases := MockClient_Generate_cases order m ctx prompt hkeys horder
  have hcases2 := MockClient_Generate_cases order2 m ctx prompt hkeys horder2
  refine ⟨hexact order, ?_, ?_, ?_, ?_, rfl, ?_⟩
  · rintro ⟨e0, he0, hsub0⟩
    rcases hcases with ⟨r, hr, hg⟩ | ⟨-, e, he, hsub, hg⟩ | ⟨hno, -⟩
    · exact ⟨(prompt, r), hr, List.infix_refl prompt, hg⟩
    · exact ⟨e, he, hsub, hg⟩
    · exact absurd hsub0 (hno e0 he0)
  · intro hno hdef
    rcases hcases with ⟨r, hr, -⟩ | ⟨-, e, he, hsub, -⟩ | ⟨-, hg⟩
    · exact absurd (List.infix_refl prompt) (hno (prompt, r) hr)
    · exact absurd hsub (hno e he)
    · rw [hg, if_pos hdef]
  · rcases hcases with ⟨r, hr, hg⟩ | ⟨-, e, he, hsub, hg⟩ | ⟨hno, hg⟩
    · rw [hg]
      simp only [ne_eq, not_true_eq_false, false_iff, not_and]
      intro hno
      exact absurd (List.infix_refl prompt) (hno (prompt, r) hr)
    · rw [hg]
      simp only [ne_eq, not_true_eq_false, false_iff, not_and]
      intro hno
      exact absurd hsub (hno e he)
    · rw [hg]
      by_cases hdef : m.defaultResponse = []
      · simp only [hdef, ne_eq, not_true_eq_false, if_false, and_true]
        exact ⟨fun _ => hno, fun _ => by simp⟩
      · simp [hdef]
  · intro err herr
    rcases hcases with ⟨r, hr, hg⟩ | ⟨-, e, he, hsub, hg⟩ | ⟨hno, hg⟩
    · rw [hg] at herr
      exact absurd herr (by simp)
    · rw [hg] at herr
      exact absurd herr (by simp)
    · rw [hg] at herr ⊢
      by_cases hdef : m.defaultResponse = []
      · simp [hdef]
      · simp [hdef] at herr
  · intro hdet
    show m.Generate order2 ctx prompt = m.Generate order ctx prompt
    rcases hdet with ⟨r, hr⟩ | hsame
    · rw [hexact order r hr, hexact order2 r hr]
    · rcases hcases with ⟨r, hr, hg⟩ | ⟨hk, e, he, hsub, hg⟩ | ⟨hno, hg⟩
      · rw [hexact order r hr, hexact order2 r hr]
      · rcases hcases2 with ⟨r, hr, -⟩ | ⟨-, e2, he2, hsub2, hg2⟩ | ⟨hno2, -⟩
        · exact absurd rfl (hk (prompt, r) hr)
        · rw [hg, hg2, hsame e he e2 he2 hsub hsub2]
        · exact absurd hsub (hno2 e he)
      · rcases hcases2 with ⟨r, hr, -⟩ | ⟨-, e2, he2, hsub2, -⟩ | ⟨-, hg2⟩
        · exact absurd (List.infix_refl prompt) (hno (prompt, r) hr)
        · exact absurd hsub2 (hno e2 he2)
        · rw [hg, hg2]

theorem MockClient_Generate_rule_witness :
    ((NewMockClient.WithResponse (ascii "test") (ascii "exact")).WithResponse (ascii "es")
        (ascii "partial")).Generate id () (ascii "test") = (ascii "exact", none) ∧
    ((NewMockClient.WithResponse (ascii "test") (ascii "exact")).WithDefaultResponse
        []).GenerateWithOptions List.reverse () (ascii "other") none =
      ([], some (ascii "no response configured for prompt: other")) ∧
    ((NewMockClient.WithResponse (ascii "test") (ascii "exact")).WithResponse (ascii "es")
        (ascii "partial")).GenerateWithOptions List.reverse () (ascii "yes") none =
      (ascii "partial", none) :=
  have h := MockClient_Generate_rule id List.reverse
    ((NewMockClient.WithResponse (ascii "test") (ascii "exact")).WithResponse (ascii "es")
      (ascii "partial")) () (ascii "test") none (by decide) (List.Perm.refl _)
    (List.reverse_perm _)
  have h2 := MockClient_Generate_rule id List.reverse
    ((NewMockClient.WithResponse (ascii "test") (ascii "exact")).WithDefaultResponse [])
    () (ascii "other") none (by decide) (List.Perm.refl _) (List.reverse_perm _)
  have h3 := MockClient_Generate_rule id List.reverse
    ((NewMockClient.WithResponse (ascii "test") (ascii "exact")).WithResponse (ascii "es")
      (ascii "partial")) () (ascii "yes") none (by decide) (List.Perm.refl _)
    (List.reverse_perm _)
  ⟨h.1 (ascii "exact") (by decide), (h2.2.2.2.2.2.2 (Or.inr (by decide))).trans (by decide),
    (h3.2.2.2.2.2.2 (Or.inr (by decide))).trans (by decide)⟩

/-- C32: missing credentials.  For every client of either provider whose API key
is empty, every transport, context, prompt and options value (nil too), and
every state of the world, `GenerateWithOptions` and `Generate` return the empty
text and the error `ErrClientNotConfigured` with the provider `OpenAI`, or
`Anthropic`, and leave the world as it was: no request is handed to the
transport.  The message of the error is `LLM client not configured: ` followed
by the name of the provider.  A client made with an empty key has an empty key,
and the methods that change the address, the timeout and the default options
keep it. -/
theorem GenerateWithOptions_not_configured {Ctx σ : Type} (http : Transport Ctx σ)
    (o : OpenAIClient) (a : AnthropicClient) (ctx : Ctx) (prompt : Bytes)
    (opts : Option GenerateOptions) (w : σ) (ho : o.apiKey = []) (ha : a.apiKey = []) :
    o.GenerateWithOptions http ctx prompt opts w =
      some (([], some (.notConfigured { Provider := ascii "OpenAI" })), w) ∧
    o.Generate http ctx prompt w =
      some (([], some (.notConfigured { Provider := ascii "OpenAI" })), w) ∧
    a.GenerateWithOptions http ctx prompt opts w =
      some (([], some (.notConfigured { Provider := ascii "Anthropic" })), w) ∧
    a.Generate http ctx prompt w =
      some (([], some (.notConfigured { Provider := ascii "Anthropic" })), w) ∧
    (ClientError.notConfigured { Provider := ascii "OpenAI" }).Error =
      ascii "LLM client not configured: OpenAI" ∧
    (ClientError.notConfigured { Provider := ascii "Anthropic" }).Error =
      ascii "LLM client not configured: Anthropic" ∧
    (∀ provider : Bytes, ({ Provider := provider } : ErrClientNotConfigured).Error =
      ascii "LLM client not configured: " ++ provider) ∧
    (NewOpenAIClient []).apiKey = [] ∧ (NewAnthropicClient []).apiKey = [] ∧
    (∀ (url : Bytes) (t : Int) (d : Option GenerateOptions),
      (o.WithBaseURL url).apiKey = [] ∧ (o.WithTimeout t).apiKey = [] ∧
      (o.WithDefaultOptions d).apiKey = [] ∧ (a.WithBaseURL url).apiKey = [] ∧
      (a.WithTimeout t).apiKey = [] ∧ (a.WithDefaultOptions d).apiKey = []) := by
  have h1 : ∀ opts, o.GenerateWithOptions http ctx prompt opts w =
      some (([], some (.notConfigured { Provider := ascii "OpenAI" })), w) := by
    intro opts
    simp only [OpenAIClient.GenerateWithOptions, ho, if_true]
  have h2 : ∀ opts, a.GenerateWithOptions http ctx prompt opts w =
      some (([], some (.notConfigured { Provider := ascii "Anthropic" })), w) := by
    intro opts
    simp only [AnthropicClient.GenerateWithOptions, ha, if_true]
  exact ⟨h1 opts, h1 _, h2 opts, h2 _, by decide, by decide, fun _ => rfl, rfl, rfl,
    fun _ _ _ => ⟨ho, ho, ho, ha, ha, ha⟩⟩

theorem GenerateWithOptions_not_configured_witness :
    (NewOpenAIClient []).GenerateWithOptions echoTransport () (ascii "hi") none [] =
      some (([], some (.notConfigured { Provider := ascii "OpenAI" })), []) ∧
    (NewAnthropicClient []).Generate echoTransport () (ascii "hi") [] =
      some (([], some (.notConfigured { Provider := ascii "Anthropic" })), []) :=
  have h := GenerateWithOptions_not_configured echoTransport (NewOpenAIClient [])
    (NewAnthropicClient []) () (ascii "hi") none [] rfl rfl
  ⟨h.1, h.2.2.2.1⟩

/-! ## The response parser: a failed structured decode -/

set_option maxRecDepth 100000 in
/-- C33 (the code differs): a failed structured decode leaves a trace.  For the
output record with the text field `Label` and the float field `Score`, the
response that is the JSON object with the members `Label`, the string `x`, and
`Score`, the string `bad`, fails to decode with a type error, no label `Label:`
or `Score:` occurs in it, and field extraction on a fresh record leaves `Label`
empty; yet `parseResponse` returns the record whose `Label` is `x`, the value
the failed decode has stored. -/
theorem parseResponse_keeps_failed_decode :
    looksJson (ascii "\x7b\"Label\":\"x\",\"Score\":\"bad\"\x7d") = true ∧
    jsonUnmarshal excerpt (TrimSpace (ascii "\x7b\"Label\":\"x\",\"Score\":\"bad\"\x7d"))
        scoredLabel (zero scoredLabel) =
      (.struct [.str (ascii "x"), .float 64 0], some .UnmarshalTypeError) ∧
    extractFromText excerpt (ascii "\x7b\"Label\":\"x\",\"Score\":\"bad\"\x7d") scoredLabel
        (zero scoredLabel) = some (.struct [.str [], .float 64 0]) ∧
    parseResponse Bytes excerpt scoredLabel
        (ascii "\x7b\"Label\":\"x\",\"Score\":\"bad\"\x7d") =
      some (.struct [.str (ascii "x"), .float 64 0], none) := by
  decide

/-! ## Lemmas on patterns that are found or not found -/

theorem Index_eq_neg_one_iff (s sep : Bytes) : Index s sep = -1 ↔ indexFrom sep s 0 = none := by
  unfold Index
  cases indexFrom sep s 0 with
  | none => simp
  | some i =>
    simp only [reduceCtorEq, iff_false]

theorem matchPatterns_found (L : Stdlib) (response : Bytes) (k : Kind) (cur : Value)
    (pattern : Bytes) (rest rest2 : List Bytes)
    (h : Index (ToLower L response) (ToLower L pattern) ≠ -1) :
    matchPatterns L response k cur (pattern :: rest) =
      matchPatterns L response k cur (pattern :: rest2) := by
  simp only [matchPatterns, h, ne_eq, not_false_eq_true, if_true]

theorem matchPatterns_all_miss (L : Stdlib) (response : Bytes) (k : Kind) (cur : Value) :
    ∀ pats : List Bytes,
      (∀ pat ∈ pats, Index (ToLower L response) (ToLower L pat) = -1) →
        matchPatterns L response k cur pats = some cur
  | [], _ => rfl
  | pat :: pats, h => by
    rw [matchPatterns_miss L response k cur pat pats
      ((Index_eq_neg_one_iff _ _).1 (h pat (List.mem_cons_self _ _)))]
    exact matchPatterns_all_miss L response k cur pats
      fun q hq => h q (List.mem_cons_of_mem _ hq)

theorem parseFields_no_label (L : Stdlib) (response : Bytes) :
    ∀ (fs : List StructField) (vals : List Value),
      (∀ f ∈ fs, f.IsExported = true →
        ∀ pat ∈ patterns L f.Name, Index (ToLower L response) (ToLower L pat) = -1) →
        parseFields L response fs vals = some vals
  | [], _, _ => by simp [parseFields]
  | _ :: _, [], _ => by simp [parseFields]
  | f :: fs, v :: vs, h => by
    have ih := parseFields_no_label L response fs vs
      fun g hg => h g (List.mem_cons_of_mem _ hg)
    simp only [parseFields, ih, Option.map_some']
    by_cases he : f.IsExported = true
    · rw [matchPatterns_all_miss L response f.Typ v _ (h f (List.mem_cons_self _ _) he)]
      simp [he]
    · simp [he]

theorem matchPatterns_patterns_first (L : Stdlib) (response name : Bytes) (k : Kind)
    (cur : Value) (hname : isASCII name = true) :
    matchPatterns L response k cur (patterns L name) =
      matchPatterns L response k cur [name ++ ascii ":"] := by
  have hp := patterns_lowered L name hname
  simp only [patterns, List.map_cons, List.map_nil, List.cons.injEq, and_true] at hp
  obtain ⟨hp1, hp2, hp3⟩ := hp
  unfold patterns
  by_cases hi : Index (ToLower L response) (ToLower L (name ++ ascii ":")) = -1
  · have hnone := (Index_eq_neg_one_iff _ _).1 hi
    rw [matchPatterns_miss L response k cur _ _ hnone,
      matchPatterns_miss L response k cur _ _ (by rw [hp2, ← hp1]; exact hnone),
      matchPatterns_miss L response k cur _ _ (by rw [hp3, ← hp1]; exact hnone),
      matchPatterns_miss L response k cur _ _ hnone]
  · exact matchPatterns_found L response k cur _ _ _ hi

theorem parseFields_first (L : Stdlib) (response : Bytes) :
    ∀ (fs : List StructField) (vals : List Value),
      (∀ f ∈ fs, f.IsExported = true → isASCII f.Name = true) →
        parseFields L response fs vals = parseFieldsFirst L response fs vals
  | [], _, _ => by simp [parseFields, parseFieldsFirst]
  | _ :: _, [], _ => by simp [parseFields, parseFieldsFirst]
  | f :: fs, v :: vs, h => by
    have ih := parseFields_first L response fs vs fun g hg => h g (List.mem_cons_of_mem _ hg)
    simp only [parseFields, parseFieldsFirst, ih]
    by_cases he : f.IsExported = true
    · rw [matchPatterns_patterns_first L response f.Name f.Typ v
        (h f (List.mem_cons_self _ _) he)]
    · simp [he]

theorem extractFromText_first (L : Stdlib) (response : Bytes) (typ : GoType) (val : GoValue)
    (h : ∀ fs, typ = .struct fs → ∀ f ∈ fs, f.IsExported = true → isASCII f.Name = true) :
    extractFromText L response typ val = extractFromTextFirst L response typ val := by
  cases typ with
  | scalar k => cases k <;> rfl
  | ptr t => rfl
  | struct fs =>
    cases val with
    | struct vals =>
      simp only [extractFromText, extractFromTextFirst,
        parseFields_first L response fs vals (h fs rfl)]
    | scalar v => rfl
    | nil => rfl
    | ref v => rfl

theorem parseResponse_no_label (ε : Type) (L : Stdlib) (fs : List StructField)
    (response : Bytes)
    (hdec : looksJson response = true →
      (jsonUnmarshal L (TrimSpace response) (.struct fs) (zero (.struct fs))).1 =
        zero (.struct fs))
    (hpat : ∀ f ∈ fs, f.IsExported = true →
      ∀ pat ∈ patterns L f.Name, Index (ToLower L response) (ToLower L pat) = -1) :
    parseResponse ε L (.struct fs) response = some (zero (.struct fs), none) := by
  have hz : zero (.struct fs) = .struct (fs.map fun f => zeroValue f.Typ) := rfl
  have hx : extractFromText L response (.struct fs) (zero (.struct fs)) =
      some (zero (.struct fs)) := by
    rw [hz]
    simp only [extractFromText, parseFields_no_label L response fs _ hpat, Option.map_some']
  rw [looksJson] at hdec
  unfold parseResponse
  simp only
  by_cases hj : (HasPrefix (TrimSpace response) (ascii "\x7b") ||
      HasPrefix (TrimSpace response) (ascii "[")) = true
  · rw [hdec hj]
    simp only [hj, true_and, if_true]
    split_ifs
    · rfl
    · rw [hx]
      rfl
  · simp only [hj, false_and, if_false, Bool.false_eq_true]
    rw [hx]
    rfl

/-! ## The predictor: errors, and the three patterns -/

/-- C34: `Forward` returns an error exactly when `Generate` does.  Whenever
`Forward` returns, its error is not nil if and only if the error of the call of
`Generate` is not nil, and an error it returns carries the tag
`predictor.Forward`, never `predictor.parseResponse`; when `Generate` fails,
`Forward` does return, with the zero value of the output type and an error.  And
when `Generate` succeeds with a response in which no pattern of an exported
field of a struct output occurs, and which does not start with a brace or a
bracket or whose structured decode stores nothing, `Forward` returns the zero
record with a nil error. -/
theorem Forward_error_iff {Ctx σ ε : Type} (L : Stdlib) (order : GoMap → GoMap)
    (sig : Signature) (g : Generate Ctx σ ε) (ctx : Ctx) (input : GoValue) (st : σ) :
    (∀ out err st1, Forward L order { Signature := sig, Client := g } ctx input st =
        some ((out, err), st1) →
      (err ≠ none ↔ (g ctx (buildPrompt L order sig input) st).1.2 ≠ none) ∧
      ∀ e, err = some e →
        e.Op = ascii "predictor.Forward" ∧ e.Op ≠ ascii "predictor.parseResponse") ∧
    ((g ctx (buildPrompt L order sig input) st).1.2 ≠ none →
      ∃ e, Forward L order { Signature := sig, Client := g } ctx input st =
        some ((zero sig.O, some e), (g ctx (buildPrompt L order sig input) st).2)) ∧
    (∀ (fs : List StructField) (response : Bytes), sig.O = .struct fs →
      (g ctx (buildPrompt L order sig input) st).1 = (response, none) →
      (looksJson response = true →
        (jsonUnmarshal L (TrimSpace response) (.struct fs) (zero (.struct fs))).1 =
          zero (.struct fs)) →
      (∀ f ∈ fs, f.IsExported = true →
        ∀ pat ∈ patterns L f.Name, Index (ToLower L response) (ToLower L pat) = -1) →
      Forward L order { Signature := sig, Client := g } ctx input st =
        some ((zero (.struct fs), none), (g ctx (buildPrompt L order sig input) st).2)) := by
  refine ⟨?_, ?_, ?_⟩
  · intro out err st1 h
    simp only [Forward] at h
    cases hg : (g ctx (buildPrompt L order sig input) st).1.2 with
    | some e0 =>
      rw [hg] at h
      simp only [Option.some.injEq, Prod.mk.injEq] at h
      obtain ⟨⟨-, herr⟩, -⟩ := h
      subst herr
      refine ⟨by simp, fun e he => ?_⟩
      simp only [Option.some.injEq] at he
      subst he
      refine ⟨rfl, ?_⟩
      show ascii "predictor.Forward" ≠ ascii "predictor.parseResponse"
      decide
    | none =>
      rw [hg] at h
      simp only at h
      cases hp : parseResponse ε L sig.O (g ctx (buildPrompt L order sig input) st).1.1 with
      | none => rw [hp] at h; exact absurd h (by simp)
      | some pr =>
        obtain ⟨parsed, perr⟩ := pr
        have hnil := parseResponse_err_nil ε L sig.O _ parsed perr hp
        subst hnil
        rw [hp] at h
        simp only [Option.some.injEq, Prod.mk.injEq] at h
        obtain ⟨⟨-, herr⟩, -⟩ := h
        subst herr
        exact ⟨by simp, fun e he => absurd he (by simp)⟩
  · intro hg
    cases hg2 : (g ctx (buildPrompt L order sig input) st).1.2 with
    | none => exact absurd hg2 hg
    | some e0 =>
      refine ⟨ErrModuleExecution (ascii "predictor.Forward") (some e0), ?_⟩
      simp only [Forward, hg2]
  · intro fs response hO hg hdec hpat
    have hg1 : (g ctx (buildPrompt L order sig input) st).1.1 = response := by rw [hg]
    have hg2 : (g ctx (buildPrompt L order sig input) st).1.2 = none := by rw [hg]
    simp only [Forward, hg1, hg2, hO, parseResponse_no_label ε L fs response hdec hpat]

set_option maxRecDepth 100000 in
theorem Forward_error_iff_witness :
    Forward excerpt id { Signature := qaSignature, Client := answering (ascii "I do not know.") }
        () (.struct [.str (ascii "What is Go?")]) 0 =
      some ((.struct [.str []], none), 1) :=
  (Forward_error_iff excerpt id qaSignature (answering (ascii "I do not know.")) ()
    (.struct [.str (ascii "What is Go?")]) 0).2.2 [field "Answer" .String]
    (ascii "I do not know.") rfl rfl (by decide) (by decide)

/-- C35: the three patterns are redundant.  For an output type whose exported
field names are ASCII, and every response, `parseResponse` returns what the
parser that tries only the pattern `Name:` returns, a run-time panic included;
and each of the three patterns of such a name has the lower-cased form of the
first one, so that the three searches look for the same text. -/
theorem parseResponse_first_pattern (ε : Type) (L : Stdlib) (O : GoType) (response : Bytes)
    (hnames : ∀ f ∈ outputFields O, f.IsExported = true → isASCII f.Name = true) :
    parseResponse ε L O response = parseResponseFirst ε L O response ∧
    ∀ f ∈ outputFields O, f.IsExported = true →
      ∀ pat ∈ patterns L f.Name, ToLower L pat = ToLower L (f.Name ++ ascii ":") := by
  constructor
  · cases O with
    | scalar k =>
      simp only [parseResponse, parseResponseFirst]
      rw [extractFromText_first L response _ _ (fun fs h => by cases h)]
    | struct fs =>
      simp only [parseResponse, parseResponseFirst]
      rw [extractFromText_first L response _ _ (fun fs2 h => by
        cases h
        exact hnames)]
    | ptr t =>
      simp only [parseResponse, parseResponseFirst]
      rw [extractFromText_first L response _ _ (fun fs2 h => by
        subst h
        exact hnames)]
  · intro f hf he pat hpat
    have hp := patterns_lowered L f.Name (hnames f hf he)
    simp only [patterns, List.map_cons, List.map_nil, List.cons.injEq, and_true] at hp
    obtain ⟨hp1, hp2, hp3⟩ := hp
    simp only [patterns, List.mem_cons, List.mem_singleton, List.mem_nil_iff, or_false] at hpat
    rcases hpat with rfl | rfl | rfl
    · rfl
    · rw [hp2, hp1]
    · rw [hp3, hp1]

theorem parseResponse_first_pattern_witness :
    parseResponse Unit excerpt (.struct [field "Answer" .String])
        (ascii "Intro\nanswer: Go is a language. \nAnswer: no") =
      parseResponseFirst Unit excerpt (.struct [field "Answer" .String])
        (ascii "Intro\nanswer: Go is a language. \nAnswer: no") :=
  (parseResponse_first_pattern Unit excerpt (.struct [field "Answer" .String])
    (ascii "Intro\nanswer: Go is a language. \nAnswer: no") (by decide)).1

/-! ## Lemmas on the range of the scores -/

theorem evaluateLoop_range {σ ε I O : Type} (m : Module σ ε I O) (μ : Metric σ O) (lo hi : ℚ)
    (hμ : ∀ p e s, lo ≤ (μ p e s).1 ∧ (μ p e s).1 ≤ hi) :
    ∀ (l : List (Example I O)) (total : ℚ) (st : σ) (total2 : ℚ) (st2 : σ),
      evaluateLoop m μ l total st = some ((total2, none), st2) →
        total + lo * (l.length : ℚ) ≤ total2 ∧ total2 ≤ total + hi * (l.length : ℚ)
  | [], total, st, total2, st2, h => by
    simp only [evaluateLoop, Option.some.injEq, Prod.mk.injEq, and_true] at h
    rw [← h.1]
    simp
  | ex :: l, total, st, total2, st2, h => by
    simp only [evaluateLoop] at h
    cases hm : m Background ex.Input st with
    | none => rw [hm] at h; exact absurd h (by simp)
    | some x =>
      obtain ⟨⟨p, err⟩, st1⟩ := x
      rw [hm] at h
      cases err with
      | some e => exact absurd h (by simp)
      | none =>
        simp only at h
        obtain ⟨h1, h2⟩ := evaluateLoop_range m μ lo hi hμ l _ _ total2 st2 h
        obtain ⟨h3, h4⟩ := hμ p ex.Output st1
        simp only [List.length_cons, Nat.cast_add, Nat.cast_one]
        constructor
        · linarith
        · linarith

theorem Evaluate_range {σ ε I O : Type} (m : Module σ ε I O) (μ : Metric σ O) (lo hi : ℚ)
    (hμ : ∀ p e s, lo ≤ (μ p e s).1 ∧ (μ p e s).1 ≤ hi) (l : List (Example I O)) (hne : l ≠ [])
    (st : σ) (score : ℚ) (st2 : σ) (h : Evaluate m l μ st = some ((score, none), st2)) :
    lo ≤ score ∧ score ≤ hi := by
  have hlen : (0 : ℚ) < (l.length : ℚ) := by
    have : 0 < l.length := List.length_pos.2 hne
    exact_mod_cast this
  simp only [Evaluate, length_ne_zero_of_ne_nil hne, if_false] at h
  cases he : evaluateLoop m μ l 0 st with
  | none => rw [he] at h; exact absurd h (by simp)
  | some x =>
    obtain ⟨⟨total, err⟩, st1⟩ := x
    rw [he] at h
    cases err with
    | some e => exact absurd h (by simp)
    | none =>
      simp only [Option.some.injEq, Prod.mk.injEq, and_true] at h
      obtain ⟨h1, h2⟩ := evaluateLoop_range m μ lo hi hμ l 0 st total st1 he
      rw [zero_add] at h1 h2
      rw [← h.1]
      exact ⟨(le_div_iff₀ hlen).2 h1, (div_le_iff₀ hlen).2 h2⟩

theorem optimizeLoopBest_fst {σ ε I O : Type} (optCtx : Context σ) (m : Module σ ε I O)
    (μ : Metric σ O) (l : List (Example I O)) (minScore : ℚ) :
    ∀ (n : Nat) (best : ℚ) (st : σ),
      (optimizeLoopBest optCtx m l μ minScore n best st).map Prod.fst =
        optimizeLoop optCtx m l μ minScore n best st
  | 0, _, _ => rfl
  | n + 1, best, st => by
    simp only [optimizeLoopBest, optimizeLoop]
    cases optCtx st with
    | some e => rfl
    | none =>
      simp only
      cases Evaluate m l μ st with
      | none => rfl
      | some x =>
        obtain ⟨⟨score, err⟩, st1⟩ := x
        cases err with
        | some e => exact optimizeLoopBest_fst optCtx m μ l minScore n _ _
        | none =>
          simp only
          by_cases hge : (if score > best then score else best) ≥ minScore
          · rw [if_pos hge, if_pos hge]
            rfl
          · rw [if_neg hge, if_neg hge, ← optimizeLoopBest_fst optCtx m μ l minScore n _ _,
              Option.map_map]
            rfl

theorem optimizeLoopBest_range {σ ε I O : Type} (optCtx : Context σ) (m : Module σ ε I O)
    (μ : Metric σ O) (l : List (Example I O)) (minScore lo hi : ℚ)
    (hμ : ∀ p e s, lo ≤ (μ p e s).1 ∧ (μ p e s).1 ≤ hi) (hne : l ≠ []) :
    ∀ (n : Nat) (best : ℚ) (st : σ) (r : Option CtxErr × σ) (trace : List ℚ),
      lo ≤ best → best ≤ hi →
      optimizeLoopBest optCtx m l μ minScore n best st = some (r, trace) →
        List.Chain (· ≤ ·) best trace ∧ ∀ x ∈ trace, lo ≤ x ∧ x ≤ hi
  | 0, best, st, r, trace, _, _, h => by
    simp only [optimizeLoopBest, Option.some.injEq, Prod.mk.injEq] at h
    rw [← h.2]
    exact ⟨List.Chain.nil, by simp⟩
  | n + 1, best, st, r, trace, hlo, hhi, h => by
    simp only [optimizeLoopBest] at h
    cases hc : optCtx st with
    | some e =>
      rw [hc] at h
      simp only [Option.some.injEq, Prod.mk.injEq] at h
      rw [← h.2]
      exact ⟨List.Chain.nil, by simp⟩
    | none =>
      rw [hc] at h
      simp only at h
      cases he : Evaluate m l μ st with
      | none => rw [he] at h; exact absurd h (by simp)
      | some x =>
        obtain ⟨⟨score, err⟩, st1⟩ := x
        rw [he] at h
        cases err with
        | some e =>
          exact optimizeLoopBest_range optCtx m μ l minScore lo hi hμ hne n best st1 r trace
            hlo hhi h
        | none =>
          simp only at h
          obtain ⟨hs1, hs2⟩ := Evaluate_range m μ lo hi hμ l hne st score st1 he
          have hb1 : best ≤ (if score > best then score else best) := by
            split_ifs with hgt
            · exact le_of_lt hgt
            · exact le_refl _
          have hb2 : lo ≤ (if score > best then score else best) := le_trans hlo hb1
          have hb3 : (if score > best then score else best) ≤ hi := by
            split_ifs
            · exact hs2
            · exact hhi
          by_cases hge : (if score > best then score else best) ≥ minScore
          · rw [if_pos hge] at h
            simp only [Option.some.injEq, Prod.mk.injEq] at h
            rw [← h.2]
            refine ⟨List.Chain.cons hb1 List.Chain.nil, fun x hx => ?_⟩
            rw [List.mem_singleton] at hx
            rw [hx]
            exact ⟨hb2, hb3⟩
          · rw [if_neg hge] at h
            cases hrec : optimizeLoopBest optCtx m l μ minScore n
                (if score > best then score else best) st1 with
            | none => rw [hrec] at h; exact absurd h (by simp)
            | some y =>
              obtain ⟨r2, trace2⟩ := y
              rw [hrec] at h
              simp only [Option.map_some', Option.some.injEq, Prod.mk.injEq] at h
              obtain ⟨ih1, ih2⟩ := optimizeLoopBest_range optCtx m μ l minScore lo hi hμ hne n _
                st1 r2 trace2 hb2 hb3 hrec
              rw [← h.2]
              refine ⟨List.Chain.cons hb1 ih1, fun x hx => ?_⟩
              rcases List.mem_cons.1 hx with hx | hx
              · rw [hx]
                exact ⟨hb2, hb3⟩
              · exact ih2 x hx

theorem Evaluate_pure_example (calls : Nat) :
    Evaluate (pureModule classify) [goodExample] (pureMetric ExactMatch) calls =
      some ((1, none), calls + 1) := by
  rw [Evaluate_of_scores _ _ [goodExample] calls (calls + 1) _ (by simp)
    (scoresOf_pure_example calls)]
  norm_num

theorem ExactMatch_range {O : Type} [DecidableEq O] (p e : O) :
    0 ≤ ExactMatch p e ∧ ExactMatch p e ≤ 1 := by
  unfold ExactMatch
  split_ifs <;> norm_num

theorem StringContains_range (L : Stdlib) (p e : Bytes) :
    0 ≤ StringContains L p e ∧ StringContains L p e ≤ 1 := by
  unfold StringContains
  split_ifs <;> norm_num

/-! ## The range of the scores -/

theorem scoresOf_mixed_example (calls : Nat) :
    scoresOf (pureModule classify) (pureMetric ExactMatch) mixedExamples calls =
      some ([(labelled "positive", 1), (labelled "negative", 0), (labelled "positive", 1)],
        calls + 3) := by
  have h1 : classify (ascii "good") = labelled "positive" := by decide
  have h2 : classify (ascii "bad") = labelled "negative" := by decide
  have h3 : ExactMatch (labelled "positive") (labelled "positive") = (1 : ℚ) := by
    simp [ExactMatch]
  have h4 : ExactMatch (labelled "negative") (labelled "positive") = (0 : ℚ) := by
    rw [ExactMatch, if_neg (by decide)]
  simp only [scoresOf, pureModule, pureMetric, mixedExamples, goodExample, h1, h2, h3, h4]

theorem Evaluate_mixed_example (calls : Nat) :
    Evaluate (pureModule classify) mixedExamples (pureMetric ExactMatch) calls =
      some ((2 / 3, none), calls + 3) := by
  rw [Evaluate_of_scores _ _ mixedExamples calls (calls + 3) _ (by simp [mixedExamples])
    (scoresOf_mixed_example calls)]
  norm_num [mixedExamples]

theorem optimizeLoopBest_mixed_example :
    optimizeLoopBest (WithTimeout callClock Background 1000 0) (pureModule classify)
        mixedExamples (pureMetric ExactMatch) (8 / 10) 2 (2 / 3) 3 =
      some ((none, 9), [2 / 3, 2 / 3]) := by
  have hc : ∀ calls : Nat, calls < 1000 →
      WithTimeout callClock Background 1000 0 calls = none := by
    intro calls h
    simp only [WithTimeout, Background, callClock]
    rw [if_neg (by omega)]
  have hlt : ¬ ((2 / 3 : ℚ) ≥ 8 / 10) := by norm_num
  simp only [optimizeLoopBest, hc 3 (by omega), hc 6 (by omega), Evaluate_mixed_example,
    gt_iff_lt, lt_self_iff_false, if_false, hlt, Option.map_some']

set_option maxRecDepth 100000 in
/-- The `float64` model on values known from IEEE 754: 0.1 + 0.2 is the float
above 0.3; 1/3 has the mantissa `0x15555555555555`; the integer `2^53 + 1`
rounds to `2^53` and `2^53 + 3` to `2^53 + 4`, ties going to even; half of the
least subnormal rounds to zero and three halves of it to twice it; a division of
a non-zero value by zero is infinite and 0/0 is NaN, which no comparison
holds of. -/
theorem Float64_known_values :
    Float64.add (Float64.div (Float64.ofNat 1) (Float64.ofNat 10))
        (Float64.div (Float64.ofNat 2) (Float64.ofNat 10)) =
      .finite false 5404319552844596 (-54) ∧
    Float64.div (Float64.ofNat 3) (Float64.ofNat 10) = .finite false 5404319552844595 (-54) ∧
    Float64.div (Float64.ofNat 1) (Float64.ofNat 3) = .finite false 0x15555555555555 (-54) ∧
    Float64.ofNat (2 ^ 53 + 1) = .finite false (2 ^ 52) 1 ∧
    Float64.ofNat (2 ^ 53 + 3) = .finite false (2 ^ 52 + 2) 1 ∧
    Float64.div (.finite false 1 (-1074)) (Float64.ofNat 2) = Float64.zero ∧
    Float64.div (.finite false 3 (-1074)) (Float64.ofNat 2) = .finite false 2 (-1074) ∧
    Float64.div (Float64.ofNat 1) Float64.zero = .inf false ∧
    Float64.div Float64.zero Float64.zero = .nan ∧
    Float64.lt .nan point7 = false ∧ Float64.le point7 .nan = false := by
  decide

set_option maxRecDepth 100000 in
/-- C36 (as stated it fails): with the `float64` arithmetic of the source the
mean leaves the range of the metric.  The metric returns 0.7 for every pair, so
`lo` and `hi` can both be taken as 0.7; on three examples on which every
`Forward` succeeds the total is 0.7 + 0.7 + 0.7, rounded twice, and `Evaluate`
returns 0.6999999999999998, which is less than 0.7.  In the loop of `Optimize`
with `MinScore` 0.7 and three iterations every value of `bestScore` is that
score, below `lo`, and the threshold is never met: twelve calls of `Forward` in
all. -/
theorem EvaluateFloat64_below_range :
    Float64.div (Float64.ofNat 7) (Float64.ofNat 10) = point7 ∧
    (always07 (labelled "positive") (labelled "positive") 0).1 = point7 ∧
    EvaluateFloat64 (pureModule classify) [goodExample, goodExample, goodExample] always07 0 =
      some ((belowPoint7, none), 3) ∧
    belowPoint7.lt point7 = true ∧
    point7.le belowPoint7 = false ∧
    optimizeLoopBestFloat64 Background (pureModule classify)
        [goodExample, goodExample, goodExample] always07 point7 3 belowPoint7 3 =
      some ((none, 12), [belowPoint7, belowPoint7, belowPoint7]) := by
  decide

/-- C36 (amended): over exact arithmetic `Evaluate` keeps the range of the
metric, and so does the best score of the optimizer.  When the metric returns a
value between `lo` and `hi` for every pair, and the list of examples is not
empty: a score `Evaluate` returns with a nil error, that is when every `Forward`
succeeds, lies between `lo` and `hi`; and in `Optimize`, after a successful
initial evaluation, the values `bestScore` takes in the loop, starting from the
initial score, never decrease and all lie between `lo` and `hi`, the loop with
these values written down being the loop of `Optimize`.  `ExactMatch` and
`StringContains` return values between 0 and 1. -/
theorem Evaluate_preserves_range {σ ε I O : Type} (m : Module σ ε I O) (μ : Metric σ O)
    (examples : List (Example I O)) (lo hi : ℚ)
    (hμ : ∀ p e s, lo ≤ (μ p e s).1 ∧ (μ p e s).1 ≤ hi) (hne : examples ≠ []) :
    (∀ st score st1, Evaluate m examples μ st = some ((score, none), st1) →
      lo ≤ score ∧ score ≤ hi) ∧
    (∀ (clock : σ → Int) (errMsg : ε → Bytes) (b : BootstrapOptimizer) (ctx : Context σ)
      (st : σ) (initialScore : ℚ) (st1 : σ),
      Evaluate m examples μ st = some ((initialScore, none), st1) →
      (optimizeLoopBest (WithTimeout clock ctx b.Timeout st) m examples μ b.MinScore
          b.MaxIterations.toNat initialScore st1).map Prod.fst =
        optimizeLoop (WithTimeout clock ctx b.Timeout st) m examples μ b.MinScore
          b.MaxIterations.toNat initialScore st1 ∧
      ∀ r trace,
        optimizeLoopBest (WithTimeout clock ctx b.Timeout st) m examples μ b.MinScore
          b.MaxIterations.toNat initialScore st1 = some (r, trace) →
        Optimize clock errMsg b ctx m examples μ st =
          some ((m, r.1.map OptimizeError.context), r.2) ∧
        List.Chain (· ≤ ·) initialScore trace ∧
        ∀ x ∈ initialScore :: trace, lo ≤ x ∧ x ≤ hi) ∧
    (∀ (p e : GoValue), 0 ≤ ExactMatch p e ∧ ExactMatch p e ≤ 1) ∧
    (∀ (L : Stdlib) (p e : Bytes), 0 ≤ StringContains L p e ∧ StringContains L p e ≤ 1) := by
  refine ⟨fun st score st1 h => Evaluate_range m μ lo hi hμ examples hne st score st1 h, ?_,
    fun p e => ExactMatch_range p e, fun L p e => StringContains_range L p e⟩
  intro clock errMsg b ctx st initialScore st1 h0
  refine ⟨optimizeLoopBest_fst _ m μ examples b.MinScore _ _ _, fun r trace hb => ?_⟩
  obtain ⟨hr1, hr2⟩ := Evaluate_range m μ lo hi hμ examples hne st initialScore st1 h0
  obtain ⟨hc1, hc2⟩ := optimizeLoopBest_range _ m μ examples b.MinScore lo hi hμ hne _ _ _ r
    trace hr1 hr2 hb
  refine ⟨?_, hc1, fun x hx => ?_⟩
  · have hloop := optimizeLoopBest_fst (WithTimeout clock ctx b.Timeout st) m μ examples
      b.MinScore b.MaxIterations.toNat initialScore st1
    rw [hb] at hloop
    simp only [Option.map_some'] at hloop
    simp only [Optimize, length_ne_zero_of_ne_nil hne, if_false, h0, ← hloop]
    obtain ⟨cerr, st2⟩ := r
    cases cerr <;> rfl
  · rcases List.mem_cons.1 hx with hx | hx
    · rw [hx]
      exact ⟨hr1, hr2⟩
    · exact hc2 x hx

theorem Evaluate_preserves_range_witness :
    Evaluate (pureModule classify) mixedExamples (pureMetric ExactMatch) 0 =
      some ((2 / 3, none), 3) ∧
    ((0 : ℚ) ≤ 2 / 3 ∧ (2 / 3 : ℚ) ≤ 1) ∧
    optimizeLoopBest (WithTimeout callClock Background 1000 0) (pureModule classify)
        mixedExamples (pureMetric ExactMatch) (8 / 10) 2 (2 / 3) 3 =
      some ((none, 9), [2 / 3, 2 / 3]) ∧
    List.Chain (· ≤ ·) (2 / 3 : ℚ) [2 / 3, 2 / 3] ∧
    ∀ x ∈ [(2 / 3 : ℚ), 2 / 3, 2 / 3], 0 ≤ x ∧ x ≤ 1 :=
  have h := Evaluate_preserves_range (pureModule classify) (pureMetric ExactMatch)
    mixedExamples 0 1 (fun p e _ => ExactMatch_range p e) (by simp [mixedExamples])
  have h2 := (h.2.1 callClock id { MaxIterations := 2, MinScore := 8 / 10, Timeout := 1000 }
    Background 0 (2 / 3) 3 (Evaluate_mixed_example 0)).2 (none, 9) [2 / 3, 2 / 3]
    optimizeLoopBest_mixed_example
  ⟨Evaluate_mixed_example 0, h.1 0 (2 / 3) 3 (Evaluate_mixed_example 0),
    optimizeLoopBest_mixed_example, h2.2.1, h2.2.2⟩

end GoDspy
